import Mathlib

/-!
Verification of the trident adapter's per-dispatcher reordering window
(`src/adapter/trident_adapter.go`, function `cacheLookup` and its caller
`findAndAdd`) and of the tunnel decapsulator contract exercised by the
`datatype` tests.

The Go code is shallowly embedded: the window state (`tridentDispatcher`)
becomes a Lean structure whose two per-slot arrays are total functions on
slot indices (the code only touches indices `< cacheSize`); the bounded
`for` loops of `cacheLookup` become structurally recursive functions on an
explicit iteration budget equal to the loop bound in the source; delivery
to a downstream slave queue (`slaves[p.hash&...].put(p)`) is recorded by
appending the packet to an output list, and `releasePacketBuffer` by
appending to a released list.  `uint64` quantities are modelled as `Nat`
(the 64-bit counters never wrap in the wire contract, where sequence
numbers start at 1) and `time.Duration` as `Int` (signed 64-bit
nanoseconds).  Index arithmetic `x & (cacheSize-1)` is written `x % c`:
the adapter only ever passes a power of two for `cacheSize` (it rounds the
configured size with `minPowerOfTwo`), and for such `c` the two agree.
-/

namespace TridentAdapter

/-- Wire packet as seen by `cacheLookup`: the decoded sequence number
`decoder.Seq()`, the decoded `decoder.timestamp` (a Go `time.Duration`),
and the dispatch hash (`packetBuffer`, trident_adapter.go lines 33-38). -/
structure PacketBuffer where
  seq : Nat
  timestamp : Int
  hash : Nat
deriving DecidableEq

/-- Constant `TRIDENT_TIMEOUT = 2 * time.Second` (line 22), in nanoseconds. -/
def TRIDENT_TIMEOUT : Int := 2000000000

/-- Per-(sender, dispatcher-index) reordering window (`tridentDispatcher`,
lines 40-47).  `cache` and `timestamp` are the two length-`cacheSize`
slices, modelled as total functions; `seq` is the sequence number of the
slot at `startIndex` (the Go field comment: cache中的第一个seq). -/
structure TridentDispatcher where
  cache : Nat → Option PacketBuffer
  timestamp : Nat → Int
  maxTimestamp : Int
  dropped : Nat
  seq : Nat
  startIndex : Nat

/-- Pointwise slice write `f[i] = v`. -/
def setF {α : Type} (f : Nat → α) (i : Nat) (v : α) : Nat → α :=
  fun j => if j = i then v else f j

/-- One slot of the restart purge (lines 160-166): release any cached
packet at slot `i`, clear the slot, zero the slot timestamp. -/
def purgeStep (s : TridentDispatcher × List PacketBuffer) (i : Nat) :
    TridentDispatcher × List PacketBuffer :=
  match s.1.cache i with
  | some p =>
    ({ s.1 with cache := setF s.1.cache i none, timestamp := setF s.1.timestamp i 0 },
      s.2 ++ [p])
  | none => ({ s.1 with timestamp := setF s.1.timestamp i 0 }, s.2)

/-- Restart purge (lines 160-166): for each slot in index order, release
any cached packet and zero the slot timestamp. -/
def purge (c : Nat) (d : TridentDispatcher) : TridentDispatcher × List PacketBuffer :=
  (List.range c).foldl purgeStep (d, [])

/-- Accumulator threaded through the forced-flush loop. -/
structure FlushAcc where
  disp : TridentDispatcher
  offset : Nat
  dropped : Nat
  out : List PacketBuffer

/-- One iteration body of the forced flush (lines 190-200) when the head
slot is occupied: deliver `p` downstream, clear the slot, zero
`timestamp[i]` (`i` being the Go loop counter — the source zeroes the loop
counter's slot, not `timestamp[startIndex]`), advance `seq` and
`startIndex`, decrement `offset`. -/
def ffStepSome (c i : Nat) (s : FlushAcc) (p : PacketBuffer) : FlushAcc :=
  { disp := { s.disp with
      cache := setF s.disp.cache s.disp.startIndex none,
      timestamp := setF s.disp.timestamp i 0,
      seq := s.disp.seq + 1,
      startIndex := (s.disp.startIndex + 1) % c },
    offset := s.offset - 1, dropped := s.dropped, out := s.out ++ [p] }

/-- One iteration body of the forced flush when the head slot is empty:
count a drop and advance the window the same way. -/
def ffStepNone (c i : Nat) (s : FlushAcc) : FlushAcc :=
  { disp := { s.disp with
      timestamp := setF s.disp.timestamp i 0,
      seq := s.disp.seq + 1,
      startIndex := (s.disp.startIndex + 1) % c },
    offset := s.offset - 1, dropped := s.dropped + 1, out := s.out }

/-- Forced flush (lines 189-201): `for i := 0; i < cacheSize && offset >=
cacheSize; i++`.  `i` is the Go loop counter and `fuel` the number of
iterations still allowed, initially `cacheSize`. -/
def forcedFlush (c : Nat) : Nat → Nat → FlushAcc → FlushAcc
  | _, 0, s => s
  | i, fuel + 1, s =>
    if c ≤ s.offset then
      match s.disp.cache s.disp.startIndex with
      | some p => forcedFlush c (i + 1) fuel (ffStepSome c i s p)
      | none => forcedFlush c (i + 1) fuel (ffStepNone c i s)
    else s

/-- Backward timestamp propagation (lines 214-220): walk backward from the
slot `current` just written, stamping empty slots, stopping at
`startIndex` or at the first occupied slot.  On `uint64`, `(i-1)&(c-1)`
wraps at `i = 0`; for `i < c` it equals `(i + c - 1) % c`.  The walk
visits at most `c` slots before hitting `startIndex`, which bounds the
iteration budget. -/
def backProp (c : Nat) (start : Nat) (ts : Int) :
    Nat → Nat → (Nat → Option PacketBuffer) → (Nat → Int) → (Nat → Int)
  | _, 0, _, tsArr => tsArr
  | i, fuel + 1, cache, tsArr =>
    if i = start then tsArr
    else
      let j := (i + c - 1) % c
      match cache j with
      | some _ => tsArr
      | none => backProp c start ts j fuel cache (setF tsArr j ts)

/-- Accumulator threaded through the in-order flush loop. -/
structure Flush2Acc where
  disp : TridentDispatcher
  dropped : Nat
  out : List PacketBuffer

/-- One iteration body of the in-order flush (lines 224-238) when the head
slot is occupied: deliver `p`, clear the slot, zero `timestamp[i]` (the Go
loop counter's slot, as in the source), advance `seq` and `startIndex`. -/
def ioStepSome (c i : Nat) (s : Flush2Acc) (p : PacketBuffer) : Flush2Acc :=
  { disp := { s.disp with
      cache := setF s.disp.cache s.disp.startIndex none,
      timestamp := setF s.disp.timestamp i 0,
      seq := s.disp.seq + 1,
      startIndex := (s.disp.startIndex + 1) % c },
    dropped := s.dropped, out := s.out ++ [p] }

/-- One iteration body of the in-order flush when the head slot has timed
out: count a drop and advance the window the same way. -/
def ioStepDrop (c i : Nat) (s : Flush2Acc) : Flush2Acc :=
  { disp := { s.disp with
      timestamp := setF s.disp.timestamp i 0,
      seq := s.disp.seq + 1,
      startIndex := (s.disp.startIndex + 1) % c },
    dropped := s.dropped + 1, out := s.out }

/-- Opportunistic in-order flush (lines 223-239): `for i := 0; i <
cacheSize; i++` delivering the head slot, breaking on a head slot with no
timestamp knowledge, counting a drop on timeout, otherwise breaking. -/
def inOrderFlush (c : Nat) (ts : Int) : Nat → Nat → Flush2Acc → Flush2Acc
  | _, 0, s => s
  | i, fuel + 1, s =>
    match s.disp.cache s.disp.startIndex with
    | some p => inOrderFlush c ts (i + 1) fuel (ioStepSome c i s p)
    | none =>
      if s.disp.timestamp s.disp.startIndex = 0 then s
      else if TRIDENT_TIMEOUT < ts - s.disp.timestamp s.disp.startIndex then
        inOrderFlush c ts (i + 1) fuel (ioStepDrop c i s)
      else s

/-- Max-timestamp update (lines 183-185). -/
def maxUpd (d0 : TridentDispatcher) (ts : Int) : TridentDispatcher :=
  if d0.maxTimestamp < ts then { d0 with maxTimestamp := ts } else d0

/-- Bulk gap advance (lines 202-208): when after `cacheSize` forced-flush
steps the offset still does not fit, advance `seq` and `startIndex` by
`gap = offset - cacheSize + 1` at once, counting `gap` drops. -/
def bulkGap (c : Nat) (s1 : FlushAcc) : FlushAcc :=
  if c ≤ s1.offset then
    let gap := s1.offset - c + 1
    { s1 with
      disp := { s1.disp with
        seq := s1.disp.seq + gap,
        startIndex := (s1.disp.startIndex + gap) % c },
      offset := s1.offset - gap,
      dropped := s1.dropped + gap }
  else s1

/-- Slot insertion and backward timestamp propagation (lines 210-220):
write the packet and its timestamp at `current = (startIndex + offset) &
(cacheSize-1)`, then stamp the empty slots between `current` and the head
with the packet's timestamp. -/
def place (c : Nat) (s2 : FlushAcc) (packet : PacketBuffer) : TridentDispatcher :=
  let current := (s2.disp.startIndex + s2.offset) % c
  let d2 := { s2.disp with
    cache := setF s2.disp.cache current (some packet),
    timestamp := setF s2.disp.timestamp current packet.timestamp }
  { d2 with
    timestamp := backProp c d2.startIndex packet.timestamp current c d2.cache d2.timestamp }

/-- Lines 183-247 of `cacheLookup`, the part after the backward-sequence
branch: max-timestamp update, forced flush, bulk gap advance, slot
insertion, backward timestamp propagation, in-order flush, and the final
drop accounting (the Go guard `if dropped > 0` around `dispatcher.dropped
+= dropped` only skips a no-op addition and a log line, so the addition is
written unconditionally).  `offset := seq - dispatcher.seq` is `Nat`
subtraction; on this line the Go `uint64` subtraction cannot wrap for
packets of the wire contract (sequence numbers start at 1, and after a
restart reset `dispatcher.seq ≤ max(seq-cacheSize,1) ≤ seq`).
Returns the new state, the packets delivered in order, and the drop count
of this call. -/
def insertPhase (c : Nat) (d0 : TridentDispatcher) (packet : PacketBuffer) :
    TridentDispatcher × List PacketBuffer × Nat :=
  let d1 := maxUpd d0 packet.timestamp
  let s1 := forcedFlush c 0 c
    { disp := d1, offset := packet.seq - d1.seq, dropped := 0, out := [] }
  let s2 := bulkGap c s1
  let d3 := place c s2 packet
  let s3 := inOrderFlush c packet.timestamp 0 c { disp := d3, dropped := s2.dropped, out := [] }
  ({ s3.disp with dropped := s3.disp.dropped + s3.dropped }, s2.out ++ s3.out, s3.dropped)

/-- Result of one `cacheLookup` call: the new window state, the packets
handed to `slaves[...].put` in order, the packets handed to
`releasePacketBuffer`, the two returned counters `(dropped, expired)`, and
whether the remote-restart branch was taken (the branch that emits the
restart warning at line 156). -/
structure LookupResult where
  state : TridentDispatcher
  delivered : List PacketBuffer
  released : List PacketBuffer
  dropped : Nat
  expired : Nat
  restarted : Bool

/-- The reordering-window operation `cacheLookup` (lines 140-248):
seeding on first packet, the backward branch with its restart and
stale-reorder sub-cases, then the insert phase. -/
def cacheLookup (d : TridentDispatcher) (packet : PacketBuffer) (c : Nat) : LookupResult :=
  let seq := packet.seq
  let timestamp := packet.timestamp
  let d0 := if d.seq = 0 then { d with seq := seq } else d
  if seq < d0.seq then
    if d0.maxTimestamp < timestamp then
      let pr := purge c d0
      let d1 := { pr.1 with
        seq := if c < seq then seq - c else 1,
        startIndex := 0 }
      let r := insertPhase c d1 packet
      { state := r.1, delivered := r.2.1, released := pr.2,
        dropped := r.2.2, expired := 0, restarted := true }
    else
      { state := d0, delivered := [], released := [packet],
        dropped := 0, expired := 1, restarted := false }
  else
    let r := insertPhase c d0 packet
    { state := r.1, delivered := r.2.1, released := [],
      dropped := r.2.2, expired := 0, restarted := false }

/-- A freshly created window: `findAndAdd` (lines 254-267) allocates the
two slices with `make`, so every field starts at its zero value. -/
def freshDispatcher : TridentDispatcher :=
  { cache := fun _ => none, timestamp := fun _ => 0,
    maxTimestamp := 0, dropped := 0, seq := 0, startIndex := 0 }

/-- Accumulated observables of a sequence of `findAndAdd` calls hitting
one dispatcher: the window state, everything delivered and released so
far, and the adapter counters updated at lines 269-275 (`RxPackets++`,
`RxDropped += dropped`, `RxExpired += expired`).  `restarts` counts the
calls that took the remote-restart branch. -/
structure RunAcc where
  state : TridentDispatcher
  delivered : List PacketBuffer
  released : List PacketBuffer
  rxPackets : Nat
  rxDropped : Nat
  rxExpired : Nat
  restarts : Nat

/-- One `findAndAdd` step on a given dispatcher. -/
def runStep (c : Nat) (acc : RunAcc) (p : PacketBuffer) : RunAcc :=
  let r := cacheLookup acc.state p c
  { state := r.state,
    delivered := acc.delivered ++ r.delivered,
    released := acc.released ++ r.released,
    rxPackets := acc.rxPackets + 1,
    rxDropped := acc.rxDropped + r.dropped,
    rxExpired := acc.rxExpired + r.expired,
    restarts := acc.restarts + (if r.restarted then 1 else 0) }

/-- Initial accumulator for a run starting from window state `d`. -/
def initAcc (d : TridentDispatcher) : RunAcc :=
  { state := d, delivered := [], released := [],
    rxPackets := 0, rxDropped := 0, rxExpired := 0, restarts := 0 }

/-- Feed a list of packets through one dispatcher, accumulating the
adapter counters as `findAndAdd` does. -/
def runFeed (c : Nat) (d : TridentDispatcher) (ps : List PacketBuffer) : RunAcc :=
  ps.foldl (runStep c) (initAcc d)

/-- The packets currently cached in the window, in slot-index order. -/
def cachedList (c : Nat) (d : TridentDispatcher) : List PacketBuffer :=
  (List.range c).filterMap d.cache

/-- Slot-to-sequence coherence: an occupied slot `i` holds the packet
whose sequence is `start_seq + ((i - start_index) mod C)` (spec §3,
window invariant). -/
def SlotSeqOK (c : Nat) (d : TridentDispatcher) : Prop :=
  ∀ i, i < c → ∀ p, d.cache i = some p → p.seq = d.seq + (i + c - d.startIndex) % c

/-- Well-formed window: head index in range, head slot empty, slot
sequences coherent, and nothing stored outside the slot range. -/
def WF (c : Nat) (d : TridentDispatcher) : Prop :=
  d.startIndex < c ∧ d.cache d.startIndex = none ∧ SlotSeqOK c d ∧
    ∀ i, c ≤ i → d.cache i = none

/-- The pre-conditions of `WF` that may hold transiently inside the
algorithm: head index in range, slot sequences coherent, nothing stored
outside the slot range — everything except the empty head slot. -/
def WFlite (c : Nat) (d : TridentDispatcher) : Prop :=
  d.startIndex < c ∧ SlotSeqOK c d ∧ ∀ i, c ≤ i → d.cache i = none

/-- Every slot timestamp is either 0 (no knowledge) or the common feed
timestamp `t`; this is invariant along a feed whose packets all carry
timestamp `t`. -/
def TsOK (t : Int) (d : TridentDispatcher) : Prop :=
  ∀ i, d.timestamp i = 0 ∨ d.timestamp i = t

/-- The set of sequence numbers currently held in the window. -/
def cachedSeqs (c : Nat) (d : TridentDispatcher) : Finset Nat :=
  ((cachedList c d).map PacketBuffer.seq).toFinset

/-- Inductive invariant of an in-order feed (uniform timestamp `t`),
relating the accumulator to the prefix `Q` of packets fed so far: the
window is well-formed; an unseeded window is empty; the window is
unseeded exactly on the empty prefix, and otherwise `start_seq` is one
past the delivered count; the delivered sequences are exactly `1, 2, …`
in order; every fed packet is delivered or cached and vice versa; slot
timestamps carry no value other than 0 or `t`; and no drop or expiry has
been counted. -/
def Inv (c : Nat) (t : Int) (Q : List PacketBuffer) (acc : RunAcc) : Prop :=
  WF c acc.state ∧
  (acc.state.seq = 0 → ∀ i, acc.state.cache i = none) ∧
  (Q = [] → acc.state.seq = 0 ∧ acc.delivered = []) ∧
  (Q ≠ [] → acc.state.seq = acc.delivered.length + 1) ∧
  acc.delivered.map PacketBuffer.seq = List.range' 1 acc.delivered.length ∧
  (∀ q, q ∈ Q → q ∈ acc.delivered ∨ ∃ i, i < c ∧ acc.state.cache i = some q) ∧
  (∀ q, q ∈ acc.delivered → q ∈ Q) ∧
  (∀ i p, i < c → acc.state.cache i = some p → p ∈ Q) ∧
  (∀ j, j < c → (acc.state.timestamp j = 0 ∨ acc.state.timestamp j = t)) ∧
  acc.rxDropped = 0 ∧ acc.rxExpired = 0

end TridentAdapter

namespace Datatype

/-- Tunnel kind recognised by the decapsulator. -/
inductive TunnelType
  | NONE
  | ERSPAN
  | VXLAN
deriving DecidableEq

/-- Result of decapsulation: outer IPv4 source and destination as
network-order numerics, the tunnel id, and the tunnel kind (spec §3). -/
structure TunnelInfo where
  src : Nat
  dst : Nat
  id : Nat
  type : TunnelType
deriving DecidableEq

/-- Byte read with out-of-range reads yielding 0. -/
def byteAt (b : List Nat) (i : Nat) : Nat := b.getD i 0

/-- Big-endian 16-bit read. -/
def be16 (b : List Nat) (i : Nat) : Nat := byteAt b i * 256 + byteAt b (i + 1)

/-- Big-endian 32-bit read. -/
def be32 (b : List Nat) (i : Nat) : Nat :=
  ((byteAt b i * 256 + byteAt b (i + 1)) * 256 + byteAt b (i + 2)) * 256 + byteAt b (i + 3)

/-- The all-default result: zero addresses, zero id, `type = NONE`. -/
def emptyTunnel : TunnelInfo := { src := 0, dst := 0, id := 0, type := TunnelType.NONE }

/-- Modelled from the spec: `TunnelInfo.Decapsulate` (spec §4.C and §6).
The decapsulator's source file is not under `src/` — only its test
(`src/unnamed/part_000`) is — so this follows the spec's algorithm: the
input starts at the outer IPv4 header (fixed 20-byte layout; protocol
byte at offset 9, source address at 12, destination at 16); GRE (47)
with protocol type `0x88BE` is ERSPAN II (id = low 10 bits of the first
16-bit word after the 4-byte GRE base header) and `0x22EB` is ERSPAN III
(id = 0); UDP (17) to port 4789 with VXLAN flags bit `0x08` set yields
the 24-bit VNI; anything else, or a truncated packet, yields `NONE`. -/
def Decapsulate (b : List Nat) : TunnelInfo :=
  if b.length < 20 then emptyTunnel
  else
    let src := be32 b 12
    let dst := be32 b 16
    let proto := byteAt b 9
    if proto = 47 then
      if b.length < 24 then emptyTunnel
      else if be16 b 22 = 0x88BE then
        if b.length < 26 then emptyTunnel
        else { src := src, dst := dst, id := be16 b 24 % 1024, type := TunnelType.ERSPAN }
      else if be16 b 22 = 0x22EB then
        { src := src, dst := dst, id := 0, type := TunnelType.ERSPAN }
      else emptyTunnel
    else if proto = 17 then
      if b.length < 36 then emptyTunnel
      else if be16 b 22 = 4789 then
        if byteAt b 28 / 8 % 2 = 1 then
          { src := src, dst := dst,
            id := (byteAt b 32 * 256 + byteAt b 33) * 256 + byteAt b 34,
            type := TunnelType.VXLAN }
        else emptyTunnel
      else emptyTunnel
    else emptyTunnel

/-- A 24-byte GRE/ERSPAN Type III sample: outer IPv4 `172.16.1.103 →
10.30.101.132`, protocol 47 (GRE), GRE protocol type `0x22EB` — the
addresses checked by `TestDecapsulateIII`. -/
def erspan3Sample : List Nat :=
  [0x45, 0, 0, 60, 0, 0, 0, 0, 64, 47, 0, 0,
   172, 16, 1, 103, 10, 30, 101, 132, 0, 0, 0x22, 0xEB]

end Datatype

namespace TridentAdapter

/-! ### Basic facts about slice writes and ring-index arithmetic -/

theorem setF_self {α : Type} (f : Nat → α) (i : Nat) (v : α) : setF f i v i = v := by
  simp [setF]

theorem setF_ne {α : Type} (f : Nat → α) {i j : Nat} (v : α) (h : j ≠ i) :
    setF f i v j = f j := by
  simp [setF, h]

theorem mod_pred_of_ne_zero {c N : Nat} (hc : 0 < c) (h : N % c ≠ 0) :
    N % c = (N - 1) % c + 1 := by
  have h1 : c * (N / c) + N % c = N := Nat.div_add_mod N c
  have h2 : N % c < c := Nat.mod_lt _ hc
  have h3 : 1 ≤ N % c := Nat.one_le_iff_ne_zero.mpr h
  have h4 : N - 1 = (N % c - 1) + c * (N / c) := by omega
  have h5 : (N - 1) % c = (N % c - 1) % c := by rw [h4, Nat.add_mul_mod_self_left]
  have h6 : (N % c - 1) % c = N % c - 1 := Nat.mod_eq_of_lt (by omega)
  omega

/-- Advancing the ring head by one decrements every other slot's offset
from the head by one. -/
theorem slot_advance {c i start : Nat} (hi : i < c) (hs : start < c) (hne : i ≠ start) :
    (i + c - start) % c = (i + c - (start + 1) % c) % c + 1 := by
  have hc : 0 < c := Nat.lt_of_le_of_lt (Nat.zero_le i) hi
  by_cases h : start + 1 < c
  · rw [Nat.mod_eq_of_lt h]
    have hN0 : (i + c - start) % c ≠ 0 := by
      rcases Nat.lt_or_ge i start with hlt | hge
      · rw [Nat.mod_eq_of_lt (by omega)]; omega
      · have hgt : start < i := by omega
        have he : i + c - start = (i - start) + c := by omega
        rw [he, Nat.add_mod_right, Nat.mod_eq_of_lt (by omega)]; omega
    have h5 := mod_pred_of_ne_zero hc hN0
    have h6 : i + c - (start + 1) = i + c - start - 1 := by omega
    rw [h6]
    exact h5
  · have hsc : start + 1 = c := by omega
    have h0 : (start + 1) % c = 0 := by rw [hsc]; exact Nat.mod_self c
    rw [h0]
    have e1 : i + c - start = i + 1 := by omega
    have e2 : i + c - 0 = i + c := by omega
    rw [e1, e2, Nat.add_mod_right, Nat.mod_eq_of_lt (show i + 1 < c by omega),
      Nat.mod_eq_of_lt hi]

/-- Offset of the freshly inserted slot `(start + off) % c` back from the
head is `off` itself. -/
theorem ins_offset {c s off : Nat} (hs : s < c) (ho : off < c) :
    ((s + off) % c + c - s) % c = off := by
  by_cases h : s + off < c
  · rw [Nat.mod_eq_of_lt h]
    have he : s + off + c - s = off + c := by omega
    rw [he, Nat.add_mod_right, Nat.mod_eq_of_lt ho]
  · have h2 : (s + off) % c = s + off - c := by
      rw [Nat.mod_eq_sub_mod (by omega), Nat.mod_eq_of_lt (by omega)]
    rw [h2]
    have he : s + off - c + c - s = off := by omega
    rw [he, Nat.mod_eq_of_lt ho]

/-- Distinct in-range slots have distinct offsets from the head. -/
theorem offset_inj {c s i j : Nat} (hs : s < c) (hi : i < c) (hj : j < c)
    (h : (i + c - s) % c = (j + c - s) % c) : i = j := by
  rcases Nat.lt_or_ge i s with h1 | h1 <;> rcases Nat.lt_or_ge j s with h2 | h2
  · rw [Nat.mod_eq_of_lt (by omega), Nat.mod_eq_of_lt (by omega)] at h; omega
  · have e1 : i + c - s < c := by omega
    have e2 : j + c - s = (j - s) + c := by omega
    rw [Nat.mod_eq_of_lt e1, e2, Nat.add_mod_right, Nat.mod_eq_of_lt (by omega)] at h
    omega
  · have e1 : i + c - s = (i - s) + c := by omega
    have e2 : j + c - s < c := by omega
    rw [e1, Nat.add_mod_right, Nat.mod_eq_of_lt (by omega), Nat.mod_eq_of_lt e2] at h
    omega
  · have e1 : i + c - s = (i - s) + c := by omega
    have e2 : j + c - s = (j - s) + c := by omega
    rw [e1, e2, Nat.add_mod_right, Nat.add_mod_right,
      Nat.mod_eq_of_lt (by omega), Nat.mod_eq_of_lt (by omega)] at h
    omega

/-! ### Facts about `filterMap` over `List.range` (the cached-slot list) -/

theorem filterMap_range_congr {c : Nat} {f g : Nat → Option PacketBuffer}
    (h : ∀ i, i < c → f i = g i) :
    (List.range c).filterMap f = (List.range c).filterMap g :=
  List.filterMap_congr (fun a ha => h a (List.mem_range.mp ha))

theorem filterMap_one (f : Nat → Option PacketBuffer) (a : Nat) :
    List.filterMap f [a] = (f a).toList := by
  rw [List.filterMap_cons]
  cases f a <;> simp

theorem length_filterMap_set_none {c i : Nat} (f : Nat → Option PacketBuffer)
    (hi : i < c) {p : PacketBuffer} (hp : f i = some p) :
    ((List.range c).filterMap (setF f i none)).length + 1 =
      ((List.range c).filterMap f).length := by
  induction c with
  | zero => omega
  | succ c ih =>
    rw [List.range_succ, List.filterMap_append, List.filterMap_append,
      List.length_append, List.length_append, filterMap_one, filterMap_one]
    rcases Nat.lt_or_ge i c with h1 | h1
    · have hlast : setF f i none c = f c := setF_ne f none (by omega)
      rw [hlast]
      have := ih h1
      omega
    · have hic : i = c := by omega
      subst hic
      have heq : (List.range i).filterMap (setF f i none) = (List.range i).filterMap f :=
        filterMap_range_congr (fun j hj => setF_ne f none (by omega))
      rw [heq, setF_self, hp]
      simp

theorem length_filterMap_set_some_le {c i : Nat} (f : Nat → Option PacketBuffer)
    (q : PacketBuffer) :
    ((List.range c).filterMap (setF f i (some q))).length ≤
      ((List.range c).filterMap f).length + 1 := by
  induction c with
  | zero => simp
  | succ c ih =>
    rw [List.range_succ, List.filterMap_append, List.filterMap_append,
      List.length_append, List.length_append, filterMap_one, filterMap_one]
    by_cases h1 : c = i
    · subst h1
      have heq : (List.range c).filterMap (setF f c (some q)) = (List.range c).filterMap f :=
        filterMap_range_congr (fun j hj => setF_ne f (some q) (by omega))
      rw [setF_self, heq]
      cases f c <;> simp
    · have hlast : setF f i (some q) c = f c := setF_ne f (some q) h1
      rw [hlast]
      omega

theorem length_filterMap_set_some_of_none {c i : Nat} (f : Nat → Option PacketBuffer)
    (hi : i < c) (hnone : f i = none) (q : PacketBuffer) :
    ((List.range c).filterMap (setF f i (some q))).length =
      ((List.range c).filterMap f).length + 1 := by
  induction c with
  | zero => omega
  | succ c ih =>
    rw [List.range_succ, List.filterMap_append, List.filterMap_append,
      List.length_append, List.length_append, filterMap_one, filterMap_one]
    rcases Nat.lt_or_ge i c with h1 | h1
    · have hlast : setF f i (some q) c = f c := setF_ne f (some q) (by omega)
      rw [hlast]
      have := ih h1
      omega
    · have hic : i = c := by omega
      subst hic
      have heq : (List.range i).filterMap (setF f i (some q)) = (List.range i).filterMap f :=
        filterMap_range_congr (fun j hj => setF_ne f (some q) (by omega))
      rw [heq, setF_self, hnone]
      simp

theorem mem_filterMap_range {c : Nat} {f : Nat → Option PacketBuffer} {q : PacketBuffer} :
    q ∈ (List.range c).filterMap f ↔ ∃ i, i < c ∧ f i = some q := by
  rw [List.mem_filterMap]
  constructor
  · rintro ⟨a, ha, he⟩; exact ⟨a, List.mem_range.mp ha, he⟩
  · rintro ⟨a, ha, he⟩; exact ⟨a, List.mem_range.mpr ha, he⟩

end TridentAdapter

namespace TridentAdapter

/-! ### Field reductions for the loop step bodies -/

@[simp] theorem ffStepSome_disp_cache (c i : Nat) (s : FlushAcc) (p : PacketBuffer) :
    (ffStepSome c i s p).disp.cache = setF s.disp.cache s.disp.startIndex none := rfl

@[simp] theorem ffStepSome_disp_timestamp (c i : Nat) (s : FlushAcc) (p : PacketBuffer) :
    (ffStepSome c i s p).disp.timestamp = setF s.disp.timestamp i 0 := rfl

@[simp] theorem ffStepSome_disp_max (c i : Nat) (s : FlushAcc) (p : PacketBuffer) :
    (ffStepSome c i s p).disp.maxTimestamp = s.disp.maxTimestamp := rfl

@[simp] theorem ffStepSome_disp_dropped (c i : Nat) (s : FlushAcc) (p : PacketBuffer) :
    (ffStepSome c i s p).disp.dropped = s.disp.dropped := rfl

@[simp] theorem ffStepSome_disp_seq (c i : Nat) (s : FlushAcc) (p : PacketBuffer) :
    (ffStepSome c i s p).disp.seq = s.disp.seq + 1 := rfl

@[simp] theorem ffStepSome_disp_start (c i : Nat) (s : FlushAcc) (p : PacketBuffer) :
    (ffStepSome c i s p).disp.startIndex = (s.disp.startIndex + 1) % c := rfl

@[simp] theorem ffStepSome_offset (c i : Nat) (s : FlushAcc) (p : PacketBuffer) :
    (ffStepSome c i s p).offset = s.offset - 1 := rfl

@[simp] theorem ffStepSome_dropped (c i : Nat) (s : FlushAcc) (p : PacketBuffer) :
    (ffStepSome c i s p).dropped = s.dropped := rfl

@[simp] theorem ffStepSome_out (c i : Nat) (s : FlushAcc) (p : PacketBuffer) :
    (ffStepSome c i s p).out = s.out ++ [p] := rfl

@[simp] theorem ffStepNone_disp_cache (c i : Nat) (s : FlushAcc) :
    (ffStepNone c i s).disp.cache = s.disp.cache := rfl

@[simp] theorem ffStepNone_disp_timestamp (c i : Nat) (s : FlushAcc) :
    (ffStepNone c i s).disp.timestamp = setF s.disp.timestamp i 0 := rfl

@[simp] theorem ffStepNone_disp_max (c i : Nat) (s : FlushAcc) :
    (ffStepNone c i s).disp.maxTimestamp = s.disp.maxTimestamp := rfl

@[simp] theorem ffStepNone_disp_dropped (c i : Nat) (s : FlushAcc) :
    (ffStepNone c i s).disp.dropped = s.disp.dropped := rfl

@[simp] theorem ffStepNone_disp_seq (c i : Nat) (s : FlushAcc) :
    (ffStepNone c i s).disp.seq = s.disp.seq + 1 := rfl

@[simp] theorem ffStepNone_disp_start (c i : Nat) (s : FlushAcc) :
    (ffStepNone c i s).disp.startIndex = (s.disp.startIndex + 1) % c := rfl

@[simp] theorem ffStepNone_offset (c i : Nat) (s : FlushAcc) :
    (ffStepNone c i s).offset = s.offset - 1 := rfl

@[simp] theorem ffStepNone_dropped (c i : Nat) (s : FlushAcc) :
    (ffStepNone c i s).dropped = s.dropped + 1 := rfl

@[simp] theorem ffStepNone_out (c i : Nat) (s : FlushAcc) :
    (ffStepNone c i s).out = s.out := rfl

@[simp] theorem ioStepSome_disp_cache (c i : Nat) (s : Flush2Acc) (p : PacketBuffer) :
    (ioStepSome c i s p).disp.cache = setF s.disp.cache s.disp.startIndex none := rfl

@[simp] theorem ioStepSome_disp_timestamp (c i : Nat) (s : Flush2Acc) (p : PacketBuffer) :
    (ioStepSome c i s p).disp.timestamp = setF s.disp.timestamp i 0 := rfl

@[simp] theorem ioStepSome_disp_max (c i : Nat) (s : Flush2Acc) (p : PacketBuffer) :
    (ioStepSome c i s p).disp.maxTimestamp = s.disp.maxTimestamp := rfl

@[simp] theorem ioStepSome_disp_dropped (c i : Nat) (s : Flush2Acc) (p : PacketBuffer) :
    (ioStepSome c i s p).disp.dropped = s.disp.dropped := rfl

@[simp] theorem ioStepSome_disp_seq (c i : Nat) (s : Flush2Acc) (p : PacketBuffer) :
    (ioStepSome c i s p).disp.seq = s.disp.seq + 1 := rfl

@[simp] theorem ioStepSome_disp_start (c i : Nat) (s : Flush2Acc) (p : PacketBuffer) :
    (ioStepSome c i s p).disp.startIndex = (s.disp.startIndex + 1) % c := rfl

@[simp] theorem ioStepSome_dropped (c i : Nat) (s : Flush2Acc) (p : PacketBuffer) :
    (ioStepSome c i s p).dropped = s.dropped := rfl

@[simp] theorem ioStepSome_out (c i : Nat) (s : Flush2Acc) (p : PacketBuffer) :
    (ioStepSome c i s p).out = s.out ++ [p] := rfl

@[simp] theorem ioStepDrop_disp_cache (c i : Nat) (s : Flush2Acc) :
    (ioStepDrop c i s).disp.cache = s.disp.cache := rfl

@[simp] theorem ioStepDrop_disp_timestamp (c i : Nat) (s : Flush2Acc) :
    (ioStepDrop c i s).disp.timestamp = setF s.disp.timestamp i 0 := rfl

@[simp] theorem ioStepDrop_disp_max (c i : Nat) (s : Flush2Acc) :
    (ioStepDrop c i s).disp.maxTimestamp = s.disp.maxTimestamp := rfl

@[simp] theorem ioStepDrop_disp_dropped (c i : Nat) (s : Flush2Acc) :
    (ioStepDrop c i s).disp.dropped = s.disp.dropped := rfl

@[simp] theorem ioStepDrop_disp_seq (c i : Nat) (s : Flush2Acc) :
    (ioStepDrop c i s).disp.seq = s.disp.seq + 1 := rfl

@[simp] theorem ioStepDrop_disp_start (c i : Nat) (s : Flush2Acc) :
    (ioStepDrop c i s).disp.startIndex = (s.disp.startIndex + 1) % c := rfl

@[simp] theorem ioStepDrop_dropped (c i : Nat) (s : Flush2Acc) :
    (ioStepDrop c i s).dropped = s.dropped + 1 := rfl

@[simp] theorem ioStepDrop_out (c i : Nat) (s : Flush2Acc) :
    (ioStepDrop c i s).out = s.out := rfl

/-! ### Unfolding equations for the bounded loops -/

theorem forcedFlush_zero (c i : Nat) (s : FlushAcc) : forcedFlush c i 0 s = s := rfl

theorem forcedFlush_stop {c : Nat} (i fuel : Nat) {s : FlushAcc} (h : s.offset < c) :
    forcedFlush c i (fuel + 1) s = s := by
  simp only [forcedFlush, if_neg (by omega : ¬ c ≤ s.offset)]

theorem forcedFlush_succ_some {c : Nat} (i fuel : Nat) {s : FlushAcc} {p : PacketBuffer}
    (ho : c ≤ s.offset) (hp : s.disp.cache s.disp.startIndex = some p) :
    forcedFlush c i (fuel + 1) s = forcedFlush c (i + 1) fuel (ffStepSome c i s p) := by
  simp only [forcedFlush, if_pos ho, hp]

theorem forcedFlush_succ_none {c : Nat} (i fuel : Nat) {s : FlushAcc}
    (ho : c ≤ s.offset) (hp : s.disp.cache s.disp.startIndex = none) :
    forcedFlush c i (fuel + 1) s = forcedFlush c (i + 1) fuel (ffStepNone c i s) := by
  simp only [forcedFlush, if_pos ho, hp]

theorem inOrderFlush_zero (c : Nat) (ts : Int) (i : Nat) (s : Flush2Acc) :
    inOrderFlush c ts i 0 s = s := rfl

theorem inOrderFlush_succ_some {c : Nat} {ts : Int} (i fuel : Nat) {s : Flush2Acc}
    {p : PacketBuffer} (hp : s.disp.cache s.disp.startIndex = some p) :
    inOrderFlush c ts i (fuel + 1) s = inOrderFlush c ts (i + 1) fuel (ioStepSome c i s p) := by
  simp only [inOrderFlush, hp]

theorem inOrderFlush_succ_zero {c : Nat} {ts : Int} (i fuel : Nat) {s : Flush2Acc}
    (hp : s.disp.cache s.disp.startIndex = none)
    (hz : s.disp.timestamp s.disp.startIndex = 0) :
    inOrderFlush c ts i (fuel + 1) s = s := by
  simp [inOrderFlush, hp, hz]

theorem inOrderFlush_succ_timeout {c : Nat} {ts : Int} (i fuel : Nat) {s : Flush2Acc}
    (hp : s.disp.cache s.disp.startIndex = none)
    (hz : s.disp.timestamp s.disp.startIndex ≠ 0)
    (hto : TRIDENT_TIMEOUT < ts - s.disp.timestamp s.disp.startIndex) :
    inOrderFlush c ts i (fuel + 1) s = inOrderFlush c ts (i + 1) fuel (ioStepDrop c i s) := by
  simp only [inOrderFlush, hp, if_neg hz, if_pos hto]

theorem inOrderFlush_succ_wait {c : Nat} {ts : Int} (i fuel : Nat) {s : Flush2Acc}
    (hp : s.disp.cache s.disp.startIndex = none)
    (hz : s.disp.timestamp s.disp.startIndex ≠ 0)
    (hto : ¬ TRIDENT_TIMEOUT < ts - s.disp.timestamp s.disp.startIndex) :
    inOrderFlush c ts i (fuel + 1) s = s := by
  simp only [inOrderFlush, hp, if_neg hz, if_neg hto]

end TridentAdapter

namespace TridentAdapter

/-! ### Invariants of the forced-flush loop -/

theorem forcedFlush_frame (c : Nat) : ∀ i fuel (s : FlushAcc),
    (forcedFlush c i fuel s).disp.maxTimestamp = s.disp.maxTimestamp ∧
    (forcedFlush c i fuel s).disp.dropped = s.disp.dropped ∧
    s.disp.seq ≤ (forcedFlush c i fuel s).disp.seq ∧
    (forcedFlush c i fuel s).disp.seq + s.out.length + s.dropped =
      s.disp.seq + (forcedFlush c i fuel s).out.length + (forcedFlush c i fuel s).dropped ∧
    ∃ t, (forcedFlush c i fuel s).out = s.out ++ t := by
  intro i fuel
  induction fuel generalizing i with
  | zero =>
    intro s
    rw [forcedFlush_zero]
    exact ⟨rfl, rfl, Nat.le_refl _, by omega, [], by simp⟩
  | succ fuel ih =>
    intro s
    by_cases ho : c ≤ s.offset
    · cases hp : s.disp.cache s.disp.startIndex with
      | some p =>
        rw [forcedFlush_succ_some i fuel ho hp]
        obtain ⟨h1, h2, h3, h4, t, h5⟩ := ih (i + 1) (ffStepSome c i s p)
        simp only [ffStepSome_disp_max, ffStepSome_disp_dropped, ffStepSome_disp_seq,
          ffStepSome_out, ffStepSome_dropped, List.length_append, List.length_cons,
          List.length_nil] at h1 h2 h3 h4 h5
        refine ⟨h1, h2, by omega, by omega, ⟨p :: t, by simpa using h5⟩⟩
      | none =>
        rw [forcedFlush_succ_none i fuel ho hp]
        obtain ⟨h1, h2, h3, h4, t, h5⟩ := ih (i + 1) (ffStepNone c i s)
        simp only [ffStepNone_disp_max, ffStepNone_disp_dropped, ffStepNone_disp_seq,
          ffStepNone_out, ffStepNone_dropped] at h1 h2 h3 h4 h5
        exact ⟨h1, h2, by omega, by omega, ⟨t, h5⟩⟩
    · rw [forcedFlush_stop i fuel (by omega)]
      exact ⟨rfl, rfl, Nat.le_refl _, by omega, [], by simp⟩

theorem forcedFlush_basic {c : Nat} (hc : 0 < c) : ∀ i fuel (s : FlushAcc),
    s.disp.startIndex < c →
    (forcedFlush c i fuel s).disp.startIndex < c ∧
    ((List.range c).filterMap (forcedFlush c i fuel s).disp.cache).length +
        (forcedFlush c i fuel s).out.length =
      ((List.range c).filterMap s.disp.cache).length + s.out.length ∧
    (∀ j, (forcedFlush c i fuel s).disp.cache j = none ∨
        (forcedFlush c i fuel s).disp.cache j = s.disp.cache j) ∧
    (∀ q, q ∈ (forcedFlush c i fuel s).out →
        q ∈ s.out ∨ ∃ i0, i0 < c ∧ s.disp.cache i0 = some q) := by
  intro i fuel
  induction fuel generalizing i with
  | zero =>
    intro s hs
    rw [forcedFlush_zero]
    exact ⟨hs, rfl, fun j => Or.inr rfl, fun q hq => Or.inl hq⟩
  | succ fuel ih =>
    intro s hs
    by_cases ho : c ≤ s.offset
    · cases hp : s.disp.cache s.disp.startIndex with
      | some p =>
        rw [forcedFlush_succ_some i fuel ho hp]
        obtain ⟨h1, h2, h3, h4⟩ := ih (i + 1) (ffStepSome c i s p)
          (by rw [ffStepSome_disp_start]; exact Nat.mod_lt _ hc)
        simp only [ffStepSome_disp_cache, ffStepSome_out, List.length_append,
          List.length_cons, List.length_nil] at h1 h2 h3 h4 ⊢
        refine ⟨h1, ?_, ?_, ?_⟩
        · have hlen := length_filterMap_set_none s.disp.cache hs hp
          omega
        · intro j
          rcases h3 j with h | h
          · exact Or.inl h
          · by_cases hj : j = s.disp.startIndex
            · subst hj
              rw [h, setF_self]
              exact Or.inl rfl
            · rw [h, setF_ne _ _ hj]
              exact Or.inr rfl
        · intro q hq
          rcases h4 q hq with h | ⟨i0, hi0, he⟩
          · simp only [List.mem_append, List.mem_singleton] at h
            rcases h with h | h
            · exact Or.inl h
            · exact Or.inr ⟨s.disp.startIndex, hs, by rw [hp, h]⟩
          · by_cases hj : i0 = s.disp.startIndex
            · subst hj
              rw [setF_self] at he
              cases he
            · rw [setF_ne _ _ hj] at he
              exact Or.inr ⟨i0, hi0, he⟩
      | none =>
        rw [forcedFlush_succ_none i fuel ho hp]
        obtain ⟨h1, h2, h3, h4⟩ := ih (i + 1) (ffStepNone c i s)
          (by rw [ffStepNone_disp_start]; exact Nat.mod_lt _ hc)
        simp only [ffStepNone_disp_cache, ffStepNone_out] at h1 h2 h3 h4
        exact ⟨h1, h2, h3, h4⟩
    · rw [forcedFlush_stop i fuel (by omega)]
      exact ⟨hs, rfl, fun j => Or.inr rfl, fun q hq => Or.inl hq⟩

theorem forcedFlush_sorted {c : Nat} (hc : 0 < c) : ∀ i fuel (s : FlushAcc),
    s.disp.startIndex < c → SlotSeqOK c s.disp →
    SlotSeqOK c (forcedFlush c i fuel s).disp ∧
    (∀ q, q ∈ (forcedFlush c i fuel s).out →
      q ∈ s.out ∨ (s.disp.seq ≤ q.seq ∧ q.seq < (forcedFlush c i fuel s).disp.seq)) ∧
    ((∀ q, q ∈ s.out → q.seq < s.disp.seq) →
      List.Pairwise (· < ·) (s.out.map PacketBuffer.seq) →
      (List.Pairwise (· < ·) ((forcedFlush c i fuel s).out.map PacketBuffer.seq) ∧
        ∀ q, q ∈ (forcedFlush c i fuel s).out → q.seq < (forcedFlush c i fuel s).disp.seq)) := by
  intro i fuel
  induction fuel generalizing i with
  | zero =>
    intro s hs hok
    rw [forcedFlush_zero]
    exact ⟨hok, fun q hq => Or.inl hq, fun hb hpw => ⟨hpw, hb⟩⟩
  | succ fuel ih =>
    intro s hs hok
    by_cases ho : c ≤ s.offset
    · cases hp : s.disp.cache s.disp.startIndex with
      | some p =>
        have hpseq : p.seq = s.disp.seq := by
          have hx := hok s.disp.startIndex hs p hp
          have he : s.disp.startIndex + c - s.disp.startIndex = c := by omega
          rw [he, Nat.mod_self] at hx
          omega
        rw [forcedFlush_succ_some i fuel ho hp]
        have hok' : SlotSeqOK c (ffStepSome c i s p).disp := by
          intro j hj q hq
          rw [ffStepSome_disp_cache] at hq
          rw [ffStepSome_disp_seq, ffStepSome_disp_start]
          by_cases hjs : j = s.disp.startIndex
          · subst hjs
            rw [setF_self] at hq
            cases hq
          · rw [setF_ne _ _ hjs] at hq
            have h0 := hok j hj q hq
            have h1 := slot_advance hj hs hjs
            omega
        obtain ⟨g1, g2, g3⟩ := ih (i + 1) (ffStepSome c i s p)
          (by rw [ffStepSome_disp_start]; exact Nat.mod_lt _ hc) hok'
        have hge := (forcedFlush_frame c (i + 1) fuel (ffStepSome c i s p)).2.2.1
        rw [ffStepSome_disp_seq] at hge
        refine ⟨g1, ?_, ?_⟩
        · intro q hq
          rcases g2 q hq with h | ⟨hl, hr⟩
          · rw [ffStepSome_out] at h
            simp only [List.mem_append, List.mem_singleton] at h
            rcases h with h | h
            · exact Or.inl h
            · subst h
              exact Or.inr ⟨by omega, by omega⟩
          · rw [ffStepSome_disp_seq] at hl
            exact Or.inr ⟨by omega, hr⟩
        · intro hb hpw
          have hres := g3 ?_ ?_
          · exact ⟨hres.1, fun q hq => hres.2 q hq⟩
          · intro q hq
            rw [ffStepSome_out] at hq
            simp only [List.mem_append, List.mem_singleton] at hq
            rw [ffStepSome_disp_seq]
            rcases hq with h | h
            · have := hb q h
              omega
            · subst h
              omega
          · rw [ffStepSome_out]
            simp only [List.map_append, List.map_cons, List.map_nil]
            rw [List.pairwise_append]
            refine ⟨hpw, List.pairwise_singleton _ _, ?_⟩
            intro a ha b hb2
            simp only [List.mem_map] at ha
            obtain ⟨q, hq, rfl⟩ := ha
            simp only [List.mem_singleton] at hb2
            subst hb2
            have := hb q hq
            omega
      | none =>
        rw [forcedFlush_succ_none i fuel ho hp]
        have hok' : SlotSeqOK c (ffStepNone c i s).disp := by
          intro j hj q hq
          rw [ffStepNone_disp_cache] at hq
          rw [ffStepNone_disp_seq, ffStepNone_disp_start]
          by_cases hjs : j = s.disp.startIndex
          · subst hjs
            rw [hp] at hq
            cases hq
          · have h0 := hok j hj q hq
            have h1 := slot_advance hj hs hjs
            omega
        obtain ⟨g1, g2, g3⟩ := ih (i + 1) (ffStepNone c i s)
          (by rw [ffStepNone_disp_start]; exact Nat.mod_lt _ hc) hok'
        refine ⟨g1, ?_, ?_⟩
        · intro q hq
          rcases g2 q hq with h | ⟨hl, hr⟩
          · rw [ffStepNone_out] at h
            exact Or.inl h
          · rw [ffStepNone_disp_seq] at hl
            exact Or.inr ⟨by omega, hr⟩
        · intro hb hpw
          refine g3 ?_ (by rw [ffStepNone_out]; exact hpw)
          intro q hq
          rw [ffStepNone_out] at hq
          rw [ffStepNone_disp_seq]
          have := hb q hq
          omega
    · rw [forcedFlush_stop i fuel (by omega)]
      exact ⟨hok, fun q hq => Or.inl hq, fun hb hpw => ⟨hpw, hb⟩⟩

theorem forcedFlush_all_none {c : Nat} (hc : 0 < c) : ∀ i fuel (s : FlushAcc),
    s.disp.startIndex < c →
    (∀ j, j < c → fuel ≤ (j + c - s.disp.startIndex) % c → s.disp.cache j = none) →
    c ≤ (forcedFlush c i fuel s).offset →
    ∀ j, j < c → (forcedFlush c i fuel s).disp.cache j = none := by
  intro i fuel
  induction fuel generalizing i with
  | zero =>
    intro s hs hw _ j hj
    rw [forcedFlush_zero]
    exact hw j hj (Nat.zero_le _)
  | succ fuel ih =>
    intro s hs hw hoo
    by_cases ho : c ≤ s.offset
    · cases hp : s.disp.cache s.disp.startIndex with
      | some p =>
        rw [forcedFlush_succ_some i fuel ho hp] at hoo ⊢
        refine ih (i + 1) (ffStepSome c i s p)
          (by rw [ffStepSome_disp_start]; exact Nat.mod_lt _ hc) ?_ hoo
        intro j hj hfj
        rw [ffStepSome_disp_start] at hfj
        rw [ffStepSome_disp_cache]
        by_cases hjs : j = s.disp.startIndex
        · subst hjs
          rw [setF_self]
        · rw [setF_ne _ _ hjs]
          have h1 := slot_advance hj hs hjs
          exact hw j hj (by omega)
      | none =>
        rw [forcedFlush_succ_none i fuel ho hp] at hoo ⊢
        refine ih (i + 1) (ffStepNone c i s)
          (by rw [ffStepNone_disp_start]; exact Nat.mod_lt _ hc) ?_ hoo
        intro j hj hfj
        rw [ffStepNone_disp_start] at hfj
        rw [ffStepNone_disp_cache]
        by_cases hjs : j = s.disp.startIndex
        · subst hjs
          exact hp
        · have h1 := slot_advance hj hs hjs
          exact hw j hj (by omega)
    · rw [forcedFlush_stop i fuel (by omega)] at hoo
      omega

end TridentAdapter

namespace TridentAdapter

/-! ### Invariants of the in-order flush loop -/

theorem inOrderFlush_frame (c : Nat) (ts : Int) : ∀ i fuel (s : Flush2Acc),
    (inOrderFlush c ts i fuel s).disp.maxTimestamp = s.disp.maxTimestamp ∧
    (inOrderFlush c ts i fuel s).disp.dropped = s.disp.dropped ∧
    s.disp.seq ≤ (inOrderFlush c ts i fuel s).disp.seq ∧
    (inOrderFlush c ts i fuel s).disp.seq + s.out.length + s.dropped =
      s.disp.seq + (inOrderFlush c ts i fuel s).out.length +
        (inOrderFlush c ts i fuel s).dropped ∧
    ∃ t, (inOrderFlush c ts i fuel s).out = s.out ++ t := by
  intro i fuel
  induction fuel generalizing i with
  | zero =>
    intro s
    rw [inOrderFlush_zero]
    exact ⟨rfl, rfl, Nat.le_refl _, by omega, [], by simp⟩
  | succ fuel ih =>
    intro s
    cases hp : s.disp.cache s.disp.startIndex with
    | some p =>
      rw [inOrderFlush_succ_some i fuel hp]
      obtain ⟨h1, h2, h3, h4, t, h5⟩ := ih (i + 1) (ioStepSome c i s p)
      simp only [ioStepSome_disp_max, ioStepSome_disp_dropped, ioStepSome_disp_seq,
        ioStepSome_out, ioStepSome_dropped, List.length_append, List.length_cons,
        List.length_nil] at h1 h2 h3 h4 h5
      refine ⟨h1, h2, by omega, by omega, ⟨p :: t, by simpa using h5⟩⟩
    | none =>
      by_cases hz : s.disp.timestamp s.disp.startIndex = 0
      · rw [inOrderFlush_succ_zero i fuel hp hz]
        exact ⟨rfl, rfl, Nat.le_refl _, by omega, [], by simp⟩
      · by_cases hto : TRIDENT_TIMEOUT < ts - s.disp.timestamp s.disp.startIndex
        · rw [inOrderFlush_succ_timeout i fuel hp hz hto]
          obtain ⟨h1, h2, h3, h4, t, h5⟩ := ih (i + 1) (ioStepDrop c i s)
          simp only [ioStepDrop_disp_max, ioStepDrop_disp_dropped, ioStepDrop_disp_seq,
            ioStepDrop_out, ioStepDrop_dropped] at h1 h2 h3 h4 h5
          exact ⟨h1, h2, by omega, by omega, ⟨t, h5⟩⟩
        · rw [inOrderFlush_succ_wait i fuel hp hz hto]
          exact ⟨rfl, rfl, Nat.le_refl _, by omega, [], by simp⟩

theorem inOrderFlush_basic {c : Nat} (hc : 0 < c) (ts : Int) : ∀ i fuel (s : Flush2Acc),
    s.disp.startIndex < c →
    (inOrderFlush c ts i fuel s).disp.startIndex < c ∧
    ((List.range c).filterMap (inOrderFlush c ts i fuel s).disp.cache).length +
        (inOrderFlush c ts i fuel s).out.length =
      ((List.range c).filterMap s.disp.cache).length + s.out.length ∧
    (∀ j, (inOrderFlush c ts i fuel s).disp.cache j = none ∨
        (inOrderFlush c ts i fuel s).disp.cache j = s.disp.cache j) ∧
    (∀ q, q ∈ (inOrderFlush c ts i fuel s).out →
        q ∈ s.out ∨ ∃ i0, i0 < c ∧ s.disp.cache i0 = some q) := by
  intro i fuel
  induction fuel generalizing i with
  | zero =>
    intro s hs
    rw [inOrderFlush_zero]
    exact ⟨hs, rfl, fun j => Or.inr rfl, fun q hq => Or.inl hq⟩
  | succ fuel ih =>
    intro s hs
    cases hp : s.disp.cache s.disp.startIndex with
    | some p =>
      rw [inOrderFlush_succ_some i fuel hp]
      obtain ⟨h1, h2, h3, h4⟩ := ih (i + 1) (ioStepSome c i s p)
        (by rw [ioStepSome_disp_start]; exact Nat.mod_lt _ hc)
      simp only [ioStepSome_disp_cache, ioStepSome_out, List.length_append,
        List.length_cons, List.length_nil] at h1 h2 h3 h4 ⊢
      refine ⟨h1, ?_, ?_, ?_⟩
      · have hlen := length_filterMap_set_none s.disp.cache hs hp
        omega
      · intro j
        rcases h3 j with h | h
        · exact Or.inl h
        · by_cases hj : j = s.disp.startIndex
          · subst hj
            rw [h, setF_self]
            exact Or.inl rfl
          · rw [h, setF_ne _ _ hj]
            exact Or.inr rfl
      · intro q hq
        rcases h4 q hq with h | ⟨i0, hi0, he⟩
        · simp only [List.mem_append, List.mem_singleton] at h
          rcases h with h | h
          · exact Or.inl h
          · exact Or.inr ⟨s.disp.startIndex, hs, by rw [hp, h]⟩
        · by_cases hj : i0 = s.disp.startIndex
          · subst hj
            rw [setF_self] at he
            cases he
          · rw [setF_ne _ _ hj] at he
            exact Or.inr ⟨i0, hi0, he⟩
    | none =>
      by_cases hz : s.disp.timestamp s.disp.startIndex = 0
      · rw [inOrderFlush_succ_zero i fuel hp hz]
        exact ⟨hs, rfl, fun j => Or.inr rfl, fun q hq => Or.inl hq⟩
      · by_cases hto : TRIDENT_TIMEOUT < ts - s.disp.timestamp s.disp.startIndex
        · rw [inOrderFlush_succ_timeout i fuel hp hz hto]
          obtain ⟨h1, h2, h3, h4⟩ := ih (i + 1) (ioStepDrop c i s)
            (by rw [ioStepDrop_disp_start]; exact Nat.mod_lt _ hc)
          simp only [ioStepDrop_disp_cache, ioStepDrop_out] at h1 h2 h3 h4
          exact ⟨h1, h2, h3, h4⟩
        · rw [inOrderFlush_succ_wait i fuel hp hz hto]
          exact ⟨hs, rfl, fun j => Or.inr rfl, fun q hq => Or.inl hq⟩

theorem inOrderFlush_sorted {c : Nat} (hc : 0 < c) (ts : Int) : ∀ i fuel (s : Flush2Acc),
    s.disp.startIndex < c → SlotSeqOK c s.disp →
    SlotSeqOK c (inOrderFlush c ts i fuel s).disp ∧
    (∀ q, q ∈ (inOrderFlush c ts i fuel s).out →
      q ∈ s.out ∨ (s.disp.seq ≤ q.seq ∧ q.seq < (inOrderFlush c ts i fuel s).disp.seq)) ∧
    ((∀ q, q ∈ s.out → q.seq < s.disp.seq) →
      List.Pairwise (· < ·) (s.out.map PacketBuffer.seq) →
      (List.Pairwise (· < ·) ((inOrderFlush c ts i fuel s).out.map PacketBuffer.seq) ∧
        ∀ q, q ∈ (inOrderFlush c ts i fuel s).out →
          q.seq < (inOrderFlush c ts i fuel s).disp.seq)) := by
  intro i fuel
  induction fuel generalizing i with
  | zero =>
    intro s hs hok
    rw [inOrderFlush_zero]
    exact ⟨hok, fun q hq => Or.inl hq, fun hb hpw => ⟨hpw, hb⟩⟩
  | succ fuel ih =>
    intro s hs hok
    cases hp : s.disp.cache s.disp.startIndex with
    | some p =>
      have hpseq : p.seq = s.disp.seq := by
        have hx := hok s.disp.startIndex hs p hp
        have he : s.disp.startIndex + c - s.disp.startIndex = c := by omega
        rw [he, Nat.mod_self] at hx
        omega
      rw [inOrderFlush_succ_some i fuel hp]
      have hok' : SlotSeqOK c (ioStepSome c i s p).disp := by
        intro j hj q hq
        rw [ioStepSome_disp_cache] at hq
        rw [ioStepSome_disp_seq, ioStepSome_disp_start]
        by_cases hjs : j = s.disp.startIndex
        · subst hjs
          rw [setF_self] at hq
          cases hq
        · rw [setF_ne _ _ hjs] at hq
          have h0 := hok j hj q hq
          have h1 := slot_advance hj hs hjs
          omega
      obtain ⟨g1, g2, g3⟩ := ih (i + 1) (ioStepSome c i s p)
        (by rw [ioStepSome_disp_start]; exact Nat.mod_lt _ hc) hok'
      have hge := (inOrderFlush_frame c ts (i + 1) fuel (ioStepSome c i s p)).2.2.1
      rw [ioStepSome_disp_seq] at hge
      refine ⟨g1, ?_, ?_⟩
      · intro q hq
        rcases g2 q hq with h | ⟨hl, hr⟩
        · rw [ioStepSome_out] at h
          simp only [List.mem_append, List.mem_singleton] at h
          rcases h with h | h
          · exact Or.inl h
          · subst h
            exact Or.inr ⟨by omega, by omega⟩
        · rw [ioStepSome_disp_seq] at hl
          exact Or.inr ⟨by omega, hr⟩
      · intro hb hpw
        have hres := g3 ?_ ?_
        · exact ⟨hres.1, fun q hq => hres.2 q hq⟩
        · intro q hq
          rw [ioStepSome_out] at hq
          simp only [List.mem_append, List.mem_singleton] at hq
          rw [ioStepSome_disp_seq]
          rcases hq with h | h
          · have := hb q h
            omega
          · subst h
            omega
        · rw [ioStepSome_out]
          simp only [List.map_append, List.map_cons, List.map_nil]
          rw [List.pairwise_append]
          refine ⟨hpw, List.pairwise_singleton _ _, ?_⟩
          intro a ha b hb2
          simp only [List.mem_map] at ha
          obtain ⟨q, hq, rfl⟩ := ha
          simp only [List.mem_singleton] at hb2
          subst hb2
          have := hb q hq
          omega
    | none =>
      by_cases hz : s.disp.timestamp s.disp.startIndex = 0
      · rw [inOrderFlush_succ_zero i fuel hp hz]
        exact ⟨hok, fun q hq => Or.inl hq, fun hb hpw => ⟨hpw, hb⟩⟩
      · by_cases hto : TRIDENT_TIMEOUT < ts - s.disp.timestamp s.disp.startIndex
        · rw [inOrderFlush_succ_timeout i fuel hp hz hto]
          have hok' : SlotSeqOK c (ioStepDrop c i s).disp := by
            intro j hj q hq
            rw [ioStepDrop_disp_cache] at hq
            rw [ioStepDrop_disp_seq, ioStepDrop_disp_start]
            by_cases hjs : j = s.disp.startIndex
            · subst hjs
              rw [hp] at hq
              cases hq
            · have h0 := hok j hj q hq
              have h1 := slot_advance hj hs hjs
              omega
          obtain ⟨g1, g2, g3⟩ := ih (i + 1) (ioStepDrop c i s)
            (by rw [ioStepDrop_disp_start]; exact Nat.mod_lt _ hc) hok'
          refine ⟨g1, ?_, ?_⟩
          · intro q hq
            rcases g2 q hq with h | ⟨hl, hr⟩
            · rw [ioStepDrop_out] at h
              exact Or.inl h
            · rw [ioStepDrop_disp_seq] at hl
              exact Or.inr ⟨by omega, hr⟩
          · intro hb hpw
            refine g3 ?_ (by rw [ioStepDrop_out]; exact hpw)
            intro q hq
            rw [ioStepDrop_out] at hq
            rw [ioStepDrop_disp_seq]
            have := hb q hq
            omega
        · rw [inOrderFlush_succ_wait i fuel hp hz hto]
          exact ⟨hok, fun q hq => Or.inl hq, fun hb hpw => ⟨hpw, hb⟩⟩

theorem inOrderFlush_head_none {c : Nat} (hc : 0 < c) (ts : Int) : ∀ i fuel (s : Flush2Acc),
    s.disp.startIndex < c →
    (∀ j, j < c → fuel ≤ (j + c - s.disp.startIndex) % c → s.disp.cache j = none) →
    (inOrderFlush c ts i fuel s).disp.cache
      (inOrderFlush c ts i fuel s).disp.startIndex = none := by
  intro i fuel
  induction fuel generalizing i with
  | zero =>
    intro s hs hw
    rw [inOrderFlush_zero]
    exact hw _ hs (Nat.zero_le _)
  | succ fuel ih =>
    intro s hs hw
    cases hp : s.disp.cache s.disp.startIndex with
    | some p =>
      rw [inOrderFlush_succ_some i fuel hp]
      refine ih (i + 1) (ioStepSome c i s p)
        (by rw [ioStepSome_disp_start]; exact Nat.mod_lt _ hc) ?_
      intro j hj hfj
      rw [ioStepSome_disp_start] at hfj
      rw [ioStepSome_disp_cache]
      by_cases hjs : j = s.disp.startIndex
      · subst hjs
        rw [setF_self]
      · rw [setF_ne _ _ hjs]
        have h1 := slot_advance hj hs hjs
        exact hw j hj (by omega)
    | none =>
      by_cases hz : s.disp.timestamp s.disp.startIndex = 0
      · rw [inOrderFlush_succ_zero i fuel hp hz]
        exact hp
      · by_cases hto : TRIDENT_TIMEOUT < ts - s.disp.timestamp s.disp.startIndex
        · rw [inOrderFlush_succ_timeout i fuel hp hz hto]
          refine ih (i + 1) (ioStepDrop c i s)
            (by rw [ioStepDrop_disp_start]; exact Nat.mod_lt _ hc) ?_
          intro j hj hfj
          rw [ioStepDrop_disp_start] at hfj
          rw [ioStepDrop_disp_cache]
          by_cases hjs : j = s.disp.startIndex
          · subst hjs
            exact hp
          · have h1 := slot_advance hj hs hjs
            exact hw j hj (by omega)
        · rw [inOrderFlush_succ_wait i fuel hp hz hto]
          exact hp

theorem inOrderFlush_no_drop {c : Nat} {t : Int} (hc : 0 < c) : ∀ i fuel (s : Flush2Acc),
    s.disp.startIndex < c →
    (∀ j, j < c → (s.disp.timestamp j = 0 ∨ s.disp.timestamp j = t)) →
    (inOrderFlush c t i fuel s).dropped = s.dropped ∧
    (∀ j, j < c → ((inOrderFlush c t i fuel s).disp.timestamp j = 0 ∨
      (inOrderFlush c t i fuel s).disp.timestamp j = t)) := by
  intro i fuel
  induction fuel generalizing i with
  | zero =>
    intro s hslt hts
    rw [inOrderFlush_zero]
    exact ⟨rfl, hts⟩
  | succ fuel ih =>
    intro s hslt hts
    cases hp : s.disp.cache s.disp.startIndex with
    | some p =>
      rw [inOrderFlush_succ_some i fuel hp]
      refine ih (i + 1) (ioStepSome c i s p)
        (by rw [ioStepSome_disp_start]; exact Nat.mod_lt _ hc) ?_
      intro j hj
      rw [ioStepSome_disp_timestamp]
      by_cases hji : j = i
      · subst hji
        rw [setF_self]
        exact Or.inl rfl
      · rw [setF_ne _ _ hji]
        exact hts j hj
    | none =>
      by_cases hz : s.disp.timestamp s.disp.startIndex = 0
      · rw [inOrderFlush_succ_zero i fuel hp hz]
        exact ⟨rfl, hts⟩
      · have hteq : s.disp.timestamp s.disp.startIndex = t := by
          rcases hts s.disp.startIndex hslt with h | h
          · exact absurd h hz
          · exact h
        have hto : ¬ TRIDENT_TIMEOUT < t - s.disp.timestamp s.disp.startIndex := by
          rw [hteq]
          simp [TRIDENT_TIMEOUT]
        rw [inOrderFlush_succ_wait i fuel hp hz hto]
        exact ⟨rfl, hts⟩

end TridentAdapter

namespace TridentAdapter

/-! ### Backward propagation and purge -/

theorem filterMap_cons_toList (f : Nat → Option PacketBuffer) (a : Nat) (l : List Nat) :
    List.filterMap f (a :: l) = (f a).toList ++ List.filterMap f l := by
  rw [List.filterMap_cons]
  cases f a <;> simp

theorem backProp_vals (c start : Nat) (ts : Int) : ∀ fuel i cache tsArr j,
    backProp c start ts i fuel cache tsArr j = tsArr j ∨
      backProp c start ts i fuel cache tsArr j = ts := by
  intro fuel
  induction fuel with
  | zero =>
    intro i cache tsArr j
    exact Or.inl rfl
  | succ fuel ih =>
    intro i cache tsArr j
    by_cases h : i = start
    · left
      simp [backProp, h]
    · cases hcj : cache ((i + c - 1) % c) with
      | some p =>
        left
        simp [backProp, h, hcj]
      | none =>
        have e : backProp c start ts i (fuel + 1) cache tsArr =
            backProp c start ts ((i + c - 1) % c) fuel cache
              (setF tsArr ((i + c - 1) % c) ts) := by
          simp [backProp, h, hcj]
        rw [e]
        rcases ih ((i + c - 1) % c) cache (setF tsArr ((i + c - 1) % c) ts) j with h2 | h2
        · by_cases hj : j = (i + c - 1) % c
          · subst hj
            right
            rw [h2, setF_self]
          · left
            rw [h2, setF_ne _ _ hj]
        · right
          exact h2

theorem purgeStep_fold : ∀ (l : List Nat) (d : TridentDispatcher) (acc : List PacketBuffer),
    (∀ j, j ∈ l → (l.foldl purgeStep (d, acc)).1.cache j = none) ∧
    (∀ j, j ∉ l → (l.foldl purgeStep (d, acc)).1.cache j = d.cache j) ∧
    (∀ j, j ∈ l → (l.foldl purgeStep (d, acc)).1.timestamp j = 0) ∧
    (∀ j, j ∉ l → (l.foldl purgeStep (d, acc)).1.timestamp j = d.timestamp j) ∧
    (l.foldl purgeStep (d, acc)).1.maxTimestamp = d.maxTimestamp ∧
    (l.foldl purgeStep (d, acc)).1.dropped = d.dropped ∧
    (l.foldl purgeStep (d, acc)).1.seq = d.seq ∧
    (l.foldl purgeStep (d, acc)).1.startIndex = d.startIndex ∧
    (l.Nodup → (l.foldl purgeStep (d, acc)).2 = acc ++ l.filterMap d.cache) := by
  intro l
  induction l with
  | nil =>
    intro d acc
    refine ⟨fun j hj => absurd hj (List.not_mem_nil j), fun j _ => rfl,
      fun j hj => absurd hj (List.not_mem_nil j), fun j _ => rfl,
      rfl, rfl, rfl, rfl, fun _ => by simp⟩
  | cons a l ih =>
    intro d acc
    have hstep : ∃ d' acc', purgeStep (d, acc) a = (d', acc') ∧
        (∀ j, d'.cache j = if j = a then none else d.cache j) ∧
        (∀ j, d'.timestamp j = if j = a then 0 else d.timestamp j) ∧
        d'.maxTimestamp = d.maxTimestamp ∧ d'.dropped = d.dropped ∧
        d'.seq = d.seq ∧ d'.startIndex = d.startIndex ∧
        acc' = acc ++ (d.cache a).toList := by
      cases hca : d.cache a with
      | some p =>
        refine ⟨{ d with cache := setF d.cache a none, timestamp := setF d.timestamp a 0 },
          acc ++ [p], by simp [purgeStep, hca], ?_, ?_, rfl, rfl, rfl, rfl, by simp [hca]⟩
        · intro j
          by_cases hj : j = a
          · subst hj
            simp [setF_self]
          · simp [setF_ne _ _ hj, hj]
        · intro j
          by_cases hj : j = a
          · subst hj
            simp [setF_self]
          · simp [setF_ne _ _ hj, hj]
      | none =>
        refine ⟨{ d with timestamp := setF d.timestamp a 0 }, acc,
          by simp [purgeStep, hca], ?_, ?_, rfl, rfl, rfl, rfl, by simp [hca]⟩
        · intro j
          by_cases hj : j = a
          · subst hj
            simpa using hca
          · simp [hj]
        · intro j
          by_cases hj : j = a
          · subst hj
            simp [setF_self]
          · simp [setF_ne _ _ hj, hj]
    obtain ⟨d', acc', he, hc1, ht1, hm1, hd1, hs1, hi1, ha1⟩ := hstep
    have hfold : (a :: l).foldl purgeStep (d, acc) = l.foldl purgeStep (d', acc') := by
      rw [List.foldl_cons, he]
    obtain ⟨g1, g2, g3, g4, g5, g6, g7, g8, g9⟩ := ih d' acc'
    rw [hfold]
    refine ⟨?_, ?_, ?_, ?_, by rw [g5, hm1], by rw [g6, hd1], by rw [g7, hs1],
      by rw [g8, hi1], ?_⟩
    · intro j hj
      rcases List.mem_cons.mp hj with hj | hj
      · subst hj
        by_cases hjl : j ∈ l
        · exact g1 j hjl
        · rw [g2 j hjl, hc1 j, if_pos rfl]
      · exact g1 j hj
    · intro j hj
      have hja : j ≠ a := by
        intro he2
        subst he2
        exact hj (List.mem_cons_self j l)
      have hjl : j ∉ l := fun he2 => hj (List.mem_cons_of_mem a he2)
      rw [g2 j hjl, hc1 j, if_neg hja]
    · intro j hj
      rcases List.mem_cons.mp hj with hj | hj
      · subst hj
        by_cases hjl : j ∈ l
        · exact g3 j hjl
        · rw [g4 j hjl, ht1 j, if_pos rfl]
      · exact g3 j hj
    · intro j hj
      have hja : j ≠ a := by
        intro he2
        subst he2
        exact hj (List.mem_cons_self j l)
      have hjl : j ∉ l := fun he2 => hj (List.mem_cons_of_mem a he2)
      rw [g4 j hjl, ht1 j, if_neg hja]
    · intro hnd
      have hal : a ∉ l := (List.nodup_cons.mp hnd).1
      have hnd' : l.Nodup := (List.nodup_cons.mp hnd).2
      rw [g9 hnd', ha1, filterMap_cons_toList]
      have : l.filterMap d'.cache = l.filterMap d.cache := by
        apply List.filterMap_congr
        intro x hx
        have hxa : ¬ x = a := by
          intro he2
          subst he2
          exact hal hx
        rw [hc1 x, if_neg hxa]
      rw [this, List.append_assoc]

theorem purge_spec (c : Nat) (d : TridentDispatcher) :
    (∀ j, j < c → (purge c d).1.cache j = none) ∧
    (∀ j, c ≤ j → (purge c d).1.cache j = d.cache j) ∧
    (∀ j, j < c → (purge c d).1.timestamp j = 0) ∧
    (purge c d).1.maxTimestamp = d.maxTimestamp ∧
    (purge c d).1.dropped = d.dropped ∧
    (purge c d).1.seq = d.seq ∧
    (purge c d).1.startIndex = d.startIndex ∧
    (purge c d).2 = cachedList c d := by
  obtain ⟨g1, g2, g3, g4, g5, g6, g7, g8, g9⟩ := purgeStep_fold (List.range c) d []
  refine ⟨fun j hj => g1 j (List.mem_range.mpr hj),
    fun j hj => g2 j (by rw [List.mem_range]; omega),
    fun j hj => g3 j (List.mem_range.mpr hj), g5, g6, g7, g8, ?_⟩
  have hg := g9 (List.nodup_range c)
  exact hg.trans (by simp [cachedList])

end TridentAdapter

namespace TridentAdapter

/-! ### The intermediate stages of the insert phase -/

theorem maxUpd_cache (d : TridentDispatcher) (ts : Int) : (maxUpd d ts).cache = d.cache := by
  unfold maxUpd
  split <;> rfl

theorem maxUpd_timestamp (d : TridentDispatcher) (ts : Int) :
    (maxUpd d ts).timestamp = d.timestamp := by
  unfold maxUpd
  split <;> rfl

theorem maxUpd_seq (d : TridentDispatcher) (ts : Int) : (maxUpd d ts).seq = d.seq := by
  unfold maxUpd
  split <;> rfl

theorem maxUpd_start (d : TridentDispatcher) (ts : Int) :
    (maxUpd d ts).startIndex = d.startIndex := by
  unfold maxUpd
  split <;> rfl

theorem maxUpd_dropped (d : TridentDispatcher) (ts : Int) :
    (maxUpd d ts).dropped = d.dropped := by
  unfold maxUpd
  split <;> rfl

theorem maxUpd_max (d : TridentDispatcher) (ts : Int) :
    (maxUpd d ts).maxTimestamp = max d.maxTimestamp ts := by
  unfold maxUpd
  split <;> simp <;> omega

theorem forcedFlush_sync {c : Nat} (hc : 0 < c) : ∀ i fuel (s : FlushAcc),
    (forcedFlush c i fuel s).disp.seq + (forcedFlush c i fuel s).offset =
      s.disp.seq + s.offset := by
  intro i fuel
  induction fuel generalizing i with
  | zero =>
    intro s
    rw [forcedFlush_zero]
  | succ fuel ih =>
    intro s
    by_cases ho : c ≤ s.offset
    · cases hp : s.disp.cache s.disp.startIndex with
      | some p =>
        rw [forcedFlush_succ_some i fuel ho hp]
        have h := ih (i + 1) (ffStepSome c i s p)
        rw [ffStepSome_disp_seq, ffStepSome_offset] at h
        omega
      | none =>
        rw [forcedFlush_succ_none i fuel ho hp]
        have h := ih (i + 1) (ffStepNone c i s)
        rw [ffStepNone_disp_seq, ffStepNone_offset] at h
        omega
    · rw [forcedFlush_stop i fuel (by omega)]

theorem bulkGap_out (c : Nat) (s : FlushAcc) : (bulkGap c s).out = s.out := by
  unfold bulkGap
  split <;> rfl

theorem bulkGap_cache (c : Nat) (s : FlushAcc) : (bulkGap c s).disp.cache = s.disp.cache := by
  unfold bulkGap
  split <;> rfl

theorem bulkGap_timestamp (c : Nat) (s : FlushAcc) :
    (bulkGap c s).disp.timestamp = s.disp.timestamp := by
  unfold bulkGap
  split <;> rfl

theorem bulkGap_max (c : Nat) (s : FlushAcc) :
    (bulkGap c s).disp.maxTimestamp = s.disp.maxTimestamp := by
  unfold bulkGap
  split <;> rfl

theorem bulkGap_dfield (c : Nat) (s : FlushAcc) :
    (bulkGap c s).disp.dropped = s.disp.dropped := by
  unfold bulkGap
  split <;> rfl

theorem bulkGap_seq_ge (c : Nat) (s : FlushAcc) : s.disp.seq ≤ (bulkGap c s).disp.seq := by
  unfold bulkGap
  split
  · simp
  · exact Nat.le_refl _

theorem bulkGap_sync {c : Nat} (hc : 0 < c) (s : FlushAcc) :
    (bulkGap c s).disp.seq + (bulkGap c s).offset = s.disp.seq + s.offset := by
  unfold bulkGap
  split
  · rename_i h
    simp only
    omega
  · rfl

theorem bulkGap_offset_lt {c : Nat} (hc : 0 < c) (s : FlushAcc)
    (hor : c ≤ s.offset → (bulkGap c s).offset = c - 1) :
    (bulkGap c s).offset < c := by
  by_cases h : c ≤ s.offset
  · rw [hor h]
    omega
  · unfold bulkGap
    rw [if_neg h]
    omega

theorem bulkGap_offset (c : Nat) (s : FlushAcc) (h : c ≤ s.offset) :
    (bulkGap c s).offset = c - 1 := by
  unfold bulkGap
  rw [if_pos h]
  simp only
  omega

theorem bulkGap_start_lt {c : Nat} (hc : 0 < c) (s : FlushAcc) (hs : s.disp.startIndex < c) :
    (bulkGap c s).disp.startIndex < c := by
  unfold bulkGap
  split
  · exact Nat.mod_lt _ hc
  · exact hs

theorem bulkGap_dropacct (c : Nat) (s : FlushAcc) :
    (bulkGap c s).disp.seq + s.dropped = s.disp.seq + (bulkGap c s).dropped := by
  unfold bulkGap
  split
  · simp only
    omega
  · rfl

theorem place_cache (c : Nat) (s : FlushAcc) (packet : PacketBuffer) :
    (place c s packet).cache =
      setF s.disp.cache ((s.disp.startIndex + s.offset) % c) (some packet) := rfl

theorem place_seq (c : Nat) (s : FlushAcc) (packet : PacketBuffer) :
    (place c s packet).seq = s.disp.seq := rfl

theorem place_start (c : Nat) (s : FlushAcc) (packet : PacketBuffer) :
    (place c s packet).startIndex = s.disp.startIndex := rfl

theorem place_max (c : Nat) (s : FlushAcc) (packet : PacketBuffer) :
    (place c s packet).maxTimestamp = s.disp.maxTimestamp := rfl

theorem place_dfield (c : Nat) (s : FlushAcc) (packet : PacketBuffer) :
    (place c s packet).dropped = s.disp.dropped := rfl

theorem place_timestamp_vals (c : Nat) (s : FlushAcc) (packet : PacketBuffer) (j : Nat) :
    (place c s packet).timestamp j = s.disp.timestamp j ∨
      (place c s packet).timestamp j = packet.timestamp := by
  have h := backProp_vals c s.disp.startIndex packet.timestamp c
    ((s.disp.startIndex + s.offset) % c)
    (setF s.disp.cache ((s.disp.startIndex + s.offset) % c) (some packet))
    (setF s.disp.timestamp ((s.disp.startIndex + s.offset) % c) packet.timestamp) j
  rcases h with h | h
  · by_cases hj : j = (s.disp.startIndex + s.offset) % c
    · subst hj
      rw [setF_self] at h
      exact Or.inr h
    · rw [setF_ne _ _ hj] at h
      exact Or.inl h
  · exact Or.inr h

end TridentAdapter

namespace TridentAdapter

/-! ### The insert phase assembled -/

/-- Decomposition of `insertPhase` into its stages, with the fields of the
result expressed through the final in-order-flush accumulator. -/
theorem insertPhase_decomp (c : Nat) (d0 : TridentDispatcher) (packet : PacketBuffer) :
    ∃ s2 s3,
      s2 = bulkGap c (forcedFlush c 0 c
          { disp := maxUpd d0 packet.timestamp,
            offset := packet.seq - (maxUpd d0 packet.timestamp).seq,
            dropped := 0, out := [] }) ∧
      s3 = inOrderFlush c packet.timestamp 0 c
          { disp := place c s2 packet, dropped := s2.dropped, out := [] } ∧
      (insertPhase c d0 packet).1.cache = s3.disp.cache ∧
      (insertPhase c d0 packet).1.timestamp = s3.disp.timestamp ∧
      (insertPhase c d0 packet).1.maxTimestamp = s3.disp.maxTimestamp ∧
      (insertPhase c d0 packet).1.dropped = s3.disp.dropped + s3.dropped ∧
      (insertPhase c d0 packet).1.seq = s3.disp.seq ∧
      (insertPhase c d0 packet).1.startIndex = s3.disp.startIndex ∧
      (insertPhase c d0 packet).2.1 = s2.out ++ s3.out ∧
      (insertPhase c d0 packet).2.2 = s3.dropped :=
  ⟨_, _, rfl, rfl, rfl, rfl, rfl, rfl, rfl, rfl, rfl, rfl⟩

/-- The max timestamp after the insert phase is the max of the old one and
the packet's (no later stage touches it). -/
theorem insertPhase_max (c : Nat) (d0 : TridentDispatcher) (packet : PacketBuffer) :
    (insertPhase c d0 packet).1.maxTimestamp = max d0.maxTimestamp packet.timestamp := by
  obtain ⟨s2, s3, hs2, hs3, _, _, hmax, _, _, _, _, _⟩ := insertPhase_decomp c d0 packet
  rw [hmax, hs3]
  rw [(inOrderFlush_frame c packet.timestamp 0 c _).1]
  show (place c s2 packet).maxTimestamp = _
  rw [place_max, hs2, bulkGap_max, (forcedFlush_frame c 0 c _).1]
  show (maxUpd d0 packet.timestamp).maxTimestamp = _
  exact maxUpd_max d0 packet.timestamp


/-- Sequence-number accounting across the insert phase: the window start
advances exactly once per delivered packet and once per counted drop, the
cumulative per-window drop counter advances by the returned count, and the
window start never moves backward. -/
theorem insertPhase_seq_adv (c : Nat) (d0 : TridentDispatcher) (packet : PacketBuffer) :
    (insertPhase c d0 packet).1.seq =
      d0.seq + (insertPhase c d0 packet).2.1.length + (insertPhase c d0 packet).2.2 ∧
    (insertPhase c d0 packet).1.dropped = d0.dropped + (insertPhase c d0 packet).2.2 ∧
    d0.seq ≤ (insertPhase c d0 packet).1.seq := by
  obtain ⟨s2, s3, hs2, hs3, _, _, _, hdr, hseq, _, hout, hdrop⟩ := insertPhase_decomp c d0 packet
  set acc0 : FlushAcc := ({ disp := maxUpd d0 packet.timestamp, offset := packet.seq - (maxUpd d0 packet.timestamp).seq, dropped := 0, out := [] } : FlushAcc) with hacc0def
  set f1 : FlushAcc := forcedFlush c 0 c acc0 with hf1def
  set acc1 : Flush2Acc := ({ disp := place c s2 packet, dropped := s2.dropped, out := [] } : Flush2Acc) with hacc1def
  have ha0seq : acc0.disp.seq = d0.seq := maxUpd_seq d0 packet.timestamp
  have ha0drf : acc0.disp.dropped = d0.dropped := maxUpd_dropped d0 packet.timestamp
  have hA1 := (forcedFlush_frame c 0 c acc0).2.2.2.1
  have hA1b := (forcedFlush_frame c 0 c acc0).2.2.1
  have hA2 := (forcedFlush_frame c 0 c acc0).2.1
  rw [← hf1def] at hA1 hA1b hA2
  have ha0out : acc0.out = ([] : List PacketBuffer) := rfl
  have ha0dr : acc0.dropped = 0 := rfl
  rw [ha0out, ha0dr, ha0seq] at hA1
  rw [ha0seq] at hA1b
  rw [ha0drf] at hA2
  simp only [List.length_nil] at hA1
  have hA3 := bulkGap_dropacct c f1
  have hA4 := bulkGap_out c f1
  have hA5 := bulkGap_dfield c f1
  have hA9 := bulkGap_seq_ge c f1
  rw [← hs2] at hA3 hA4 hA5 hA9
  have hA6 : acc1.disp.seq = s2.disp.seq := place_seq c s2 packet
  have hA6b : acc1.disp.dropped = s2.disp.dropped := place_dfield c s2 packet
  have hB1 := (inOrderFlush_frame c packet.timestamp 0 c acc1).2.2.2.1
  have hB2 := (inOrderFlush_frame c packet.timestamp 0 c acc1).2.1
  have hB3 := (inOrderFlush_frame c packet.timestamp 0 c acc1).2.2.1
  rw [← hs3] at hB1 hB2 hB3
  have ha1out : acc1.out = ([] : List PacketBuffer) := rfl
  have ha1dr : acc1.dropped = s2.dropped := rfl
  rw [ha1out, ha1dr, hA6] at hB1
  rw [hA6b] at hB2
  rw [hA6] at hB3
  simp only [List.length_nil] at hB1
  rw [hout, hdrop, hdr, hseq]
  simp only [List.length_append, hA4]
  omega

theorem bulkGap_id {c : Nat} {s : FlushAcc} (h : ¬ c ≤ s.offset) : bulkGap c s = s := by
  unfold bulkGap
  exact if_neg h

/-- The structural outcome of the insert phase on a coherent window: head
index in range, slot sequences coherent, nothing outside the slot range,
empty head slot, and deliveries in strictly increasing sequence order
bounded by the old and new window starts. -/
theorem insertPhase_main {c : Nat} (hc : 0 < c) (d0 : TridentDispatcher)
    (packet : PacketBuffer) (hstart : d0.startIndex < c) (hok : SlotSeqOK c d0)
    (hhi : ∀ j, c ≤ j → d0.cache j = none) (hseq0 : d0.seq ≤ packet.seq) :
    (insertPhase c d0 packet).1.startIndex < c ∧
    SlotSeqOK c (insertPhase c d0 packet).1 ∧
    (∀ j, c ≤ j → (insertPhase c d0 packet).1.cache j = none) ∧
    (insertPhase c d0 packet).1.cache (insertPhase c d0 packet).1.startIndex = none ∧
    List.Pairwise (· < ·) ((insertPhase c d0 packet).2.1.map PacketBuffer.seq) ∧
    (∀ q, q ∈ (insertPhase c d0 packet).2.1 →
      d0.seq ≤ q.seq ∧ q.seq < (insertPhase c d0 packet).1.seq) := by
  obtain ⟨s2, s3, hs2, hs3, hrc, hrt, hrm, hrd, hrs, hri, hout, hdrop⟩ :=
    insertPhase_decomp c d0 packet
  set acc0 : FlushAcc := ({ disp := maxUpd d0 packet.timestamp, offset := packet.seq - (maxUpd d0 packet.timestamp).seq, dropped := 0, out := [] } : FlushAcc) with hacc0def
  set f1 : FlushAcc := forcedFlush c 0 c acc0 with hf1def
  set acc1 : Flush2Acc := ({ disp := place c s2 packet, dropped := s2.dropped, out := [] } : Flush2Acc) with hacc1def
  have ha0start : acc0.disp.startIndex = d0.startIndex := maxUpd_start d0 packet.timestamp
  have ha0seq : acc0.disp.seq = d0.seq := maxUpd_seq d0 packet.timestamp
  have ha0cache : acc0.disp.cache = d0.cache := maxUpd_cache d0 packet.timestamp
  have ha0ok : SlotSeqOK c acc0.disp := by
    intro i hi p hp
    rw [ha0cache] at hp
    rw [ha0seq, ha0start]
    exact hok i hi p hp
  have ha0slt : acc0.disp.startIndex < c := by rw [ha0start]; exact hstart
  -- forced flush
  obtain ⟨hf1slt, hf1cnt, hf1pw, hf1mem⟩ := forcedFlush_basic hc 0 c acc0 ha0slt
  obtain ⟨hf1ok, hf1bnd, hf1srt⟩ := forcedFlush_sorted hc 0 c acc0 ha0slt ha0ok
  rw [← hf1def] at hf1slt hf1cnt hf1pw hf1mem hf1ok hf1bnd hf1srt
  have hf1seqge := (forcedFlush_frame c 0 c acc0).2.2.1
  rw [← hf1def, ha0seq] at hf1seqge
  have hsync1 := forcedFlush_sync hc 0 c acc0
  rw [← hf1def] at hsync1
  have ha0off : acc0.offset = packet.seq - d0.seq := by
    show packet.seq - (maxUpd d0 packet.timestamp).seq = _
    rw [maxUpd_seq]
  rw [ha0seq, ha0off] at hsync1
  have hsyncv : f1.disp.seq + f1.offset = packet.seq := by omega
  -- bulk gap
  have hs2slt : s2.disp.startIndex < c := by
    rw [hs2]
    exact bulkGap_start_lt hc f1 hf1slt
  have hs2cache : s2.disp.cache = f1.disp.cache := by rw [hs2]; exact bulkGap_cache c f1
  have hs2ok : SlotSeqOK c s2.disp := by
    by_cases hb : c ≤ f1.offset
    · have hnone := forcedFlush_all_none hc 0 c acc0 ha0slt
        (fun j hj hf => absurd hf (by have := Nat.mod_lt (j + c - acc0.disp.startIndex) hc; omega))
        (by rw [← hf1def]; exact hb)
      rw [← hf1def] at hnone
      intro i hi p hp
      rw [hs2cache] at hp
      rw [hnone i hi] at hp
      cases hp
    · have : s2 = f1 := by rw [hs2]; exact bulkGap_id hb
      rw [this]
      exact hf1ok
  have hs2off : s2.offset < c := by
    by_cases hb : c ≤ f1.offset
    · rw [hs2, bulkGap_offset c f1 hb]
      omega
    · rw [hs2, bulkGap_id hb]
      omega
  have hs2sync : s2.disp.seq + s2.offset = packet.seq := by
    rw [hs2]
    rw [bulkGap_sync hc f1]
    exact hsyncv
  have hs2seqge : f1.disp.seq ≤ s2.disp.seq := by rw [hs2]; exact bulkGap_seq_ge c f1
  have hs2out : s2.out = f1.out := by rw [hs2]; exact bulkGap_out c f1
  -- place
  have hcur : (s2.disp.startIndex + s2.offset) % c < c := Nat.mod_lt _ hc
  have ha1start : acc1.disp.startIndex = s2.disp.startIndex := place_start c s2 packet
  have ha1seq : acc1.disp.seq = s2.disp.seq := place_seq c s2 packet
  have ha1slt : acc1.disp.startIndex < c := by rw [ha1start]; exact hs2slt
  have ha1ok : SlotSeqOK c acc1.disp := by
    intro i hi p hp
    have hpc : acc1.disp.cache =
        setF s2.disp.cache ((s2.disp.startIndex + s2.offset) % c) (some packet) :=
      place_cache c s2 packet
    rw [hpc] at hp
    rw [ha1seq, ha1start]
    by_cases hic : i = (s2.disp.startIndex + s2.offset) % c
    · subst hic
      rw [setF_self] at hp
      cases hp
      rw [ins_offset hs2slt hs2off]
      omega
    · rw [setF_ne _ _ hic] at hp
      exact hs2ok i hi p hp
  -- in-order flush
  obtain ⟨hs3slt, hs3cnt, hs3pw, hs3mem⟩ :=
    inOrderFlush_basic hc packet.timestamp 0 c acc1 ha1slt
  obtain ⟨hs3ok, hs3bnd, hs3srt⟩ :=
    inOrderFlush_sorted hc packet.timestamp 0 c acc1 ha1slt ha1ok
  rw [← hs3] at hs3slt hs3cnt hs3pw hs3mem hs3ok hs3bnd hs3srt
  have hs3seqge := (inOrderFlush_frame c packet.timestamp 0 c acc1).2.2.1
  rw [← hs3, ha1seq] at hs3seqge
  have hhead := inOrderFlush_head_none hc packet.timestamp 0 c acc1 ha1slt
    (fun j hj hf => absurd hf (by have := Nat.mod_lt (j + c - acc1.disp.startIndex) hc; omega))
  rw [← hs3] at hhead
  -- outside-range slots
  have hhi3 : ∀ j, c ≤ j → s3.disp.cache j = none := by
    intro j hj
    rcases hs3pw j with h | h
    · exact h
    · rw [h]
      have hpc : acc1.disp.cache =
          setF s2.disp.cache ((s2.disp.startIndex + s2.offset) % c) (some packet) :=
        place_cache c s2 packet
      rw [hpc, setF_ne _ _ (by omega)]
      rw [hs2cache]
      rcases hf1pw j with h2 | h2
      · exact h2
      · rw [h2, ha0cache]
        exact hhi j hj
  -- the sorted output of the two flushes
  have hf1srt2 := hf1srt (fun q hq => absurd hq (List.not_mem_nil q)) List.Pairwise.nil
  have hs3srt2 := hs3srt (fun q hq => absurd hq (List.not_mem_nil q)) List.Pairwise.nil
  have hcross : ∀ q ∈ f1.out, ∀ q2 ∈ s3.out, q.seq < q2.seq := by
    intro q hq q2 hq2
    have h1 := hf1srt2.2 q hq
    rcases hs3bnd q2 hq2 with h2 | h2
    · exact absurd h2 (List.not_mem_nil q2)
    · rw [ha1seq] at h2
      omega
  refine ⟨by rw [hri]; exact hs3slt, ?_, ?_, ?_, ?_, ?_⟩
  · intro i hi p hp
    rw [hrc] at hp
    rw [hrs, hri]
    exact hs3ok i hi p hp
  · intro j hj
    rw [hrc]
    exact hhi3 j hj
  · rw [hrc, hri]
    exact hhead
  · rw [hout, hs2out]
    simp only [List.map_append]
    rw [List.pairwise_append]
    refine ⟨hf1srt2.1, hs3srt2.1, ?_⟩
    intro a ha b hb
    simp only [List.mem_map] at ha hb
    obtain ⟨q, hq, rfl⟩ := ha
    obtain ⟨q2, hq2, rfl⟩ := hb
    exact hcross q hq q2 hq2
  · intro q hq
    rw [hout, hs2out] at hq
    rw [hrs]
    rcases List.mem_append.mp hq with h | h
    · rcases hf1bnd q h with h2 | h2
      · exact absurd h2 (List.not_mem_nil q)
      · rw [ha0seq] at h2
        have := hf1srt2.2 q h
        omega
    · rcases hs3bnd q h with h2 | h2
      · exact absurd h2 (List.not_mem_nil q)
      · rw [ha1seq] at h2
        omega

/-- Counting cached packets across the insert phase: deliveries come out
of the cache and at most one new packet (the inserted one) goes in. -/
theorem insertPhase_count {c : Nat} (hc : 0 < c) (d0 : TridentDispatcher)
    (packet : PacketBuffer) (hstart : d0.startIndex < c) :
    ((List.range c).filterMap (insertPhase c d0 packet).1.cache).length +
        (insertPhase c d0 packet).2.1.length ≤
      ((List.range c).filterMap d0.cache).length + 1 := by
  obtain ⟨s2, s3, hs2, hs3, hrc, _, _, _, _, _, hout, _⟩ := insertPhase_decomp c d0 packet
  set acc0 : FlushAcc := ({ disp := maxUpd d0 packet.timestamp, offset := packet.seq - (maxUpd d0 packet.timestamp).seq, dropped := 0, out := [] } : FlushAcc) with hacc0def
  set f1 : FlushAcc := forcedFlush c 0 c acc0 with hf1def
  set acc1 : Flush2Acc := ({ disp := place c s2 packet, dropped := s2.dropped, out := [] } : Flush2Acc) with hacc1def
  have ha0start : acc0.disp.startIndex = d0.startIndex := maxUpd_start d0 packet.timestamp
  have ha0cache : acc0.disp.cache = d0.cache := maxUpd_cache d0 packet.timestamp
  have ha0slt : acc0.disp.startIndex < c := by rw [ha0start]; exact hstart
  obtain ⟨hf1slt, hf1cnt, _, _⟩ := forcedFlush_basic hc 0 c acc0 ha0slt
  rw [← hf1def] at hf1slt hf1cnt
  rw [ha0cache] at hf1cnt
  have ha0out : acc0.out = ([] : List PacketBuffer) := rfl
  rw [ha0out] at hf1cnt
  simp only [List.length_nil] at hf1cnt
  have hs2slt : s2.disp.startIndex < c := by rw [hs2]; exact bulkGap_start_lt hc f1 hf1slt
  have hs2cache : s2.disp.cache = f1.disp.cache := by rw [hs2]; exact bulkGap_cache c f1
  have hs2out : s2.out = f1.out := by rw [hs2]; exact bulkGap_out c f1
  have ha1slt : acc1.disp.startIndex < c := by
    rw [show acc1.disp.startIndex = s2.disp.startIndex from place_start c s2 packet]
    exact hs2slt
  have hplace : ((List.range c).filterMap acc1.disp.cache).length ≤
      ((List.range c).filterMap f1.disp.cache).length + 1 := by
    rw [show acc1.disp.cache =
      setF s2.disp.cache ((s2.disp.startIndex + s2.offset) % c) (some packet)
      from place_cache c s2 packet, ← hs2cache]
    exact length_filterMap_set_some_le s2.disp.cache packet
  obtain ⟨_, hs3cnt, _, _⟩ := inOrderFlush_basic hc packet.timestamp 0 c acc1 ha1slt
  rw [← hs3] at hs3cnt
  have ha1out : acc1.out = ([] : List PacketBuffer) := rfl
  rw [ha1out] at hs3cnt
  simp only [List.length_nil] at hs3cnt
  rw [hrc, hout, hs2out]
  simp only [List.length_append]
  have e1 : (List.range c).filterMap acc1.disp.cache =
      (List.range c).filterMap (place c s2 packet).cache := rfl
  rw [e1] at hplace hs3cnt
  omega

/-- Conservation of packet objects across the insert phase: everything
cached after the call, and everything delivered by the call, was either
cached before the call or is the inserted packet. -/
theorem insertPhase_mem {c : Nat} (hc : 0 < c) (d0 : TridentDispatcher)
    (packet : PacketBuffer) (hstart : d0.startIndex < c) :
    (∀ q i, i < c → (insertPhase c d0 packet).1.cache i = some q →
      (∃ i0, i0 < c ∧ d0.cache i0 = some q) ∨ q = packet) ∧
    (∀ q, q ∈ (insertPhase c d0 packet).2.1 →
      (∃ i0, i0 < c ∧ d0.cache i0 = some q) ∨ q = packet) := by
  obtain ⟨s2, s3, hs2, hs3, hrc, _, _, _, _, _, hout, _⟩ := insertPhase_decomp c d0 packet
  set acc0 : FlushAcc := ({ disp := maxUpd d0 packet.timestamp, offset := packet.seq - (maxUpd d0 packet.timestamp).seq, dropped := 0, out := [] } : FlushAcc) with hacc0def
  set f1 : FlushAcc := forcedFlush c 0 c acc0 with hf1def
  set acc1 : Flush2Acc := ({ disp := place c s2 packet, dropped := s2.dropped, out := [] } : Flush2Acc) with hacc1def
  have ha0start : acc0.disp.startIndex = d0.startIndex := maxUpd_start d0 packet.timestamp
  have ha0cache : acc0.disp.cache = d0.cache := maxUpd_cache d0 packet.timestamp
  have ha0slt : acc0.disp.startIndex < c := by rw [ha0start]; exact hstart
  obtain ⟨hf1slt, _, hf1pw, hf1mem⟩ := forcedFlush_basic hc 0 c acc0 ha0slt
  rw [← hf1def] at hf1slt hf1pw hf1mem
  have hs2slt : s2.disp.startIndex < c := by rw [hs2]; exact bulkGap_start_lt hc f1 hf1slt
  have hs2cache : s2.disp.cache = f1.disp.cache := by rw [hs2]; exact bulkGap_cache c f1
  have hs2out : s2.out = f1.out := by rw [hs2]; exact bulkGap_out c f1
  have ha1slt : acc1.disp.startIndex < c := by
    rw [show acc1.disp.startIndex = s2.disp.startIndex from place_start c s2 packet]
    exact hs2slt
  obtain ⟨_, _, hs3pw, hs3mem⟩ := inOrderFlush_basic hc packet.timestamp 0 c acc1 ha1slt
  rw [← hs3] at hs3pw hs3mem
  have hacc1res : ∀ q i, i < c → acc1.disp.cache i = some q →
      (∃ i0, i0 < c ∧ d0.cache i0 = some q) ∨ q = packet := by
    intro q i hi hq
    rw [show acc1.disp.cache =
      setF s2.disp.cache ((s2.disp.startIndex + s2.offset) % c) (some packet)
      from place_cache c s2 packet] at hq
    by_cases hic : i = (s2.disp.startIndex + s2.offset) % c
    · subst hic
      rw [setF_self] at hq
      cases hq
      exact Or.inr rfl
    · rw [setF_ne _ _ hic] at hq
      rw [hs2cache] at hq
      rcases hf1pw i with h | h
      · rw [h] at hq
        cases hq
      · rw [h, ha0cache] at hq
        exact Or.inl ⟨i, hi, hq⟩
  constructor
  · intro q i hi hq
    rw [hrc] at hq
    rcases hs3pw i with h | h
    · rw [h] at hq
      cases hq
    · rw [h] at hq
      exact hacc1res q i hi hq
  · intro q hq
    rw [hout, hs2out] at hq
    rcases List.mem_append.mp hq with h | h
    · rcases hf1mem q h with h2 | ⟨i0, hi0, he⟩
      · exact absurd h2 (List.not_mem_nil q)
      · rw [ha0cache] at he
        exact Or.inl ⟨i0, hi0, he⟩
    · rcases hs3mem q h with h2 | ⟨i0, hi0, he⟩
      · exact absurd h2 (List.not_mem_nil q)
      · exact hacc1res q i0 hi0 he

theorem forcedFlush_noop (c i fuel : Nat) (s : FlushAcc) (h : s.offset < c) :
    forcedFlush c i fuel s = s := by
  cases fuel with
  | zero => exact forcedFlush_zero c i s
  | succ fuel => exact forcedFlush_stop i fuel h

/-- The insert phase on an in-window packet (offset within the ring, a
fresh slot) under uniform timestamps: no drop is counted, timestamps stay
uniform, exactly the new packet enters the cache, and whatever is
delivered comes from the cache-after-insert. -/
theorem insertPhase_inwin {c : Nat} {t : Int} (hc : 0 < c) (d0 : TridentDispatcher)
    (packet : PacketBuffer) (hstart : d0.startIndex < c)
    (hts0 : ∀ j, j < c → (d0.timestamp j = 0 ∨ d0.timestamp j = t))
    (hpt : packet.timestamp = t)
    (hseq0 : d0.seq ≤ packet.seq) (hoff : packet.seq < d0.seq + c)
    (hcur : d0.cache ((d0.startIndex + (packet.seq - d0.seq)) % c) = none) :
    (insertPhase c d0 packet).2.2 = 0 ∧
    (∀ j, j < c → ((insertPhase c d0 packet).1.timestamp j = 0 ∨
      (insertPhase c d0 packet).1.timestamp j = t)) ∧
    ((List.range c).filterMap (insertPhase c d0 packet).1.cache).length +
        (insertPhase c d0 packet).2.1.length =
      ((List.range c).filterMap d0.cache).length + 1 ∧
    (∀ j, (insertPhase c d0 packet).1.cache j = none ∨
      (insertPhase c d0 packet).1.cache j =
        setF d0.cache ((d0.startIndex + (packet.seq - d0.seq)) % c) (some packet) j) ∧
    (∀ q, q ∈ (insertPhase c d0 packet).2.1 → ∃ i, i < c ∧
      setF d0.cache ((d0.startIndex + (packet.seq - d0.seq)) % c) (some packet) i = some q) := by
  subst hpt
  obtain ⟨s2, s3, hs2, hs3, hrc, hrt, _, _, _, _, hout, hdrop⟩ := insertPhase_decomp c d0 packet
  set acc0 : FlushAcc := ({ disp := maxUpd d0 packet.timestamp, offset := packet.seq - (maxUpd d0 packet.timestamp).seq, dropped := 0, out := [] } : FlushAcc) with hacc0def
  set acc1 : Flush2Acc := ({ disp := place c s2 packet, dropped := s2.dropped, out := [] } : Flush2Acc) with hacc1def
  have ha0start : acc0.disp.startIndex = d0.startIndex := maxUpd_start d0 packet.timestamp
  have ha0seq : acc0.disp.seq = d0.seq := maxUpd_seq d0 packet.timestamp
  have ha0cache : acc0.disp.cache = d0.cache := maxUpd_cache d0 packet.timestamp
  have ha0ts : acc0.disp.timestamp = d0.timestamp := maxUpd_timestamp d0 packet.timestamp
  have ha0off : acc0.offset = packet.seq - d0.seq := by
    show packet.seq - (maxUpd d0 packet.timestamp).seq = _
    rw [maxUpd_seq]
  have hofflt : acc0.offset < c := by rw [ha0off]; omega
  have hff : forcedFlush c 0 c acc0 = acc0 := forcedFlush_noop c 0 c acc0 hofflt
  have hs2e : s2 = acc0 := by rw [hs2, hff, bulkGap_id (by omega)]
  have hcur2 : (s2.disp.startIndex + s2.offset) % c =
      (d0.startIndex + (packet.seq - d0.seq)) % c := by
    rw [hs2e, ha0start, ha0off]
  have hplcache : acc1.disp.cache =
      setF d0.cache ((d0.startIndex + (packet.seq - d0.seq)) % c) (some packet) := by
    rw [show acc1.disp.cache =
      setF s2.disp.cache ((s2.disp.startIndex + s2.offset) % c) (some packet)
      from place_cache c s2 packet, hcur2, hs2e, ha0cache]
  have ha1slt : acc1.disp.startIndex < c := by
    rw [show acc1.disp.startIndex = s2.disp.startIndex from place_start c s2 packet,
      hs2e, ha0start]
    exact hstart
  have ha1ts : ∀ j, j < c →
      (acc1.disp.timestamp j = 0 ∨ acc1.disp.timestamp j = packet.timestamp) := by
    intro j hj
    have h := place_timestamp_vals c s2 packet j
    rcases h with h | h
    · rw [show acc1.disp.timestamp = (place c s2 packet).timestamp from rfl, h,
        hs2e, ha0ts]
      exact hts0 j hj
    · right
      rw [show acc1.disp.timestamp = (place c s2 packet).timestamp from rfl, h]
  have ha1dr : acc1.dropped = 0 := by
    show s2.dropped = 0
    rw [hs2e]
  obtain ⟨hnd1, hnd2⟩ := inOrderFlush_no_drop hc 0 c acc1 ha1slt ha1ts
  rw [← hs3] at hnd1 hnd2
  rw [ha1dr] at hnd1
  obtain ⟨_, hs3cnt, hs3pw, hs3mem⟩ := inOrderFlush_basic hc packet.timestamp 0 c acc1 ha1slt
  rw [← hs3] at hs3cnt hs3pw hs3mem
  have hcnt1 : ((List.range c).filterMap acc1.disp.cache).length =
      ((List.range c).filterMap d0.cache).length + 1 := by
    rw [hplcache]
    exact length_filterMap_set_some_of_none d0.cache (Nat.mod_lt _ hc) hcur packet
  refine ⟨by rw [hdrop]; exact hnd1, ?_, ?_, ?_, ?_⟩
  · intro j hj
    rw [hrt]
    exact hnd2 j hj
  · rw [hrc, hout]
    have hs2out : s2.out = ([] : List PacketBuffer) := by rw [hs2e]
    rw [hs2out]
    simp only [List.nil_append]
    have ha1out : acc1.out = ([] : List PacketBuffer) := rfl
    rw [ha1out] at hs3cnt
    simp only [List.length_nil] at hs3cnt
    have e1 : (List.range c).filterMap acc1.disp.cache =
        (List.range c).filterMap (place c s2 packet).cache := rfl
    rw [← e1] at hs3cnt
    omega
  · intro j
    rw [hrc]
    rcases hs3pw j with h | h
    · exact Or.inl h
    · rw [h, hplcache]
      exact Or.inr rfl
  · intro q hq
    rw [hout] at hq
    have hs2out : s2.out = ([] : List PacketBuffer) := by rw [hs2e]
    rw [hs2out, List.nil_append] at hq
    rcases hs3mem q hq with h | ⟨i0, hi0, he⟩
    · exact absurd h (List.not_mem_nil q)
    · rw [hplcache] at he
      exact ⟨i0, hi0, he⟩

/-! ### Case equations for `cacheLookup` -/

theorem cacheLookup_stale {d : TridentDispatcher} {packet : PacketBuffer} {c : Nat}
    (hseeded : d.seq ≠ 0) (hback : packet.seq < d.seq)
    (hts : packet.timestamp ≤ d.maxTimestamp) :
    cacheLookup d packet c =
      { state := d, delivered := [], released := [packet],
        dropped := 0, expired := 1, restarted := false } := by
  simp only [cacheLookup, if_neg hseeded, if_pos hback, if_neg (not_lt.mpr hts)]

theorem cacheLookup_fwd {d : TridentDispatcher} {packet : PacketBuffer} {c : Nat}
    (hseeded : d.seq ≠ 0) (hfwd : d.seq ≤ packet.seq) :
    cacheLookup d packet c =
      { state := (insertPhase c d packet).1,
        delivered := (insertPhase c d packet).2.1, released := [],
        dropped := (insertPhase c d packet).2.2, expired := 0, restarted := false } := by
  simp only [cacheLookup, if_neg hseeded, if_neg (not_lt.mpr hfwd)]

theorem cacheLookup_seed {d : TridentDispatcher} {packet : PacketBuffer} {c : Nat}
    (hz : d.seq = 0) :
    cacheLookup d packet c =
      { state := (insertPhase c { d with seq := packet.seq } packet).1,
        delivered := (insertPhase c { d with seq := packet.seq } packet).2.1, released := [],
        dropped := (insertPhase c { d with seq := packet.seq } packet).2.2,
        expired := 0, restarted := false } := by
  simp only [cacheLookup, if_pos hz, if_neg (lt_irrefl packet.seq)]

theorem cacheLookup_restart {d : TridentDispatcher} {packet : PacketBuffer} {c : Nat}
    (hseeded : d.seq ≠ 0) (hback : packet.seq < d.seq)
    (hts : d.maxTimestamp < packet.timestamp) :
    cacheLookup d packet c =
      { state := (insertPhase c { (purge c d).1 with
            seq := if c < packet.seq then packet.seq - c else 1, startIndex := 0 } packet).1,
        delivered := (insertPhase c { (purge c d).1 with
            seq := if c < packet.seq then packet.seq - c else 1, startIndex := 0 } packet).2.1,
        released := (purge c d).2,
        dropped := (insertPhase c { (purge c d).1 with
            seq := if c < packet.seq then packet.seq - c else 1, startIndex := 0 } packet).2.2,
        expired := 0, restarted := true } := by
  simp only [cacheLookup, if_neg hseeded, if_pos hback, if_pos hts]

end TridentAdapter

namespace TridentAdapter

/-! ### Auxiliary conservation and monotonicity lemmas -/

theorem filterMap_range_none {c : Nat} {f : Nat → Option PacketBuffer}
    (h : ∀ i, i < c → f i = none) : (List.range c).filterMap f = [] := by
  have he : (List.range c).filterMap f = (List.range c).filterMap (fun _ => none) :=
    filterMap_range_congr (fun i hi => h i hi)
  rw [he]
  simp

theorem inOrderFlush_mem_preserve (c : Nat) (ts : Int) : ∀ i fuel (s : Flush2Acc)
    (q : PacketBuffer) (i0 : Nat), s.disp.cache i0 = some q →
    q ∈ (inOrderFlush c ts i fuel s).out ∨
      ∃ i1, (inOrderFlush c ts i fuel s).disp.cache i1 = some q := by
  intro i fuel
  induction fuel generalizing i with
  | zero =>
    intro s q i0 hq
    rw [inOrderFlush_zero]
    exact Or.inr ⟨i0, hq⟩
  | succ fuel ih =>
    intro s q i0 hq
    cases hp : s.disp.cache s.disp.startIndex with
    | some p =>
      rw [inOrderFlush_succ_some i fuel hp]
      by_cases hi0 : i0 = s.disp.startIndex
      · subst hi0
        rw [hp] at hq
        cases hq
        left
        obtain ⟨-, -, -, -, t, hsuf⟩ := inOrderFlush_frame c ts (i + 1) fuel (ioStepSome c i s q)
        rw [hsuf, ioStepSome_out]
        simp
      · have hq' : (ioStepSome c i s p).disp.cache i0 = some q := by
          rw [ioStepSome_disp_cache, setF_ne _ _ hi0]
          exact hq
        exact ih (i + 1) (ioStepSome c i s p) q i0 hq'
    | none =>
      by_cases hz : s.disp.timestamp s.disp.startIndex = 0
      · rw [inOrderFlush_succ_zero i fuel hp hz]
        exact Or.inr ⟨i0, hq⟩
      · by_cases hto : TRIDENT_TIMEOUT < ts - s.disp.timestamp s.disp.startIndex
        · rw [inOrderFlush_succ_timeout i fuel hp hz hto]
          have hq' : (ioStepDrop c i s).disp.cache i0 = some q := by
            rw [ioStepDrop_disp_cache]
            exact hq
          exact ih (i + 1) (ioStepDrop c i s) q i0 hq'
        · rw [inOrderFlush_succ_wait i fuel hp hz hto]
          exact Or.inr ⟨i0, hq⟩

theorem inOrderFlush_delivers_head (c : Nat) (ts : Int) (i fuel : Nat) (hf : 1 ≤ fuel)
    (s : Flush2Acc) {p : PacketBuffer} (hp : s.disp.cache s.disp.startIndex = some p) :
    p ∈ (inOrderFlush c ts i fuel s).out := by
  obtain ⟨f, hfe⟩ : ∃ f, fuel = f + 1 := ⟨fuel - 1, by omega⟩
  subst hfe
  rw [inOrderFlush_succ_some i f hp]
  obtain ⟨-, -, -, -, t, hsuf⟩ := inOrderFlush_frame c ts (i + 1) f (ioStepSome c i s p)
  rw [hsuf, ioStepSome_out]
  simp

theorem insertPhase_start_lt {c : Nat} (hc : 0 < c) (d0 : TridentDispatcher)
    (packet : PacketBuffer) (hstart : d0.startIndex < c) :
    (insertPhase c d0 packet).1.startIndex < c := by
  obtain ⟨s2, s3, hs2, hs3, _, _, _, _, _, hri, _, _⟩ := insertPhase_decomp c d0 packet
  set acc0 : FlushAcc := ({ disp := maxUpd d0 packet.timestamp, offset := packet.seq - (maxUpd d0 packet.timestamp).seq, dropped := 0, out := [] } : FlushAcc) with hacc0def
  set f1 : FlushAcc := forcedFlush c 0 c acc0 with hf1def
  set acc1 : Flush2Acc := ({ disp := place c s2 packet, dropped := s2.dropped, out := [] } : Flush2Acc) with hacc1def
  have ha0slt : acc0.disp.startIndex < c := by
    rw [show acc0.disp.startIndex = d0.startIndex from maxUpd_start d0 packet.timestamp]
    exact hstart
  obtain ⟨hf1slt, -, -, -⟩ := forcedFlush_basic hc 0 c acc0 ha0slt
  rw [← hf1def] at hf1slt
  have hs2slt : s2.disp.startIndex < c := by
    rw [hs2]
    exact bulkGap_start_lt hc f1 hf1slt
  have ha1slt : acc1.disp.startIndex < c := by
    rw [show acc1.disp.startIndex = s2.disp.startIndex from place_start c s2 packet]
    exact hs2slt
  obtain ⟨hs3slt, -, -, -⟩ := inOrderFlush_basic hc packet.timestamp 0 c acc1 ha1slt
  rw [← hs3] at hs3slt
  rw [hri]
  exact hs3slt

theorem insertPhase_keep {c : Nat} (d0 : TridentDispatcher)
    (packet : PacketBuffer) :
    packet ∈ (insertPhase c d0 packet).2.1 ∨
      ∃ i, (insertPhase c d0 packet).1.cache i = some packet := by
  obtain ⟨s2, s3, hs2, hs3, hrc, _, _, _, _, _, hout, _⟩ := insertPhase_decomp c d0 packet
  set acc1 : Flush2Acc := ({ disp := place c s2 packet, dropped := s2.dropped, out := [] } : Flush2Acc) with hacc1def
  have hcur : acc1.disp.cache ((s2.disp.startIndex + s2.offset) % c) = some packet := by
    rw [show acc1.disp.cache =
      setF s2.disp.cache ((s2.disp.startIndex + s2.offset) % c) (some packet)
      from place_cache c s2 packet]
    exact setF_self _ _ _
  have h := inOrderFlush_mem_preserve c packet.timestamp 0 c acc1 packet
    ((s2.disp.startIndex + s2.offset) % c) hcur
  rw [← hs3] at h
  rcases h with h | ⟨i1, h⟩
  · left
    rw [hout]
    exact List.mem_append.mpr (Or.inr h)
  · right
    rw [hrc]
    exact ⟨i1, h⟩

theorem cacheLookup_max_mono (d : TridentDispatcher) (packet : PacketBuffer) (c : Nat) :
    d.maxTimestamp ≤ (cacheLookup d packet c).state.maxTimestamp := by
  by_cases hz : d.seq = 0
  · rw [cacheLookup_seed hz]
    show d.maxTimestamp ≤ (insertPhase c { d with seq := packet.seq } packet).1.maxTimestamp
    rw [insertPhase_max]
    exact le_max_left _ _
  · by_cases hb : packet.seq < d.seq
    · by_cases hts : d.maxTimestamp < packet.timestamp
      · rw [cacheLookup_restart hz hb hts]
        show d.maxTimestamp ≤ (insertPhase c _ packet).1.maxTimestamp
        rw [insertPhase_max]
        have hpm : ({ (purge c d).1 with
            seq := if c < packet.seq then packet.seq - c else 1,
            startIndex := 0 } : TridentDispatcher).maxTimestamp = d.maxTimestamp :=
          (purge_spec c d).2.2.2.1
        rw [hpm]
        exact le_max_left _ _
      · rw [cacheLookup_stale hz hb (by omega)]
    · rw [cacheLookup_fwd hz (by omega)]
      show d.maxTimestamp ≤ (insertPhase c d packet).1.maxTimestamp
      rw [insertPhase_max]
      exact le_max_left _ _

theorem cacheLookup_restart_max {d : TridentDispatcher} {packet : PacketBuffer} {c : Nat}
    (hseeded : d.seq ≠ 0) (hback : packet.seq < d.seq)
    (hts : d.maxTimestamp < packet.timestamp) :
    (cacheLookup d packet c).state.maxTimestamp = packet.timestamp := by
  rw [cacheLookup_restart hseeded hback hts]
  show (insertPhase c _ packet).1.maxTimestamp = packet.timestamp
  rw [insertPhase_max]
  have hpm : ({ (purge c d).1 with
      seq := if c < packet.seq then packet.seq - c else 1,
      startIndex := 0 } : TridentDispatcher).maxTimestamp = d.maxTimestamp :=
    (purge_spec c d).2.2.2.1
  rw [hpm]
  omega

theorem runFeed_max_mono (c : Nat) : ∀ (ps : List PacketBuffer) (acc : RunAcc),
    acc.state.maxTimestamp ≤ (ps.foldl (runStep c) acc).state.maxTimestamp := by
  intro ps
  induction ps with
  | nil => intro acc; exact le_refl _
  | cons p ps ih =>
    intro acc
    rw [List.foldl_cons]
    exact le_trans (cacheLookup_max_mono acc.state p c) (ih (runStep c acc p))

theorem runFeed_restarts_mono (c : Nat) : ∀ (ps : List PacketBuffer) (acc : RunAcc),
    acc.restarts ≤ (ps.foldl (runStep c) acc).restarts := by
  intro ps
  induction ps with
  | nil => intro acc; exact le_refl _
  | cons p ps ih =>
    intro acc
    rw [List.foldl_cons]
    refine le_trans ?_ (ih (runStep c acc p))
    show acc.restarts ≤ acc.restarts + _
    omega

end TridentAdapter

namespace TridentAdapter

/-! ### Per-call step lemmas -/

theorem freshDispatcher_wf {c : Nat} (hc : 0 < c) : WF c freshDispatcher := by
  refine ⟨hc, rfl, ?_, ?_⟩
  · intro i hi p hp
    cases hp
  · intro i hi
    rfl

/-- One call keeps the window well-formed and seeds the sequence counter:
after any call whose packet carries a positive sequence (or that did not
take the restart branch), the window start is at least 1. -/
theorem cacheLookup_wf_step {c : Nat} (hc : 0 < c) (d : TridentDispatcher)
    (packet : PacketBuffer) (hwf : WF c d)
    (hun : d.seq = 0 → ∀ i, d.cache i = none)
    (hok : 1 ≤ packet.seq ∨ (cacheLookup d packet c).restarted = false) :
    WF c (cacheLookup d packet c).state ∧ 1 ≤ (cacheLookup d packet c).state.seq := by
  obtain ⟨hst, hhead, hslot, hhi⟩ := hwf
  by_cases hz : d.seq = 0
  · rw [cacheLookup_seed hz]
    have hempty := hun hz
    have hok0 : SlotSeqOK c ({ d with seq := packet.seq } : TridentDispatcher) := by
      intro i hi p hp
      rw [show ({ d with seq := packet.seq } : TridentDispatcher).cache = d.cache from rfl,
        hempty i] at hp
      cases hp
    have hm := insertPhase_main hc { d with seq := packet.seq } packet hst hok0 hhi
      (le_refl packet.seq)
    refine ⟨⟨hm.1, hm.2.2.2.1, hm.2.1, hm.2.2.1⟩, ?_⟩
    by_cases hps : 1 ≤ packet.seq
    · have := (insertPhase_seq_adv c { d with seq := packet.seq } packet).2.2
      show 1 ≤ (insertPhase c { d with seq := packet.seq } packet).1.seq
      have he : ({ d with seq := packet.seq } : TridentDispatcher).seq = packet.seq := rfl
      rw [he] at this
      omega
    · have hps0 : packet.seq = 0 := by omega
      obtain ⟨s2, s3, hs2, hs3, _, _, _, _, hrs, _, hout, hdrop⟩ :=
        insertPhase_decomp c { d with seq := packet.seq } packet
      set acc0 : FlushAcc := ({ disp := maxUpd { d with seq := packet.seq } packet.timestamp, offset := packet.seq - (maxUpd { d with seq := packet.seq } packet.timestamp).seq, dropped := 0, out := [] } : FlushAcc) with hacc0def
      set acc1 : Flush2Acc := ({ disp := place c s2 packet, dropped := s2.dropped, out := [] } : Flush2Acc) with hacc1def
      have ha0off : acc0.offset = 0 := by
        show packet.seq - (maxUpd { d with seq := packet.seq } packet.timestamp).seq = 0
        rw [maxUpd_seq]
        omega
      have hofflt : acc0.offset < c := by omega
      have hff : forcedFlush c 0 c acc0 = acc0 := forcedFlush_noop c 0 c acc0 hofflt
      have hs2e : s2 = acc0 := by rw [hs2, hff, bulkGap_id (by omega)]
      have ha0start : acc0.disp.startIndex = d.startIndex := maxUpd_start _ packet.timestamp
      have hcur0 : (s2.disp.startIndex + s2.offset) % c = s2.disp.startIndex := by
        rw [hs2e, ha0off, ha0start, Nat.add_zero, Nat.mod_eq_of_lt hst]
      have hheadp : acc1.disp.cache acc1.disp.startIndex = some packet := by
        rw [show acc1.disp.cache =
          setF s2.disp.cache ((s2.disp.startIndex + s2.offset) % c) (some packet)
          from place_cache c s2 packet]
        rw [show acc1.disp.startIndex = s2.disp.startIndex from place_start c s2 packet]
        rw [hcur0]
        exact setF_self _ _ _
      have hdel : packet ∈ s3.out := by
        rw [hs3]
        exact inOrderFlush_delivers_head c packet.timestamp 0 c (by omega) acc1 hheadp
      have hlen : 1 ≤ (insertPhase c { d with seq := packet.seq } packet).2.1.length := by
        rw [hout]
        have : packet ∈ s2.out ++ s3.out := List.mem_append.mpr (Or.inr hdel)
        have := List.length_pos.mpr (List.ne_nil_of_mem this)
        omega
      have hadv := (insertPhase_seq_adv c { d with seq := packet.seq } packet).1
      show 1 ≤ (insertPhase c { d with seq := packet.seq } packet).1.seq
      rw [hadv]
      omega
  · by_cases hb : packet.seq < d.seq
    · by_cases hts : d.maxTimestamp < packet.timestamp
      · have hpos : 1 ≤ packet.seq := by
          rcases hok with h | h
          · exact h
          · rw [cacheLookup_restart hz hb hts] at h
            cases h
        rw [cacheLookup_restart hz hb hts]
        obtain ⟨hp1, hp2, _, _, _, hp6, hp7, _⟩ := purge_spec c d
        have hd1start : ({ (purge c d).1 with
            seq := if c < packet.seq then packet.seq - c else 1,
            startIndex := 0 } : TridentDispatcher).startIndex = 0 := rfl
        have hd1cache : ∀ j, ({ (purge c d).1 with
            seq := if c < packet.seq then packet.seq - c else 1,
            startIndex := 0 } : TridentDispatcher).cache j = none := by
          intro j
          show (purge c d).1.cache j = none
          rcases Nat.lt_or_ge j c with hj | hj
          · exact hp1 j hj
          · rw [hp2 j hj]
            exact hhi j hj
        have hd1ok : SlotSeqOK c ({ (purge c d).1 with
            seq := if c < packet.seq then packet.seq - c else 1,
            startIndex := 0 } : TridentDispatcher) := by
          intro i hi p hp
          rw [hd1cache i] at hp
          cases hp
        have hd1seq : ({ (purge c d).1 with
            seq := if c < packet.seq then packet.seq - c else 1,
            startIndex := 0 } : TridentDispatcher).seq ≤ packet.seq := by
          show (if c < packet.seq then packet.seq - c else 1) ≤ packet.seq
          split <;> omega
        have hm := insertPhase_main hc _ packet (by rw [hd1start]; exact hc) hd1ok
          (fun j hj => hd1cache j) hd1seq
        refine ⟨⟨hm.1, hm.2.2.2.1, hm.2.1, hm.2.2.1⟩, ?_⟩
        have hch := (insertPhase_seq_adv c { (purge c d).1 with
            seq := if c < packet.seq then packet.seq - c else 1,
            startIndex := 0 } packet).2.2
        have hd1seqeq : ({ (purge c d).1 with
            seq := if c < packet.seq then packet.seq - c else 1,
            startIndex := 0 } : TridentDispatcher).seq =
            (if c < packet.seq then packet.seq - c else 1) := rfl
        rw [hd1seqeq] at hch
        have hd1seq1 : 1 ≤ (if c < packet.seq then packet.seq - c else 1) := by
          split <;> omega
        show 1 ≤ (insertPhase c { (purge c d).1 with
            seq := if c < packet.seq then packet.seq - c else 1,
            startIndex := 0 } packet).1.seq
        omega
      · rw [cacheLookup_stale hz hb (by omega)]
        refine ⟨⟨hst, hhead, hslot, hhi⟩, ?_⟩
        show 1 ≤ d.seq
        omega
    · rw [cacheLookup_fwd hz (by omega)]
      have hm := insertPhase_main hc d packet hst hslot hhi (by omega)
      refine ⟨⟨hm.1, hm.2.2.2.1, hm.2.1, hm.2.2.1⟩, ?_⟩
      have := (insertPhase_seq_adv c d packet).2.2
      show 1 ≤ (insertPhase c d packet).1.seq
      omega

end TridentAdapter

namespace TridentAdapter

/-- One non-restarting call delivers packets in strictly increasing
sequence order, bounded below by the old window start and above by the new
one, and never moves the window start backward. -/
theorem cacheLookup_order_step {c : Nat} (hc : 0 < c) (d : TridentDispatcher)
    (packet : PacketBuffer) (hwf : WF c d)
    (hun : d.seq = 0 → ∀ i, d.cache i = none)
    (hnr : (cacheLookup d packet c).restarted = false) :
    (∀ q, q ∈ (cacheLookup d packet c).delivered →
      d.seq ≤ q.seq ∧ q.seq < (cacheLookup d packet c).state.seq) ∧
    List.Pairwise (· < ·) ((cacheLookup d packet c).delivered.map PacketBuffer.seq) ∧
    d.seq ≤ (cacheLookup d packet c).state.seq := by
  obtain ⟨hst, hhead, hslot, hhi⟩ := hwf
  by_cases hz : d.seq = 0
  · rw [cacheLookup_seed hz]
    have hempty := hun hz
    have hok0 : SlotSeqOK c ({ d with seq := packet.seq } : TridentDispatcher) := by
      intro i hi p hp
      rw [show ({ d with seq := packet.seq } : TridentDispatcher).cache = d.cache from rfl,
        hempty i] at hp
      cases hp
    have hm := insertPhase_main hc { d with seq := packet.seq } packet hst hok0 hhi
      (le_refl packet.seq)
    refine ⟨?_, hm.2.2.2.2.1, ?_⟩
    · intro q hq
      have := hm.2.2.2.2.2 q hq
      show d.seq ≤ q.seq ∧ q.seq < (insertPhase c { d with seq := packet.seq } packet).1.seq
      omega
    · show d.seq ≤ (insertPhase c { d with seq := packet.seq } packet).1.seq
      have := (insertPhase_seq_adv c { d with seq := packet.seq } packet).2.2
      have he : ({ d with seq := packet.seq } : TridentDispatcher).seq = packet.seq := rfl
      rw [he] at this
      omega
  · by_cases hb : packet.seq < d.seq
    · by_cases hts : d.maxTimestamp < packet.timestamp
      · rw [cacheLookup_restart hz hb hts] at hnr
        cases hnr
      · rw [cacheLookup_stale hz hb (by omega)]
        refine ⟨?_, List.Pairwise.nil, le_refl _⟩
        intro q hq
        exact absurd hq (List.not_mem_nil q)
    · rw [cacheLookup_fwd hz (by omega)]
      have hm := insertPhase_main hc d packet hst hslot hhi (by omega)
      refine ⟨?_, hm.2.2.2.2.1, ?_⟩
      · intro q hq
        exact hm.2.2.2.2.2 q hq
      · show d.seq ≤ (insertPhase c d packet).1.seq
        exact (insertPhase_seq_adv c d packet).2.2

/-- One call consumes at most one new cache slot in total: cached plus
delivered plus expired grows by at most the one received packet. -/
theorem cacheLookup_count_step {c : Nat} (hc : 0 < c) (d : TridentDispatcher)
    (packet : PacketBuffer) (hstart : d.startIndex < c) :
    (cacheLookup d packet c).state.startIndex < c ∧
    (cachedList c (cacheLookup d packet c).state).length +
        (cacheLookup d packet c).delivered.length + (cacheLookup d packet c).expired ≤
      (cachedList c d).length + 1 := by
  by_cases hz : d.seq = 0
  · rw [cacheLookup_seed hz]
    have h1 := insertPhase_start_lt hc { d with seq := packet.seq } packet hstart
    have h2 := insertPhase_count hc { d with seq := packet.seq } packet hstart
    refine ⟨h1, ?_⟩
    show (cachedList c (insertPhase c { d with seq := packet.seq } packet).1).length +
        (insertPhase c { d with seq := packet.seq } packet).2.1.length + 0 ≤
      (cachedList c d).length + 1
    have he : ((List.range c).filterMap
        ({ d with seq := packet.seq } : TridentDispatcher).cache) =
        (List.range c).filterMap d.cache := rfl
    rw [he] at h2
    show ((List.range c).filterMap (insertPhase c { d with seq := packet.seq } packet).1.cache).length +
        (insertPhase c { d with seq := packet.seq } packet).2.1.length + 0 ≤
      ((List.range c).filterMap d.cache).length + 1
    omega
  · by_cases hb : packet.seq < d.seq
    · by_cases hts : d.maxTimestamp < packet.timestamp
      · rw [cacheLookup_restart hz hb hts]
        obtain ⟨d1, hd1⟩ : ∃ d1, ({ (purge c d).1 with
            seq := if c < packet.seq then packet.seq - c else 1,
            startIndex := 0 } : TridentDispatcher) = d1 := ⟨_, rfl⟩
        rw [hd1]
        have hd1s : d1.startIndex = 0 := by rw [← hd1]
        have h1 := insertPhase_start_lt hc d1 packet (by rw [hd1s]; exact hc)
        have h2 := insertPhase_count hc d1 packet (by rw [hd1s]; exact hc)
        have hempty : ((List.range c).filterMap d1.cache) = [] := by
          apply filterMap_range_none
          intro i hi
          rw [← hd1]
          exact (purge_spec c d).1 i hi
        rw [hempty] at h2
        simp only [List.length_nil] at h2
        refine ⟨h1, ?_⟩
        show ((List.range c).filterMap (insertPhase c d1 packet).1.cache).length +
            (insertPhase c d1 packet).2.1.length + 0 ≤
          ((List.range c).filterMap d.cache).length + 1
        omega
      · rw [cacheLookup_stale hz hb (by omega)]
        refine ⟨by show d.startIndex < c; exact hstart, ?_⟩
        show (cachedList c d).length + 0 + 1 ≤ (cachedList c d).length + 1
        omega
    · rw [cacheLookup_fwd hz (by omega)]
      have h1 := insertPhase_start_lt hc d packet hstart
      have h2 := insertPhase_count hc d packet hstart
      refine ⟨h1, ?_⟩
      show ((List.range c).filterMap (insertPhase c d packet).1.cache).length +
          (insertPhase c d packet).2.1.length + 0 ≤
        ((List.range c).filterMap d.cache).length + 1
      omega

end TridentAdapter

namespace TridentAdapter

/-! ### Run-level invariants -/

theorem runFeed_wf_aux {c : Nat} (hc : 0 < c) : ∀ (ps : List PacketBuffer) (acc : RunAcc),
    WF c acc.state → (acc.state.seq = 0 → ∀ i, acc.state.cache i = none) →
    (∀ p, p ∈ ps → 1 ≤ p.seq) →
    WF c (ps.foldl (runStep c) acc).state := by
  intro ps
  induction ps with
  | nil =>
    intro acc h1 _ _
    exact h1
  | cons p ps ih =>
    intro acc h1 h2 h3
    rw [List.foldl_cons]
    obtain ⟨hw, hs⟩ := cacheLookup_wf_step hc acc.state p h1 h2
      (Or.inl (h3 p (List.mem_cons_self p ps)))
    exact ih (runStep c acc p) hw
      (fun h0 => absurd (show (cacheLookup acc.state p c).state.seq = 0 from h0) (by omega))
      (fun q hq => h3 q (List.mem_cons_of_mem p hq))

theorem runFeed_order_aux {c : Nat} (hc : 0 < c) : ∀ (ps : List PacketBuffer) (acc : RunAcc),
    WF c acc.state → (acc.state.seq = 0 → ∀ i, acc.state.cache i = none) →
    (∀ q, q ∈ acc.delivered → q.seq < acc.state.seq) →
    List.Pairwise (· < ·) (acc.delivered.map PacketBuffer.seq) →
    (ps.foldl (runStep c) acc).restarts = acc.restarts →
    WF c (ps.foldl (runStep c) acc).state ∧
    ((ps.foldl (runStep c) acc).state.seq = 0 →
      ∀ i, (ps.foldl (runStep c) acc).state.cache i = none) ∧
    (∀ q, q ∈ (ps.foldl (runStep c) acc).delivered →
      q.seq < (ps.foldl (runStep c) acc).state.seq) ∧
    List.Pairwise (· < ·) ((ps.foldl (runStep c) acc).delivered.map PacketBuffer.seq) := by
  intro ps
  induction ps with
  | nil =>
    intro acc h1 h2 h3 h4 _
    exact ⟨h1, h2, h3, h4⟩
  | cons p ps ih =>
    intro acc h1 h2 h3 h4 h5
    rw [List.foldl_cons] at h5 ⊢
    have hmono := runFeed_restarts_mono c ps (runStep c acc p)
    have hstepr : (runStep c acc p).restarts =
        acc.restarts + (if (cacheLookup acc.state p c).restarted then 1 else 0) := rfl
    have hnr : (cacheLookup acc.state p c).restarted = false := by
      by_cases hr : (cacheLookup acc.state p c).restarted = true
      · rw [hstepr, if_pos hr] at hmono
        omega
      · rw [Bool.not_eq_true] at hr
        exact hr
    have hstepr0 : (runStep c acc p).restarts = acc.restarts := by
      rw [hstepr, hnr]
      simp
    obtain ⟨hw, hs1⟩ := cacheLookup_wf_step hc acc.state p h1 h2 (Or.inr hnr)
    obtain ⟨ho1, ho2, ho3⟩ := cacheLookup_order_step hc acc.state p h1 h2 hnr
    have hd : (runStep c acc p).delivered =
        acc.delivered ++ (cacheLookup acc.state p c).delivered := rfl
    have hst : (runStep c acc p).state = (cacheLookup acc.state p c).state := rfl
    refine ih (runStep c acc p) (by rw [hst]; exact hw)
      (fun h0 => absurd (hst ▸ h0) (by omega)) ?_ ?_ (by rw [h5, hstepr0])
    · intro q hq
      rw [hd] at hq
      rw [hst]
      rcases List.mem_append.mp hq with h | h
      · have := h3 q h
        omega
      · exact (ho1 q h).2
    · rw [hd]
      simp only [List.map_append]
      rw [List.pairwise_append]
      refine ⟨h4, ho2, ?_⟩
      intro a ha b hb
      simp only [List.mem_map] at ha hb
      obtain ⟨q, hq, rfl⟩ := ha
      obtain ⟨q2, hq2, rfl⟩ := hb
      have hx1 := h3 q hq
      have hx2 := (ho1 q2 hq2).1
      omega

theorem runFeed_count_aux {c : Nat} (hc : 0 < c) : ∀ (ps : List PacketBuffer) (acc : RunAcc),
    acc.state.startIndex < c →
    acc.rxExpired + acc.delivered.length + (cachedList c acc.state).length ≤ acc.rxPackets →
    (ps.foldl (runStep c) acc).state.startIndex < c ∧
    (ps.foldl (runStep c) acc).rxExpired + (ps.foldl (runStep c) acc).delivered.length +
        (cachedList c (ps.foldl (runStep c) acc).state).length ≤
      (ps.foldl (runStep c) acc).rxPackets := by
  intro ps
  induction ps with
  | nil =>
    intro acc h1 h2
    exact ⟨h1, h2⟩
  | cons p ps ih =>
    intro acc h1 h2
    rw [List.foldl_cons]
    obtain ⟨hstep1, hstep2⟩ := cacheLookup_count_step hc acc.state p h1
    have e1 : (runStep c acc p).rxExpired =
        acc.rxExpired + (cacheLookup acc.state p c).expired := rfl
    have e2 : (runStep c acc p).delivered =
        acc.delivered ++ (cacheLookup acc.state p c).delivered := rfl
    have e3 : (runStep c acc p).rxPackets = acc.rxPackets + 1 := rfl
    have e4 : (runStep c acc p).state = (cacheLookup acc.state p c).state := rfl
    refine ih (runStep c acc p) (by rw [e4]; exact hstep1) ?_
    rw [e1, e2, e3, e4]
    simp only [List.length_append]
    omega

end TridentAdapter

namespace TridentAdapter

/-! ### Claim theorems -/

/-- C1 (counterexample): a remote restart reseats the window backward, so
the delivered sequence numbers of a single window are not globally
strictly increasing: with `cacheSize = 1`, feeding (seq 2, ts 10) and then
(seq 1, ts 11) delivers sequence 2 and then sequence 1. -/
theorem c1_counterexample :
    ((runFeed 1 freshDispatcher [⟨2, 10, 0⟩, ⟨1, 11, 0⟩]).delivered.map PacketBuffer.seq
      = [2, 1]) ∧
    (runFeed 1 freshDispatcher [⟨2, 10, 0⟩, ⟨1, 11, 0⟩]).restarts = 1 ∧
    ¬ List.Pairwise (· < ·)
      ((runFeed 1 freshDispatcher [⟨2, 10, 0⟩, ⟨1, 11, 0⟩]).delivered.map PacketBuffer.seq) := by
  refine ⟨rfl, rfl, ?_⟩
  have he : (runFeed 1 freshDispatcher [⟨2, 10, 0⟩, ⟨1, 11, 0⟩]).delivered.map PacketBuffer.seq
      = [2, 1] := rfl
  rw [he]
  decide

/-- C1 (amended): in any run of one reordering window in which the
remote-restart branch is never taken, the sequence numbers of the packets
delivered downstream via `slave.put` are strictly increasing — drops
produce gaps but no delivery is ≤ an earlier one. -/
theorem c1_no_restart_deliveries_strictly_increasing (c : Nat) (hc : 0 < c)
    (ps : List PacketBuffer)
    (hnr : (runFeed c freshDispatcher ps).restarts = 0) :
    List.Pairwise (· < ·) ((runFeed c freshDispatcher ps).delivered.map PacketBuffer.seq) := by
  have hr : (runFeed c freshDispatcher ps).restarts = (initAcc freshDispatcher).restarts := by
    rw [hnr]
    rfl
  have h := runFeed_order_aux hc ps (initAcc freshDispatcher) (freshDispatcher_wf hc)
    (fun _ i => rfl) (fun q hq => absurd hq (List.not_mem_nil q)) List.Pairwise.nil hr
  exact h.2.2.2

theorem c1_witness :
    0 < 2 ∧ (runFeed 2 freshDispatcher [⟨1, 5, 0⟩, ⟨2, 6, 0⟩]).restarts = 0 ∧
    List.Pairwise (· < ·)
      ((runFeed 2 freshDispatcher [⟨1, 5, 0⟩, ⟨2, 6, 0⟩]).delivered.map PacketBuffer.seq) :=
  ⟨by decide, rfl,
   c1_no_restart_deliveries_strictly_increasing 2 (by decide) [⟨1, 5, 0⟩, ⟨2, 6, 0⟩] rfl⟩

/-- C2 (code behavior at the failing input): with `cacheSize = 4`, feeding
(seq 1), (seq 3), (seq 2), all with timestamp 5, moves the window past
slot 2 (final `seq = 4`, `startIndex = 3`) yet leaves `timestamp[2] = 5`:
the flush loops zero `timestamp[i]` with `i` the loop counter
(trident_adapter.go lines 197 and 235) instead of the advanced slot
`timestamp[startIndex]`, so a slot the window moved past keeps a stale
nonzero timestamp. -/
theorem c2_flush_zeroes_loop_counter_slot :
    (runFeed 4 freshDispatcher [⟨1, 5, 0⟩, ⟨3, 5, 0⟩, ⟨2, 5, 0⟩]).state.seq = 4 ∧
    (runFeed 4 freshDispatcher [⟨1, 5, 0⟩, ⟨3, 5, 0⟩, ⟨2, 5, 0⟩]).state.startIndex = 3 ∧
    ((runFeed 4 freshDispatcher [⟨1, 5, 0⟩, ⟨3, 5, 0⟩, ⟨2, 5, 0⟩]).delivered.map
      PacketBuffer.seq = [1, 2, 3]) ∧
    (runFeed 4 freshDispatcher [⟨1, 5, 0⟩, ⟨3, 5, 0⟩, ⟨2, 5, 0⟩]).state.timestamp 2 = 5 :=
  ⟨rfl, rfl, rfl, rfl⟩

/-- C3: starting from a fresh window, after any sequence of calls whose
packets carry wire-contract sequence numbers (≥ 1), the window is
well-formed: `startIndex < cacheSize`, the head slot is empty, every
occupied slot `i` holds the packet with sequence `seq + ((i - startIndex)
mod cacheSize)`, and nothing sits outside the slot range. -/
theorem c3_window_well_formed (c : Nat) (hc : 0 < c) (ps : List PacketBuffer)
    (hpos : ∀ p, p ∈ ps → 1 ≤ p.seq) :
    WF c (runFeed c freshDispatcher ps).state :=
  runFeed_wf_aux hc ps (initAcc freshDispatcher) (freshDispatcher_wf hc) (fun _ _ => rfl) hpos

theorem c3_witness :
    0 < 4 ∧ (∀ p, p ∈ [(⟨2, 5, 0⟩ : PacketBuffer), ⟨4, 6, 0⟩] → 1 ≤ p.seq) ∧
    WF 4 (runFeed 4 freshDispatcher [⟨2, 5, 0⟩, ⟨4, 6, 0⟩]).state :=
  ⟨by decide, by decide,
   c3_window_well_formed 4 (by decide) [⟨2, 5, 0⟩, ⟨4, 6, 0⟩] (by decide)⟩

/-- C5: a stale reorder — the window already seeded, an arriving sequence
below the window start, and a timestamp not newer than the maximum — makes
`cacheLookup` release the packet and return `(dropped, expired) = (0, 1)`,
with the whole window state unchanged and nothing delivered. -/
theorem c5_stale_reorder_no_state_change (d : TridentDispatcher) (packet : PacketBuffer)
    (c : Nat) (hseeded : d.seq ≠ 0) (hback : packet.seq < d.seq)
    (hts : packet.timestamp ≤ d.maxTimestamp) :
    cacheLookup d packet c =
      { state := d, delivered := [], released := [packet],
        dropped := 0, expired := 1, restarted := false } :=
  cacheLookup_stale hseeded hback hts

theorem c5_witness :
    ((5 : Nat) ≠ 0 ∧ (3 : Nat) < 5 ∧ (7 : Int) ≤ 10) ∧
    cacheLookup ({ cache := fun _ => none, timestamp := fun _ => 0, maxTimestamp := 10,
                   dropped := 0, seq := 5, startIndex := 0 } : TridentDispatcher) ⟨3, 7, 0⟩ 4 =
      ({ state := { cache := fun _ => none, timestamp := fun _ => 0, maxTimestamp := 10,
                    dropped := 0, seq := 5, startIndex := 0 },
         delivered := [], released := [⟨3, 7, 0⟩], dropped := 0, expired := 1,
         restarted := false } : LookupResult) :=
  ⟨⟨by decide, by decide, by decide⟩,
   c5_stale_reorder_no_state_change _ _ 4 (by decide) (by decide) (by decide)⟩

/-- C7 (counterexample): `RxDropped` and `RxExpired` double-count a late
packet — its sequence is counted dropped when the window passes it, and
counted expired when it finally arrives — so `RxPackets ≥ RxDropped +
RxExpired + delivered` fails: with `cacheSize = 1` and feed (1), (3), (2),
we get `RxPackets = 3` but `RxDropped + RxExpired + delivered = 4`. -/
theorem c7_counterexample :
    (runFeed 1 freshDispatcher [⟨1, 9, 0⟩, ⟨3, 9, 0⟩, ⟨2, 9, 0⟩]).rxPackets = 3 ∧
    (runFeed 1 freshDispatcher [⟨1, 9, 0⟩, ⟨3, 9, 0⟩, ⟨2, 9, 0⟩]).rxDropped = 1 ∧
    (runFeed 1 freshDispatcher [⟨1, 9, 0⟩, ⟨3, 9, 0⟩, ⟨2, 9, 0⟩]).rxExpired = 1 ∧
    (runFeed 1 freshDispatcher [⟨1, 9, 0⟩, ⟨3, 9, 0⟩, ⟨2, 9, 0⟩]).delivered.length = 2 ∧
    ¬ ((runFeed 1 freshDispatcher [⟨1, 9, 0⟩, ⟨3, 9, 0⟩, ⟨2, 9, 0⟩]).rxDropped +
        (runFeed 1 freshDispatcher [⟨1, 9, 0⟩, ⟨3, 9, 0⟩, ⟨2, 9, 0⟩]).rxExpired +
        (runFeed 1 freshDispatcher [⟨1, 9, 0⟩, ⟨3, 9, 0⟩, ⟨2, 9, 0⟩]).delivered.length ≤
        (runFeed 1 freshDispatcher [⟨1, 9, 0⟩, ⟨3, 9, 0⟩, ⟨2, 9, 0⟩]).rxPackets) := by
  refine ⟨rfl, rfl, rfl, rfl, ?_⟩
  intro h
  have h1 : (runFeed 1 freshDispatcher [⟨1, 9, 0⟩, ⟨3, 9, 0⟩, ⟨2, 9, 0⟩]).rxPackets = 3 := rfl
  have h2 : (runFeed 1 freshDispatcher [⟨1, 9, 0⟩, ⟨3, 9, 0⟩, ⟨2, 9, 0⟩]).rxDropped = 1 := rfl
  have h3 : (runFeed 1 freshDispatcher [⟨1, 9, 0⟩, ⟨3, 9, 0⟩, ⟨2, 9, 0⟩]).rxExpired = 1 := rfl
  have h4 : (runFeed 1 freshDispatcher [⟨1, 9, 0⟩, ⟨3, 9, 0⟩, ⟨2, 9, 0⟩]).delivered.length = 2 :=
    rfl
  omega

/-- C7 (amended): in any run from a fresh window, `RxPackets ≥ RxExpired +
delivered`: every received packet is at most once expired or delivered.
The dropped counter cannot be added to the right-hand side, because a
sequence may be counted both dropped (when the window passes it) and
expired (when it arrives late). -/
theorem c7_rx_packets_bound (c : Nat) (hc : 0 < c) (ps : List PacketBuffer) :
    (runFeed c freshDispatcher ps).rxExpired + (runFeed c freshDispatcher ps).delivered.length ≤
      (runFeed c freshDispatcher ps).rxPackets := by
  have hinit : (initAcc freshDispatcher).rxExpired + (initAcc freshDispatcher).delivered.length +
      (cachedList c (initAcc freshDispatcher).state).length ≤
      (initAcc freshDispatcher).rxPackets := by
    show 0 + 0 + (cachedList c freshDispatcher).length ≤ 0
    have he : cachedList c freshDispatcher = [] := filterMap_range_none (fun i _ => rfl)
    rw [he]
    simp
  have h := runFeed_count_aux hc ps (initAcc freshDispatcher) hc hinit
  have h2 : (runFeed c freshDispatcher ps).rxExpired +
      (runFeed c freshDispatcher ps).delivered.length +
      (cachedList c (runFeed c freshDispatcher ps).state).length ≤
      (runFeed c freshDispatcher ps).rxPackets := h.2
  omega

theorem c7_witness :
    0 < 1 ∧
    (runFeed 1 freshDispatcher [⟨1, 5, 0⟩]).rxExpired +
      (runFeed 1 freshDispatcher [⟨1, 5, 0⟩]).delivered.length ≤
      (runFeed 1 freshDispatcher [⟨1, 5, 0⟩]).rxPackets :=
  ⟨by decide, c7_rx_packets_bound 1 (by decide) [⟨1, 5, 0⟩]⟩

/-- C10: `max_timestamp` never decreases across a `cacheLookup` call, and
a call that detects a remote restart (backward sequence, newer timestamp)
does not reset it — the update after the restart branch raises it to the
restarting packet's timestamp. -/
theorem c10_max_timestamp_monotone (d : TridentDispatcher) (packet : PacketBuffer) (c : Nat) :
    d.maxTimestamp ≤ (cacheLookup d packet c).state.maxTimestamp ∧
    (packet.seq < d.seq → d.maxTimestamp < packet.timestamp →
      (cacheLookup d packet c).state.maxTimestamp = packet.timestamp) :=
  ⟨cacheLookup_max_mono d packet c,
   fun hb hts => cacheLookup_restart_max (by omega) hb hts⟩

theorem c10_witness :
    ((runFeed 4 freshDispatcher [⟨10, 5, 0⟩]).state.maxTimestamp ≤
      (cacheLookup (runFeed 4 freshDispatcher [⟨10, 5, 0⟩]).state ⟨6, 7, 0⟩ 4).state.maxTimestamp) ∧
    (cacheLookup (runFeed 4 freshDispatcher [⟨10, 5, 0⟩]).state ⟨6, 7, 0⟩ 4).state.maxTimestamp
      = 7 :=
  ⟨(c10_max_timestamp_monotone (runFeed 4 freshDispatcher [⟨10, 5, 0⟩]).state ⟨6, 7, 0⟩ 4).1,
   (c10_max_timestamp_monotone (runFeed 4 freshDispatcher [⟨10, 5, 0⟩]).state ⟨6, 7, 0⟩ 4).2
     (by decide) (by decide)⟩

end TridentAdapter

namespace Datatype

/-- C9: on a byte slice starting at the outer IPv4 header of a
GRE/ERSPAN Type III packet — protocol byte 47 (GRE) and GRE protocol
type `0x22EB` — `Decapsulate` fills `TunnelInfo` with the outer IPv4
source and destination addresses, `id = 0`, and `type = ERSPAN`. -/
theorem c9_erspan3_decap (b : List Nat) (hlen : 24 ≤ b.length)
    (hproto : byteAt b 9 = 47) (hgre : be16 b 22 = 0x22EB) :
    Decapsulate b =
      { src := be32 b 12, dst := be32 b 16, id := 0, type := TunnelType.ERSPAN } := by
  have h1 : ¬ b.length < 20 := by omega
  have h2 : ¬ b.length < 24 := by omega
  simp [Decapsulate, h1, h2, hproto, hgre]

theorem c9_witness :
    (24 ≤ erspan3Sample.length ∧ byteAt erspan3Sample 9 = 47 ∧
      be16 erspan3Sample 22 = 0x22EB) ∧
    Decapsulate erspan3Sample =
      { src := ((172 * 256 + 16) * 256 + 1) * 256 + 103,
        dst := ((10 * 256 + 30) * 256 + 101) * 256 + 132,
        id := 0, type := TunnelType.ERSPAN } :=
  ⟨⟨by decide, by decide, by decide⟩, by
    rw [c9_erspan3_decap erspan3Sample (by decide) (by decide) (by decide)]
    rfl⟩

end Datatype

namespace TridentAdapter

/-- When the offset equals `cacheSize` and the head slot is empty, the
forced flush performs exactly one (drop-counting) step. -/
theorem forcedFlush_one_none {c : Nat} (hc : 0 < c) (s : FlushAcc)
    (ho : s.offset = c) (hp : s.disp.cache s.disp.startIndex = none) :
    forcedFlush c 0 c s = ffStepNone c 0 s := by
  obtain ⟨c', rfl⟩ : ∃ c', c = c' + 1 := ⟨c - 1, by omega⟩
  rw [forcedFlush_succ_none 0 c' (by omega) hp]
  exact forcedFlush_noop _ _ _ _ (by rw [ffStepNone_offset]; omega)

/-- If the window reaching the in-order flush has all-zero slot
timestamps, the flush counts no drop: backward propagation and the slot
write only introduce the packet's own (non-timed-out) timestamp. -/
theorem insertPhase_tail_no_drop {c : Nat} (hc : 0 < c) (s2 : FlushAcc)
    (packet : PacketBuffer) (hstart2 : s2.disp.startIndex < c)
    (hts2 : ∀ j, j < c → s2.disp.timestamp j = 0) :
    (inOrderFlush c packet.timestamp 0 c
      { disp := place c s2 packet, dropped := s2.dropped, out := [] }).dropped =
      s2.dropped := by
  have hplstart : (place c s2 packet).startIndex < c := by
    rw [place_start]
    exact hstart2
  have hplts : ∀ j, j < c → ((place c s2 packet).timestamp j = 0 ∨
      (place c s2 packet).timestamp j = packet.timestamp) := by
    intro j hj
    rcases place_timestamp_vals c s2 packet j with h | h
    · rw [h]
      exact Or.inl (hts2 j hj)
    · exact Or.inr h
  exact (inOrderFlush_no_drop hc 0 c
    { disp := place c s2 packet, dropped := s2.dropped, out := [] } hplstart hplts).1

/-- Drop count of the insert phase run on a just-purged, reseated window
(`start_index = 0`, `start_seq = max(seq − cacheSize, 1)`): one drop when
the reseat puts the packet exactly at offset `cacheSize` (that is, when
`cacheSize < seq`), none otherwise. -/
theorem insertPhase_reseat {c : Nat} (hc : 0 < c) (d1 : TridentDispatcher)
    (packet : PacketBuffer)
    (hcache : ∀ j, j < c → d1.cache j = none)
    (hts0 : ∀ j, j < c → d1.timestamp j = 0)
    (hstart : d1.startIndex = 0)
    (hseq : d1.seq = if c < packet.seq then packet.seq - c else 1) :
    (insertPhase c d1 packet).2.2 = if c < packet.seq then 1 else 0 := by
  obtain ⟨s2, s3, hs2, hs3, _, _, _, _, _, _, _, hret⟩ := insertPhase_decomp c d1 packet
  rw [hret, hs3]
  set acc0 : FlushAcc := ({ disp := maxUpd d1 packet.timestamp, offset := packet.seq - (maxUpd d1 packet.timestamp).seq, dropped := 0, out := [] } : FlushAcc) with hacc0
  have hmseq : (maxUpd d1 packet.timestamp).seq = d1.seq := maxUpd_seq d1 packet.timestamp
  by_cases hcs : c < packet.seq
  · rw [if_pos hcs]
    have hoffv : acc0.offset = c := by
      show packet.seq - (maxUpd d1 packet.timestamp).seq = c
      rw [hmseq, hseq, if_pos hcs]
      omega
    have hcache0 : acc0.disp.cache acc0.disp.startIndex = none := by
      show (maxUpd d1 packet.timestamp).cache (maxUpd d1 packet.timestamp).startIndex = none
      rw [maxUpd_cache, maxUpd_start, hstart]
      exact hcache 0 hc
    have hf1 : forcedFlush c 0 c acc0 = ffStepNone c 0 acc0 :=
      forcedFlush_one_none hc acc0 hoffv hcache0
    have hbg : bulkGap c (ffStepNone c 0 acc0) = ffStepNone c 0 acc0 :=
      bulkGap_id (by rw [ffStepNone_offset]; omega)
    have hs2' : s2 = ffStepNone c 0 acc0 := by rw [hs2, hf1, hbg]
    have hstart2 : s2.disp.startIndex < c := by
      rw [hs2', ffStepNone_disp_start]
      exact Nat.mod_lt _ hc
    have hts2 : ∀ j, j < c → s2.disp.timestamp j = 0 := by
      intro j hj
      rw [hs2', ffStepNone_disp_timestamp]
      by_cases hj0 : j = 0
      · subst hj0
        rw [setF_self]
      · rw [setF_ne _ _ hj0]
        show (maxUpd d1 packet.timestamp).timestamp j = 0
        rw [maxUpd_timestamp]
        exact hts0 j hj
    have hdr2 : s2.dropped = 1 := by
      rw [hs2', ffStepNone_dropped]
    rw [insertPhase_tail_no_drop hc s2 packet hstart2 hts2]
    exact hdr2
  · rw [if_neg hcs]
    have hoffb : acc0.offset < c := by
      show packet.seq - (maxUpd d1 packet.timestamp).seq < c
      rw [hmseq, hseq, if_neg hcs]
      omega
    have hf1 : forcedFlush c 0 c acc0 = acc0 := forcedFlush_noop _ _ _ _ hoffb
    have hbg : bulkGap c acc0 = acc0 := bulkGap_id (by omega)
    have hs2' : s2 = acc0 := by rw [hs2, hf1, hbg]
    have hstart2 : s2.disp.startIndex < c := by
      rw [hs2']
      show (maxUpd d1 packet.timestamp).startIndex < c
      rw [maxUpd_start, hstart]
      exact hc
    have hts2 : ∀ j, j < c → s2.disp.timestamp j = 0 := by
      intro j hj
      rw [hs2']
      show (maxUpd d1 packet.timestamp).timestamp j = 0
      rw [maxUpd_timestamp]
      exact hts0 j hj
    have hdr2 : s2.dropped = 0 := by rw [hs2']
    rw [insertPhase_tail_no_drop hc s2 packet hstart2 hts2]
    exact hdr2

end TridentAdapter

namespace TridentAdapter

/-- C4 (counterexample): a restart does count a drop when the restarting
sequence exceeds `cacheSize`.  After delivering (seq 10), the window has
`start_seq = 11`; the restarting packet (seq 6, newer timestamp) takes the
restart branch — yet the call returns `dropped = 1`, not 0: the reseat
`start_seq = seq − cacheSize` puts the packet at offset exactly
`cacheSize`, which the forced flush then pushes past, counting one
(empty-slot) drop. -/
theorem c4_counterexample :
    (cacheLookup (runFeed 4 freshDispatcher [⟨10, 5, 0⟩]).state ⟨6, 7, 0⟩ 4).restarted = true ∧
    (cacheLookup (runFeed 4 freshDispatcher [⟨10, 5, 0⟩]).state ⟨6, 7, 0⟩ 4).dropped = 1 ∧
    ¬ (cacheLookup (runFeed 4 freshDispatcher [⟨10, 5, 0⟩]).state ⟨6, 7, 0⟩ 4).dropped = 0 := by
  refine ⟨rfl, rfl, ?_⟩
  intro h
  have h1 : (cacheLookup (runFeed 4 freshDispatcher [⟨10, 5, 0⟩]).state ⟨6, 7, 0⟩ 4).dropped
      = 1 := rfl
  omega

/-- C4 (amended): for a packet of the wire contract (sequence ≥ 1 — at
`seq = 0` the Go `uint64` offset `seq − start_seq` would wrap after the
reseat to `start_seq = 1`, a point this Nat embedding does not model), a
detected remote restart (seeded window, backward sequence, newer
timestamp) releases exactly the cached packets, expires nothing,
re-inserts the current packet (it ends up delivered or cached), and
returns `dropped = 1` when `cacheSize < seq` — the reseat
`start_seq = seq − cacheSize` leaves the packet at offset `cacheSize`,
costing one counted empty-slot drop in the forced flush — and
`dropped = 0` only in the small-sequence case `1 ≤ seq ≤ cacheSize` where
the reseat is `start_seq = 1`. -/
theorem c4_restart_purges_and_reinserts (d : TridentDispatcher) (packet : PacketBuffer)
    (c : Nat) (hc : 0 < c) (hp1 : 1 ≤ packet.seq) (hseeded : d.seq ≠ 0)
    (hback : packet.seq < d.seq) (hts : d.maxTimestamp < packet.timestamp) :
    (cacheLookup d packet c).restarted = true ∧
    (cacheLookup d packet c).released = cachedList c d ∧
    (cacheLookup d packet c).expired = 0 ∧
    (cacheLookup d packet c).dropped = (if c < packet.seq then 1 else 0) ∧
    (packet ∈ (cacheLookup d packet c).delivered ∨
      ∃ i, (cacheLookup d packet c).state.cache i = some packet) := by
  rw [cacheLookup_restart hseeded hback hts]
  obtain ⟨h1, h2, h3, h4, h5, h6, h7, h8⟩ := purge_spec c d
  refine ⟨rfl, h8, rfl, ?_, ?_⟩
  · show (insertPhase c ({ (purge c d).1 with
        seq := if c < packet.seq then packet.seq - c else 1, startIndex := 0 }) packet).2.2 =
      if c < packet.seq then 1 else 0
    exact insertPhase_reseat hc _ packet (fun j hj => h1 j hj) (fun j hj => h3 j hj) rfl rfl
  · exact insertPhase_keep _ packet

theorem c4_witness :
    (0 < 4 ∧ 1 ≤ (⟨6, 7, 0⟩ : PacketBuffer).seq ∧
      (runFeed 4 freshDispatcher [⟨10, 5, 0⟩]).state.seq ≠ 0 ∧
      (⟨6, 7, 0⟩ : PacketBuffer).seq < (runFeed 4 freshDispatcher [⟨10, 5, 0⟩]).state.seq ∧
      (runFeed 4 freshDispatcher [⟨10, 5, 0⟩]).state.maxTimestamp <
        (⟨6, 7, 0⟩ : PacketBuffer).timestamp) ∧
    ((cacheLookup (runFeed 4 freshDispatcher [⟨10, 5, 0⟩]).state ⟨6, 7, 0⟩ 4).restarted = true ∧
     (cacheLookup (runFeed 4 freshDispatcher [⟨10, 5, 0⟩]).state ⟨6, 7, 0⟩ 4).released =
       cachedList 4 (runFeed 4 freshDispatcher [⟨10, 5, 0⟩]).state ∧
     (cacheLookup (runFeed 4 freshDispatcher [⟨10, 5, 0⟩]).state ⟨6, 7, 0⟩ 4).expired = 0 ∧
     (cacheLookup (runFeed 4 freshDispatcher [⟨10, 5, 0⟩]).state ⟨6, 7, 0⟩ 4).dropped =
       (if 4 < (⟨6, 7, 0⟩ : PacketBuffer).seq then 1 else 0) ∧
     ((⟨6, 7, 0⟩ : PacketBuffer) ∈
        (cacheLookup (runFeed 4 freshDispatcher [⟨10, 5, 0⟩]).state ⟨6, 7, 0⟩ 4).delivered ∨
      ∃ i, (cacheLookup (runFeed 4 freshDispatcher [⟨10, 5, 0⟩]).state ⟨6, 7, 0⟩ 4).state.cache i =
        some ⟨6, 7, 0⟩)) :=
  ⟨⟨by decide, by decide, by decide, by decide, by decide⟩,
   c4_restart_purges_and_reinserts (runFeed 4 freshDispatcher [⟨10, 5, 0⟩]).state ⟨6, 7, 0⟩ 4
     (by decide) (by decide) (by decide) (by decide) (by decide)⟩

/-- C8 (counterexample): after a restart, a packet whose timestamp lies in
the pre-restart range can still be delivered.  Delivering (seq 1000, ts
100) makes `max_timestamp = 100`; (seq 5, ts 101) triggers the restart and
reseats `start_seq = max(5 − 4, 1) = 1`; then (seq 2, ts 50), a
forward-sequence packet with a timestamp from before the restart, is
delivered. -/
theorem c8_counterexample :
    (runFeed 4 freshDispatcher [⟨1000, 100, 0⟩]).state.maxTimestamp = 100 ∧
    (runFeed 4 freshDispatcher [⟨1000, 100, 0⟩, ⟨5, 101, 0⟩]).restarts = 1 ∧
    (⟨2, 50, 0⟩ : PacketBuffer) ∈
      (runFeed 4 freshDispatcher [⟨1000, 100, 0⟩, ⟨5, 101, 0⟩, ⟨2, 50, 0⟩]).delivered := by
  refine ⟨rfl, rfl, ?_⟩
  decide

/-- C8 (amended): the restart call raises `max_timestamp` to the
restarting packet's timestamp, and from then on only BACKWARD-sequence
packets from the pre-restart timestamp range are blocked: at any later
state whose `max_timestamp` is at least the restart packet's (it is, by
monotonicity), a packet with `seq < start_seq` and a timestamp at most the
pre-restart maximum is expired — released with nothing delivered and no
state change.  The unqualified claim fails for forward-sequence packets
(see the counterexample). -/
theorem c8_restart_blocks_backward_stale (d d' : TridentDispatcher)
    (p q : PacketBuffer) (c : Nat)
    (hback : p.seq < d.seq) (hts : d.maxTimestamp < p.timestamp)
    (hmono : p.timestamp ≤ d'.maxTimestamp) (hseeded : d'.seq ≠ 0)
    (hqb : q.seq < d'.seq) (hqts : q.timestamp ≤ d.maxTimestamp) :
    (cacheLookup d p c).state.maxTimestamp = p.timestamp ∧
    (cacheLookup d' q c).delivered = [] ∧
    (cacheLookup d' q c).released = [q] ∧
    (cacheLookup d' q c).state = d' := by
  have hd : d.seq ≠ 0 := by omega
  have hq : q.timestamp ≤ d'.maxTimestamp := by omega
  refine ⟨cacheLookup_restart_max hd hback hts, ?_, ?_, ?_⟩ <;>
    rw [cacheLookup_stale hseeded hqb hq]

theorem c8_witness :
    ((⟨6, 7, 0⟩ : PacketBuffer).seq < (runFeed 4 freshDispatcher [⟨10, 5, 0⟩]).state.seq ∧
     (runFeed 4 freshDispatcher [⟨10, 5, 0⟩]).state.maxTimestamp <
       (⟨6, 7, 0⟩ : PacketBuffer).timestamp ∧
     (⟨6, 7, 0⟩ : PacketBuffer).timestamp ≤
       (runFeed 4 freshDispatcher [⟨10, 5, 0⟩, ⟨6, 7, 0⟩]).state.maxTimestamp ∧
     (runFeed 4 freshDispatcher [⟨10, 5, 0⟩, ⟨6, 7, 0⟩]).state.seq ≠ 0 ∧
     (⟨1, 3, 0⟩ : PacketBuffer).seq < (runFeed 4 freshDispatcher [⟨10, 5, 0⟩, ⟨6, 7, 0⟩]).state.seq ∧
     (⟨1, 3, 0⟩ : PacketBuffer).timestamp ≤
       (runFeed 4 freshDispatcher [⟨10, 5, 0⟩]).state.maxTimestamp) ∧
    ((cacheLookup (runFeed 4 freshDispatcher [⟨10, 5, 0⟩]).state ⟨6, 7, 0⟩ 4).state.maxTimestamp =
       (⟨6, 7, 0⟩ : PacketBuffer).timestamp ∧
     (cacheLookup (runFeed 4 freshDispatcher [⟨10, 5, 0⟩, ⟨6, 7, 0⟩]).state ⟨1, 3, 0⟩ 4).delivered
       = [] ∧
     (cacheLookup (runFeed 4 freshDispatcher [⟨10, 5, 0⟩, ⟨6, 7, 0⟩]).state ⟨1, 3, 0⟩ 4).released
       = [⟨1, 3, 0⟩] ∧
     (cacheLookup (runFeed 4 freshDispatcher [⟨10, 5, 0⟩, ⟨6, 7, 0⟩]).state ⟨1, 3, 0⟩ 4).state =
       (runFeed 4 freshDispatcher [⟨10, 5, 0⟩, ⟨6, 7, 0⟩]).state) :=
  ⟨⟨by decide, by decide, by decide, by decide, by decide, by decide⟩,
   c8_restart_blocks_backward_stale (runFeed 4 freshDispatcher [⟨10, 5, 0⟩]).state
     (runFeed 4 freshDispatcher [⟨10, 5, 0⟩, ⟨6, 7, 0⟩]).state ⟨6, 7, 0⟩ ⟨1, 3, 0⟩ 4
     (by decide) (by decide) (by decide) (by decide) (by decide) (by decide)⟩

end TridentAdapter

namespace TridentAdapter

/-- A non-head slot sits at a nonzero ring offset from the head. -/
theorem ring_offset_ne_zero {c i start : Nat} (hi : i < c) (hs : start < c)
    (hne : i ≠ start) : (i + c - start) % c ≠ 0 := by
  rcases Nat.lt_or_ge i start with h | h
  · rw [Nat.mod_eq_of_lt (by omega)]
    omega
  · have he : i + c - start = (i - start) + c := by omega
    rw [he, Nat.add_mod_right, Nat.mod_eq_of_lt (by omega)]
    omega

theorem nodup_split_ne {xs zs : List Nat} {y x : Nat}
    (hnd : (xs ++ y :: zs).Nodup) (hx : x ∈ xs) : x ≠ y := by
  rcases List.nodup_append.mp hnd with ⟨-, -, hdisj⟩
  intro he
  exact hdisj hx (he ▸ List.mem_cons_self y zs)

theorem nodup_split_ne_post {xs zs : List Nat} {y x : Nat}
    (hnd : (xs ++ y :: zs).Nodup) (hx : x ∈ zs) : y ≠ x := by
  rcases List.nodup_append.mp hnd with ⟨-, hyzs, -⟩
  rcases List.nodup_cons.mp hyzs with ⟨hy, -⟩
  intro he
  exact hy (he ▸ hx)

theorem range1_append (s m n : Nat) :
    List.range' s m ++ List.range' (s + m) n = List.range' s (m + n) := by
  have h := List.range'_append s m n 1
  rw [Nat.one_mul] at h
  rw [h, Nat.add_comm n m]

/-- A strictly increasing list of naturals drawn from `[a, b)` has at most
`b − a` elements. -/
theorem pairwise_lt_length_le : ∀ (l : List Nat) (a b : Nat),
    List.Pairwise (· < ·) l → (∀ x, x ∈ l → a ≤ x ∧ x < b) → l.length ≤ b - a := by
  intro l
  induction l with
  | nil =>
    intro a b _ _
    simp
  | cons x xs ih =>
    intro a b hpw hbd
    obtain ⟨hx, hxs⟩ := List.pairwise_cons.mp hpw
    have h1 := hbd x (List.mem_cons_self x xs)
    have h2 : ∀ y, y ∈ xs → x + 1 ≤ y ∧ y < b := by
      intro y hy
      exact ⟨hx y hy, (hbd y (List.mem_cons_of_mem x hy)).2⟩
    have h3 := ih (x + 1) b hxs h2
    simp only [List.length_cons]
    omega

/-- A strictly increasing list of `n` naturals drawn from `[lo, lo+n)` is
exactly `lo, lo+1, …, lo+n−1`. -/
theorem sorted_bounded_eq_range : ∀ (l : List Nat) (lo : Nat),
    List.Pairwise (· < ·) l → (∀ x, x ∈ l → lo ≤ x ∧ x < lo + l.length) →
    l = List.range' lo l.length := by
  intro l
  induction l with
  | nil =>
    intro lo _ _
    rfl
  | cons x xs ih =>
    intro lo hpw hbd
    obtain ⟨hx, hxs⟩ := List.pairwise_cons.mp hpw
    have h1 := hbd x (List.mem_cons_self x xs)
    have hxlo : x = lo := by
      by_contra hne
      have h2 : ∀ y, y ∈ xs → x + 1 ≤ y ∧ y < lo + (x :: xs).length := fun y hy =>
        ⟨hx y hy, (hbd y (List.mem_cons_of_mem x hy)).2⟩
      have h3 := pairwise_lt_length_le xs (x + 1) (lo + (x :: xs).length) hxs h2
      simp only [List.length_cons] at h1 h3
      omega
    subst hxlo
    have h4 : xs = List.range' (x + 1) xs.length := by
      apply ih (x + 1) hxs
      intro y hy
      refine ⟨hx y hy, ?_⟩
      have h5 := (hbd y (List.mem_cons_of_mem x hy)).2
      simp only [List.length_cons] at h5
      omega
    simp only [List.length_cons]
    rw [List.range'_succ, ← h4]

/-- An in-window insert keeps every previously cached packet: it is either
delivered by the closing in-order flush or still cached afterwards. -/
theorem insertPhase_preserve {c : Nat} (hc : 0 < c) (d0 : TridentDispatcher)
    (packet : PacketBuffer) (hstart : d0.startIndex < c)
    (hseq0 : d0.seq ≤ packet.seq) (hoff : packet.seq < d0.seq + c)
    (hcur : d0.cache ((d0.startIndex + (packet.seq - d0.seq)) % c) = none)
    (q : PacketBuffer) (i : Nat) (hi : i < c) (hq : d0.cache i = some q) :
    q ∈ (insertPhase c d0 packet).2.1 ∨
      ∃ i1, (insertPhase c d0 packet).1.cache i1 = some q := by
  obtain ⟨s2, s3, hs2, hs3, hrc, _, _, _, _, _, hout, _⟩ := insertPhase_decomp c d0 packet
  set acc0 : FlushAcc := ({ disp := maxUpd d0 packet.timestamp, offset := packet.seq - (maxUpd d0 packet.timestamp).seq, dropped := 0, out := [] } : FlushAcc) with hacc0def
  have ha0off : acc0.offset = packet.seq - d0.seq := by
    show packet.seq - (maxUpd d0 packet.timestamp).seq = _
    rw [maxUpd_seq]
  have hofflt : acc0.offset < c := by
    rw [ha0off]
    omega
  have hf1 : forcedFlush c 0 c acc0 = acc0 := forcedFlush_noop _ _ _ _ hofflt
  have hbg : bulkGap c acc0 = acc0 := bulkGap_id (by omega)
  have hs2' : s2 = acc0 := by rw [hs2, hf1, hbg]
  have hcache2 : s2.disp.cache = d0.cache := by
    rw [hs2']
    show (maxUpd d0 packet.timestamp).cache = d0.cache
    exact maxUpd_cache d0 packet.timestamp
  have hstart2 : s2.disp.startIndex = d0.startIndex := by
    rw [hs2']
    show (maxUpd d0 packet.timestamp).startIndex = d0.startIndex
    exact maxUpd_start d0 packet.timestamp
  have hoff2 : s2.offset = packet.seq - d0.seq := by
    rw [hs2']
    exact ha0off
  have hine : i ≠ (s2.disp.startIndex + s2.offset) % c := by
    intro he
    rw [hstart2, hoff2] at he
    rw [he, hcur] at hq
    cases hq
  have hq1 : (place c s2 packet).cache i = some q := by
    rw [place_cache, setF_ne _ _ hine, hcache2]
    exact hq
  have h := inOrderFlush_mem_preserve c packet.timestamp 0 c
    { disp := place c s2 packet, dropped := s2.dropped, out := [] } q i hq1
  rw [← hs3] at h
  have hs2out : s2.out = ([] : List PacketBuffer) := by rw [hs2']
  rcases h with h | ⟨i1, h⟩
  · left
    rw [hout, hs2out]
    simp only [List.nil_append]
    exact h
  · right
    rw [hrc]
    exact ⟨i1, h⟩

end TridentAdapter

namespace TridentAdapter

/-- One in-window insert under the C6 invariant data: no drop is counted,
the window stays well-formed with uniform timestamps, the delivery log
extends to exactly `1, 2, …` in order, and every fed packet remains
delivered-or-cached (and conversely). -/
theorem c6_insert_step {c : Nat} {t : Int} (hc : 0 < c) (d0 : TridentDispatcher)
    (p : PacketBuffer) (Qd Qa : List PacketBuffer)
    (hwf : WF c d0)
    (hts0 : ∀ j, j < c → (d0.timestamp j = 0 ∨ d0.timestamp j = t))
    (hpt : p.timestamp = t)
    (hseqlen : d0.seq = Qd.length + 1)
    (hdel : Qd.map PacketBuffer.seq = List.range' 1 Qd.length)
    (hseq0 : d0.seq ≤ p.seq) (hoff : p.seq < d0.seq + c)
    (hcur : d0.cache ((d0.startIndex + (p.seq - d0.seq)) % c) = none)
    (hcons : ∀ q, q ∈ Qa → q ∈ Qd ∨ ∃ i, i < c ∧ d0.cache i = some q)
    (hdelmem : ∀ q, q ∈ Qd → q ∈ Qa)
    (hcachemem : ∀ i q, i < c → d0.cache i = some q → q ∈ Qa) :
    WF c (insertPhase c d0 p).1 ∧
    (insertPhase c d0 p).2.2 = 0 ∧
    (∀ j, j < c → ((insertPhase c d0 p).1.timestamp j = 0 ∨
      (insertPhase c d0 p).1.timestamp j = t)) ∧
    (insertPhase c d0 p).1.seq = (Qd.length + (insertPhase c d0 p).2.1.length) + 1 ∧
    ((Qd ++ (insertPhase c d0 p).2.1).map PacketBuffer.seq =
      List.range' 1 (Qd ++ (insertPhase c d0 p).2.1).length) ∧
    (∀ q, q ∈ Qa ++ [p] → q ∈ Qd ++ (insertPhase c d0 p).2.1 ∨
      ∃ i, i < c ∧ (insertPhase c d0 p).1.cache i = some q) ∧
    (∀ q, q ∈ Qd ++ (insertPhase c d0 p).2.1 → q ∈ Qa ++ [p]) ∧
    (∀ i q, i < c → (insertPhase c d0 p).1.cache i = some q → q ∈ Qa ++ [p]) := by
  obtain ⟨hst, hhead, hslot, hhi⟩ := hwf
  obtain ⟨hret, htsb, hcnt, hcpt, hosub⟩ := insertPhase_inwin hc d0 p hst hts0 hpt hseq0 hoff hcur
  obtain ⟨hm1, hm2, hm3, hm4, hm5, hm6⟩ := insertPhase_main hc d0 p hst hslot hhi hseq0
  obtain ⟨hadv, _, hmono⟩ := insertPhase_seq_adv c d0 p
  rw [hret] at hadv
  refine ⟨⟨hm1, hm4, hm2, hm3⟩, hret, htsb, by omega, ?_, ?_, ?_, ?_⟩
  · have hlout : (insertPhase c d0 p).2.1.map PacketBuffer.seq =
        List.range' d0.seq ((insertPhase c d0 p).2.1.map PacketBuffer.seq).length := by
      apply sorted_bounded_eq_range _ d0.seq hm5
      intro x hx
      rw [List.mem_map] at hx
      obtain ⟨q, hq, rfl⟩ := hx
      have h6 := hm6 q hq
      rw [List.length_map]
      exact ⟨h6.1, by omega⟩
    rw [List.length_map] at hlout
    rw [List.map_append, hdel, List.length_append, hlout]
    have he : d0.seq = 1 + Qd.length := by omega
    rw [he]
    exact range1_append 1 Qd.length (insertPhase c d0 p).2.1.length
  · intro q hq
    rcases List.mem_append.mp hq with hq | hq
    · rcases hcons q hq with hq1 | ⟨i, hi, hq1⟩
      · left
        exact List.mem_append.mpr (Or.inl hq1)
      · rcases insertPhase_preserve hc d0 p hst hseq0 hoff hcur q i hi hq1 with h | ⟨i1, h⟩
        · left
          exact List.mem_append.mpr (Or.inr h)
        · right
          by_cases hi1 : i1 < c
          · exact ⟨i1, hi1, h⟩
          · rw [hm3 i1 (by omega)] at h
            cases h
    · rw [List.mem_singleton] at hq
      subst hq
      rcases insertPhase_keep d0 q with h | ⟨i1, h⟩
      · left
        exact List.mem_append.mpr (Or.inr h)
      · right
        by_cases hi1 : i1 < c
        · exact ⟨i1, hi1, h⟩
        · rw [hm3 i1 (by omega)] at h
          cases h
  · intro q hq
    rcases List.mem_append.mp hq with hq | hq
    · exact List.mem_append.mpr (Or.inl (hdelmem q hq))
    · rcases (insertPhase_mem hc d0 p hst).2 q hq with ⟨i0, hi0, h⟩ | rfl
      · exact List.mem_append.mpr (Or.inl (hcachemem i0 q hi0 h))
      · exact List.mem_append.mpr (Or.inr (List.mem_singleton.mpr rfl))
  · intro i q hi hq
    rcases (insertPhase_mem hc d0 p hst).1 q i hi hq with ⟨i0, hi0, h⟩ | rfl
    · exact List.mem_append.mpr (Or.inl (hcachemem i0 q hi0 h))
    · exact List.mem_append.mpr (Or.inr (List.mem_singleton.mpr rfl))

end TridentAdapter

namespace TridentAdapter

/-- One `findAndAdd` step preserves the C6 invariant, given the global
feed hypotheses (distinct sequences `1..K`, uniform timestamps, reorder
span below the window size, first packet sequence 1). -/
theorem c6_step {c : Nat} {t : Int} (hc : 0 < c) (Q R' : List PacketBuffer)
    (p : PacketBuffer) (ps : List PacketBuffer) (hps : ps = Q ++ p :: R')
    (hnd : (ps.map PacketBuffer.seq).Nodup)
    (hmem : ∀ s, 1 ≤ s → s ≤ ps.length → s ∈ ps.map PacketBuffer.seq)
    (hub : ∀ q, q ∈ ps → 1 ≤ q.seq ∧ q.seq ≤ ps.length)
    (hpt : p.timestamp = t)
    (hspan : ∀ q', q' ∈ R' → q'.seq < p.seq → p.seq - q'.seq < c)
    (hhead : Q = [] → p.seq = 1)
    (acc : RunAcc) (hinv : Inv c t Q acc) :
    Inv c t (Q ++ [p]) (runStep c acc p) := by
  obtain ⟨hwf, hun, hemp, hlen, hdel, hcons, hdelmem, hcachemem, htsb, hdr0, hex0⟩ := hinv
  have hndsplit : (Q.map PacketBuffer.seq ++ p.seq :: R'.map PacketBuffer.seq).Nodup := by
    rw [hps] at hnd
    simpa using hnd
  by_cases hz : acc.state.seq = 0
  · -- unseeded: necessarily the first packet, which seeds the window at 1
    have hQ : Q = [] := by
      by_contra h
      have := hlen h
      omega
    subst hQ
    have hdel0 : acc.delivered = [] := (hemp rfl).2
    have hp1 : p.seq = 1 := hhead rfl
    have hempty := hun hz
    have hwf0 : WF c ({ acc.state with seq := p.seq } : TridentDispatcher) := by
      refine ⟨hwf.1, hwf.2.1, ?_, hwf.2.2.2⟩
      intro i hi q hq
      have hq' : acc.state.cache i = some q := hq
      rw [hempty i] at hq'
      cases hq'
    have hts0 : ∀ j, j < c → (({ acc.state with seq := p.seq } : TridentDispatcher).timestamp j
        = 0 ∨ ({ acc.state with seq := p.seq } : TridentDispatcher).timestamp j = t) := htsb
    have hseqlen : ({ acc.state with seq := p.seq } : TridentDispatcher).seq =
        List.length ([] : List PacketBuffer) + 1 := by
      show p.seq = 0 + 1
      omega
    have hcm0 : ∀ i q, i < c →
        ({ acc.state with seq := p.seq } : TridentDispatcher).cache i = some q →
        q ∈ ([] : List PacketBuffer) := by
      intro i q hi hq
      have hq' : acc.state.cache i = some q := hq
      rw [hempty i] at hq'
      cases hq'
    obtain ⟨hW, hR, hT, hS, hD, hF, hG, hH⟩ :=
      c6_insert_step hc ({ acc.state with seq := p.seq }) p [] [] hwf0 hts0 hpt hseqlen rfl
        (le_refl p.seq) (by show p.seq < p.seq + c; omega) (hempty _)
        (fun q hq => absurd hq (List.not_mem_nil q))
        (fun q hq => absurd hq (List.not_mem_nil q)) hcm0
    simp only [List.nil_append, List.length_nil, Nat.zero_add] at hS hD hF hG hH
    have hcl := @cacheLookup_seed acc.state p c hz
    have hstate : (runStep c acc p).state = (insertPhase c { acc.state with seq := p.seq } p).1 := by
      show (cacheLookup acc.state p c).state = _
      rw [hcl]
    have hdeq : (runStep c acc p).delivered =
        acc.delivered ++ (insertPhase c { acc.state with seq := p.seq } p).2.1 := by
      show acc.delivered ++ (cacheLookup acc.state p c).delivered = _
      rw [hcl]
    have hdrq : (runStep c acc p).rxDropped =
        acc.rxDropped + (insertPhase c { acc.state with seq := p.seq } p).2.2 := by
      show acc.rxDropped + (cacheLookup acc.state p c).dropped = _
      rw [hcl]
    have hexq : (runStep c acc p).rxExpired = acc.rxExpired + 0 := by
      show acc.rxExpired + (cacheLookup acc.state p c).expired = _
      rw [hcl]
    refine ⟨?_, ?_, ?_, ?_, ?_, ?_, ?_, ?_, ?_, ?_, ?_⟩
    · rw [hstate]
      exact hW
    · intro h0
      rw [hstate, hS] at h0
      omega
    · intro h
      exact absurd h (by simp)
    · intro _
      rw [hstate, hdeq, hdel0]
      simp only [List.nil_append]
      exact hS
    · rw [hdeq, hdel0]
      simp only [List.nil_append]
      exact hD
    · intro q hq
      simp only [List.nil_append] at hq
      rcases hF q hq with h | ⟨i, hi, h⟩
      · left
        rw [hdeq, hdel0]
        simp only [List.nil_append]
        exact h
      · right
        exact ⟨i, hi, by rw [hstate]; exact h⟩
    · intro q hq
      rw [hdeq, hdel0] at hq
      simp only [List.nil_append] at hq ⊢
      exact hG q hq
    · intro i q hi hq
      rw [hstate] at hq
      have := hH i q hi hq
      simpa using this
    · intro j hj
      rw [hstate]
      exact hT j hj
    · rw [hdrq, hdr0, hR]
    · rw [hexq, hex0]
  · -- seeded: the packet is in-window and fresh
    have hQne : Q ≠ [] := fun h => hz (hemp h).1
    have hseqlen := hlen hQne
    have hp_in : p ∈ ps := by
      rw [hps]
      exact List.mem_append.mpr (Or.inr (List.mem_cons_self p R'))
    have hubp := hub p hp_in
    have hfwd : acc.state.seq ≤ p.seq := by
      by_contra hnf
      have hple : p.seq ≤ acc.delivered.length := by omega
      have hmr : p.seq ∈ List.range' 1 acc.delivered.length :=
        List.mem_range'_1.mpr ⟨hubp.1, by omega⟩
      rw [← hdel] at hmr
      rw [List.mem_map] at hmr
      obtain ⟨q, hq, hqe⟩ := hmr
      have hqQ : q ∈ Q := hdelmem q hq
      have hqm : q.seq ∈ Q.map PacketBuffer.seq := List.mem_map_of_mem PacketBuffer.seq hqQ
      exact absurd hqe (nodup_split_ne hndsplit hqm)
    have hoffb : p.seq < acc.state.seq + c := by
      by_contra hge
      have hs1 : 1 ≤ acc.state.seq := by omega
      have hsK : acc.state.seq ≤ ps.length := by omega
      have hin := hmem acc.state.seq hs1 hsK
      rw [List.mem_map] at hin
      obtain ⟨w, hw, hwe⟩ := hin
      rw [hps] at hw
      rcases List.mem_append.mp hw with hw | hw
      · rcases hcons w hw with hwd | ⟨i, hi, hq⟩
        · have : w.seq ∈ List.range' 1 acc.delivered.length := by
            rw [← hdel]
            exact List.mem_map_of_mem PacketBuffer.seq hwd
          rw [List.mem_range'_1] at this
          omega
        · have hine : i ≠ acc.state.startIndex := by
            intro he
            rw [he, hwf.2.1] at hq
            cases hq
          have hslv := hwf.2.2.1 i hi w hq
          have hnz := ring_offset_ne_zero hi hwf.1 hine
          omega
      · rcases List.mem_cons.mp hw with hw | hw
        · subst hw
          omega
        · have := hspan w hw (by omega)
          omega
    have hcurN : acc.state.cache
        ((acc.state.startIndex + (p.seq - acc.state.seq)) % c) = none := by
      cases hcv : acc.state.cache ((acc.state.startIndex + (p.seq - acc.state.seq)) % c) with
      | none => rfl
      | some w =>
        exfalso
        have hclt : (acc.state.startIndex + (p.seq - acc.state.seq)) % c < c := Nat.mod_lt _ hc
        have hslv := hwf.2.2.1 _ hclt w hcv
        have hio := ins_offset hwf.1 (show p.seq - acc.state.seq < c by omega)
        rw [hio] at hslv
        have hwp : w.seq = p.seq := by omega
        have hwQ : w ∈ Q := hcachemem _ w hclt hcv
        have hwm : w.seq ∈ Q.map PacketBuffer.seq := List.mem_map_of_mem PacketBuffer.seq hwQ
        exact absurd hwp (nodup_split_ne hndsplit hwm)
    obtain ⟨hW, hR, hT, hS, hD, hF, hG, hH⟩ :=
      c6_insert_step hc acc.state p acc.delivered Q hwf htsb hpt hseqlen hdel hfwd hoffb hcurN
        hcons hdelmem hcachemem
    have hcl := @cacheLookup_fwd acc.state p c hz hfwd
    have hstate : (runStep c acc p).state = (insertPhase c acc.state p).1 := by
      show (cacheLookup acc.state p c).state = _
      rw [hcl]
    have hdeq : (runStep c acc p).delivered =
        acc.delivered ++ (insertPhase c acc.state p).2.1 := by
      show acc.delivered ++ (cacheLookup acc.state p c).delivered = _
      rw [hcl]
    have hdrq : (runStep c acc p).rxDropped =
        acc.rxDropped + (insertPhase c acc.state p).2.2 := by
      show acc.rxDropped + (cacheLookup acc.state p c).dropped = _
      rw [hcl]
    have hexq : (runStep c acc p).rxExpired = acc.rxExpired + 0 := by
      show acc.rxExpired + (cacheLookup acc.state p c).expired = _
      rw [hcl]
    refine ⟨?_, ?_, ?_, ?_, ?_, ?_, ?_, ?_, ?_, ?_, ?_⟩
    · rw [hstate]
      exact hW
    · intro h0
      rw [hstate] at h0
      exact absurd h0 (by omega)
    · intro h
      exact absurd h (by simp)
    · intro _
      rw [hstate, hdeq, List.length_append]
      exact hS
    · rw [hdeq]
      exact hD
    · intro q hq
      rcases hF q hq with h | ⟨i, hi, h⟩
      · left
        rw [hdeq]
        exact h
      · right
        exact ⟨i, hi, by rw [hstate]; exact h⟩
    · intro q hq
      rw [hdeq] at hq
      exact hG q hq
    · intro i q hi hq
      rw [hstate] at hq
      exact hH i q hi hq
    · intro j hj
      rw [hstate]
      exact hT j hj
    · rw [hdrq, hdr0, hR]
    · rw [hexq, hex0]

end TridentAdapter

namespace TridentAdapter

/-- The C6 invariant holds after feeding the whole list. -/
theorem c6_run {c : Nat} {t : Int} (hc : 0 < c) (ps : List PacketBuffer)
    (hnd : (ps.map PacketBuffer.seq).Nodup)
    (hmem : ∀ s, 1 ≤ s → s ≤ ps.length → s ∈ ps.map PacketBuffer.seq)
    (hub : ∀ q, q ∈ ps → 1 ≤ q.seq ∧ q.seq ≤ ps.length)
    (hts : ∀ q, q ∈ ps → q.timestamp = t)
    (hspan : ∀ pre q post, ps = pre ++ q :: post → ∀ q', q' ∈ post → q'.seq < q.seq →
      q.seq - q'.seq < c)
    (hhead : ∀ q post, ps = q :: post → q.seq = 1) :
    Inv c t ps (runFeed c freshDispatcher ps) := by
  have hinit : Inv c t [] (initAcc freshDispatcher) := by
    refine ⟨freshDispatcher_wf hc, fun _ i => rfl, fun _ => ⟨rfl, rfl⟩, fun h => absurd rfl h,
      rfl, fun q hq => absurd hq (List.not_mem_nil q), fun q hq => absurd hq (List.not_mem_nil q),
      fun i q hi hq => Option.noConfusion hq, fun j hj => Or.inl rfl, rfl, rfl⟩
  have haux : ∀ (R Q : List PacketBuffer) (acc : RunAcc), ps = Q ++ R →
      Inv c t Q acc → Inv c t (Q ++ R) (R.foldl (runStep c) acc) := by
    intro R
    induction R with
    | nil =>
      intro Q acc hqe hinv
      simpa using hinv
    | cons p R' ih =>
      intro Q acc hqe hinv
      rw [List.foldl_cons]
      have hstep := c6_step hc Q R' p ps hqe hnd hmem hub
        (hts p (by rw [hqe]; exact List.mem_append.mpr (Or.inr (List.mem_cons_self p R'))))
        (fun q' hq' hlt => hspan Q p R' hqe q' hq' hlt)
        (fun hQ => hhead p R' (by rw [hqe, hQ]; rfl))
        acc hinv
      have hassoc : ps = (Q ++ [p]) ++ R' := by
        rw [hqe]
        simp
      have h2 := ih (Q ++ [p]) (runStep c acc p) hassoc hstep
      have he : (Q ++ [p]) ++ R' = Q ++ p :: R' := by simp
      rw [he] at h2
      exact h2
  have h := haux ps [] (initAcc freshDispatcher) rfl hinit
  simpa using h

/-- The C6 invariant over the whole feed forces full delivery: nothing can
remain cached, because the smallest undelivered sequence could neither be
cached (cached offsets are positive) nor delivered. -/
theorem c6_final {c : Nat} {t : Int} (hc : 0 < c) (ps : List PacketBuffer) (acc : RunAcc)
    (hmem : ∀ s, 1 ≤ s → s ≤ ps.length → s ∈ ps.map PacketBuffer.seq)
    (hub : ∀ q, q ∈ ps → 1 ≤ q.seq ∧ q.seq ≤ ps.length)
    (hinv : Inv c t ps acc) :
    acc.delivered.map PacketBuffer.seq = List.range' 1 ps.length ∧
    acc.rxDropped = 0 ∧ acc.rxExpired = 0 := by
  obtain ⟨hwf, hun, hemp, hlen, hdel, hcons, hdelmem, hcachemem, htsb, hdr0, hex0⟩ := hinv
  refine ⟨?_, hdr0, hex0⟩
  by_cases hps : ps = []
  · subst hps
    have hd0 : acc.delivered = [] := by
      cases hde : acc.delivered with
      | nil => rfl
      | cons q l =>
        exact absurd (hdelmem q (by rw [hde]; exact List.mem_cons_self q l))
          (List.not_mem_nil q)
    rw [hd0]
    rfl
  · have hK : acc.delivered.length = ps.length := by
      have hle : acc.delivered.length ≤ ps.length := by
        by_contra hgt
        have hm : acc.delivered.length ∈ List.range' 1 acc.delivered.length :=
          List.mem_range'_1.mpr ⟨by omega, by omega⟩
        rw [← hdel] at hm
        rw [List.mem_map] at hm
        obtain ⟨q, hq, hqe⟩ := hm
        have := hub q (hdelmem q hq)
        omega
      by_contra hne
      have hlt : acc.delivered.length < ps.length := by omega
      have hsm := hmem (acc.delivered.length + 1) (by omega) (by omega)
      rw [List.mem_map] at hsm
      obtain ⟨w, hw, hwe⟩ := hsm
      rcases hcons w hw with hwd | ⟨i, hi, hq⟩
      · have hmr : w.seq ∈ List.range' 1 acc.delivered.length := by
          rw [← hdel]
          exact List.mem_map_of_mem PacketBuffer.seq hwd
        rw [List.mem_range'_1] at hmr
        omega
      · have hseqv := hlen hps
        have hine : i ≠ acc.state.startIndex := by
          intro he
          rw [he, hwf.2.1] at hq
          cases hq
        have hslv := hwf.2.2.1 i hi w hq
        have hnz := ring_offset_ne_zero hi hwf.1 hine
        omega
    rw [hdel, hK]

/-- C6 (counterexample): the window seeds at the first packet's sequence,
not at 1, so a permutation whose first packet is not sequence 1 breaks
the claim even with reorder distance below `cacheSize`: with
`cacheSize = 2`, feeding (seq 2, ts 3) then (seq 1, ts 3) — a permutation
of 1..2 with reorder distance 1 — delivers only sequence 2 and expires
packet 1. -/
theorem c6_counterexample :
    (([(⟨2, 3, 0⟩ : PacketBuffer), ⟨1, 3, 0⟩].map PacketBuffer.seq).Perm
      (List.range' 1 2)) ∧
    (∀ pre q post, ([(⟨2, 3, 0⟩ : PacketBuffer), ⟨1, 3, 0⟩] : List PacketBuffer) =
        pre ++ q :: post → ∀ q', q' ∈ post → q'.seq < q.seq → q.seq - q'.seq < 2) ∧
    (runFeed 2 freshDispatcher [⟨2, 3, 0⟩, ⟨1, 3, 0⟩]).rxExpired = 1 ∧
    ¬ (runFeed 2 freshDispatcher [⟨2, 3, 0⟩, ⟨1, 3, 0⟩]).delivered.map PacketBuffer.seq =
        List.range' 1 2 := by
  refine ⟨by decide, ?_, rfl, ?_⟩
  · intro pre q post heq q' hq' hlt
    cases pre with
    | nil =>
      injection heq with h1 h2
      subst h1
      subst h2
      rw [List.mem_singleton] at hq'
      subst hq'
      decide
    | cons a pre' =>
      cases pre' with
      | nil =>
        injection heq with h1 h2
        injection h2 with h3 h4
        subst h4
        exact absurd hq' (List.not_mem_nil q')
      | cons b pre'' =>
        injection heq with h1 h2
        injection h2 with h3 h4
        have h5 := List.append_eq_nil.mp h4.symm
        exact absurd h5.2 (List.cons_ne_nil q post)
  · intro hcontra
    have he : (runFeed 2 freshDispatcher [⟨2, 3, 0⟩, ⟨1, 3, 0⟩]).delivered.map PacketBuffer.seq
        = [2] := rfl
    rw [he] at hcontra
    exact absurd hcontra (by decide)

/-- C6 (amended): feeding a permutation of `1..K` whose FIRST packet has
sequence 1, with uniform timestamps and with every backward inversion
spanning less than `cacheSize` sequence numbers, delivers exactly `1..K`
in increasing order, with no drop and no expiry counted.  The original
claim needs the first-packet qualification — the window seeds at the
first packet's sequence, expiring every earlier sequence (see the
counterexample) — and tacitly assumes timestamps do not spread past the
2-second timeout, which the uniform-timestamp hypothesis captures. -/
theorem c6_inorder_delivery (c : Nat) (hc : 0 < c) (t : Int) (ps : List PacketBuffer)
    (hperm : (ps.map PacketBuffer.seq).Perm (List.range' 1 ps.length))
    (hts : ∀ q, q ∈ ps → q.timestamp = t)
    (hspan : ∀ pre q post, ps = pre ++ q :: post → ∀ q', q' ∈ post → q'.seq < q.seq →
      q.seq - q'.seq < c)
    (hhead : ∀ q post, ps = q :: post → q.seq = 1) :
    (runFeed c freshDispatcher ps).delivered.map PacketBuffer.seq =
      List.range' 1 ps.length ∧
    (runFeed c freshDispatcher ps).rxDropped = 0 ∧
    (runFeed c freshDispatcher ps).rxExpired = 0 := by
  have hnd : (ps.map PacketBuffer.seq).Nodup :=
    hperm.nodup_iff.mpr (List.nodup_range' 1 ps.length)
  have hmem : ∀ s, 1 ≤ s → s ≤ ps.length → s ∈ ps.map PacketBuffer.seq := by
    intro s h1 h2
    exact hperm.mem_iff.mpr (List.mem_range'_1.mpr ⟨h1, by omega⟩)
  have hub : ∀ q, q ∈ ps → 1 ≤ q.seq ∧ q.seq ≤ ps.length := by
    intro q hq
    have hmr : q.seq ∈ List.range' 1 ps.length :=
      hperm.mem_iff.mp (List.mem_map_of_mem PacketBuffer.seq hq)
    rw [List.mem_range'_1] at hmr
    omega
  exact c6_final hc ps (runFeed c freshDispatcher ps) hmem hub
    (c6_run hc ps hnd hmem hub hts hspan hhead)

theorem c6_witness :
    (0 < 2 ∧
     ([(⟨1, 7, 0⟩ : PacketBuffer), ⟨2, 7, 0⟩].map PacketBuffer.seq).Perm
       (List.range' 1 [(⟨1, 7, 0⟩ : PacketBuffer), ⟨2, 7, 0⟩].length) ∧
     (∀ q, q ∈ [(⟨1, 7, 0⟩ : PacketBuffer), ⟨2, 7, 0⟩] → q.timestamp = 7)) ∧
    ((runFeed 2 freshDispatcher [⟨1, 7, 0⟩, ⟨2, 7, 0⟩]).delivered.map PacketBuffer.seq =
       List.range' 1 [(⟨1, 7, 0⟩ : PacketBuffer), ⟨2, 7, 0⟩].length ∧
     (runFeed 2 freshDispatcher [⟨1, 7, 0⟩, ⟨2, 7, 0⟩]).rxDropped = 0 ∧
     (runFeed 2 freshDispatcher [⟨1, 7, 0⟩, ⟨2, 7, 0⟩]).rxExpired = 0) := by
  refine ⟨⟨by decide, by decide, by decide⟩, ?_⟩
  refine c6_inorder_delivery 2 (by decide) 7 [⟨1, 7, 0⟩, ⟨2, 7, 0⟩] (by decide) (by decide)
    ?_ ?_
  · intro pre q post heq q' hq' hlt
    cases pre with
    | nil =>
      injection heq with h1 h2
      subst h1
      subst h2
      rw [List.mem_singleton] at hq'
      subst hq'
      exact absurd hlt (by decide)
    | cons a pre' =>
      cases pre' with
      | nil =>
        injection heq with h1 h2
        injection h2 with h3 h4
        subst h4
        exact absurd hq' (List.not_mem_nil q')
      | cons b pre'' =>
        injection heq with h1 h2
        injection h2 with h3 h4
        have h5 := List.append_eq_nil.mp h4.symm
        exact absurd h5.2 (List.cons_ne_nil q post)
  · intro q post h
    injection h with h1 h2
    subst h1
    rfl

end TridentAdapter
